import Mathlib

/-! go-nginx: a shallow embedding of the configuration parser and its helpers

The development embeds `parser.go` and `helpers.go` of the package and proves
properties of the embedded functions.

Modelling conventions

* A Go `string` is a `Str`, the list of its characters.  Offsets produced by
  `strings.Index`, `range` loops and slice expressions are positions in that
  list; they coincide with Go's byte offsets on ASCII text, and every
  character the parser inspects (quotes, braces, hash, semicolon, space,
  parentheses) is ASCII.
* A Go function that returns `(..., error)` returns a `Res`: `ok` for a nil
  error, `error` for a non-nil error (the source then always returns the
  zero results: cursor `-1`, nil node), `panic` for a run-time panic (index or
  slice bounds, write to a nil map).  The compound block parsers run their
  loop with a step budget; `diverge` is the outcome of an exhausted budget.
* A Go `map[string]V` is `GoMap V`: `none` is the nil map, `some m` a map kept
  as an association list with one entry per key.
* Pointers to nodes are the nodes themselves, `Option` where the source tests
  or leaves them nil; the non-owning `Parent` back-references are left out.
-/

namespace Nginx

/-- A Go string, as the list of its characters. -/
abbrev Str := List Char

/-- Outcome of a call of a fallible Go function. -/
inductive Res (α : Type) where
  | ok : α → Res α
  | error : String → Res α
  | panic : String → Res α
  | diverge : Res α
  deriving DecidableEq, Repr

namespace Res

/-- Sequencing: anything but `ok` aborts the rest of the function body. -/
def bind {α β : Type} : Res α → (α → Res β) → Res β
  | ok a, f => f a
  | error e, _ => error e
  | panic p, _ => panic p
  | diverge, _ => diverge

instance : Monad Res where
  pure := Res.ok
  bind := Res.bind

/-- True exactly for a normal return with a nil error. -/
def isOk {α : Type} : Res α → Bool
  | ok _ => true
  | _ => false

/-- True exactly for a return with a non-nil error. -/
def isError {α : Type} : Res α → Bool
  | error _ => true
  | _ => false

/-- True exactly for a run-time panic. -/
def isPanic {α : Type} : Res α → Bool
  | panic _ => true
  | _ => false

end Res

/-! ## The Go standard library functions the package calls -/

/-- The double quote character. -/
def dquote : Char := Char.ofNat 34

/-- The single quote character. -/
def squote : Char := Char.ofNat 39

/-- Go `unicode.IsSpace`. -/
def isSpace (c : Char) : Bool :=
  c = ' ' || c = '\t' || c = '\n' || c = '\r' || c.toNat = 11 || c.toNat = 12 ||
  c.toNat = 0x85 || c.toNat = 0xA0 || c.toNat = 0x1680 ||
  (0x2000 ≤ c.toNat && c.toNat ≤ 0x200A) || c.toNat = 0x2028 || c.toNat = 0x2029 ||
  c.toNat = 0x202F || c.toNat = 0x205F || c.toNat = 0x3000

/-- Go `strings.TrimSpace`. -/
def trimSpace (s : Str) : Str :=
  ((s.dropWhile isSpace).reverse.dropWhile isSpace).reverse

/-- Go `strings.TrimRight(s, cutset)`. -/
def trimRight (s cutset : Str) : Str :=
  (s.reverse.dropWhile (fun c => decide (c ∈ cutset))).reverse

/-- Go `strings.Index`, from position `i` on: the first offset at which `sub`
occurs, `-1` when there is none. -/
def indexFrom (sub : Str) : Str → Nat → Int
  | [], i => if sub = [] then (i : Int) else -1
  | c :: cs, i => if sub.isPrefixOf (c :: cs) then (i : Int) else indexFrom sub cs (i + 1)

/-- Go `strings.Index(s, sub)`. -/
def stringsIndex (s sub : Str) : Int := indexFrom sub s 0

/-- Go `strings.LastIndex`, from position `i` on, `best` being the last
occurrence seen so far. -/
def lastIndexFrom (sub : Str) : Str → Nat → Int → Int
  | [], i, best => if sub = [] then (i : Int) else best
  | c :: cs, i, best =>
    lastIndexFrom sub cs (i + 1) (if sub.isPrefixOf (c :: cs) then (i : Int) else best)

/-- Go `strings.LastIndex(s, sub)`. -/
def stringsLastIndex (s sub : Str) : Int := lastIndexFrom sub s 0 (-1)

/-- Go `strings.Contains(s, sub)`. -/
def stringsContains (s sub : Str) : Bool := decide (0 ≤ stringsIndex s sub)

/-- Go `strings.Count(s, sep)` for a separator of one character. -/
def stringsCount (s : Str) (sep : Char) : Nat := s.count sep

/-- One pass of Go `strings.Replace(s, "  ", " ", -1)`: every non-overlapping
pair of spaces, left to right, becomes one space. -/
def replaceDouble : Str → Str
  | [] => []
  | [a] => [a]
  | a :: b :: rest =>
    if a = ' ' ∧ b = ' ' then ' ' :: replaceDouble rest
    else a :: replaceDouble (b :: rest)

/-- Go `strings.Join(elems, sep)`. -/
def stringsJoin : List Str → Str → Str
  | [], _ => []
  | [a], _ => a
  | a :: b :: rest, sep => a ++ sep ++ stringsJoin (b :: rest) sep

/-- Go `strings.Fields`, scanning with the field being read in `cur`
(reversed). -/
def fieldsFrom : Str → Str → List Str
  | [], cur => if cur = [] then [] else [cur.reverse]
  | c :: cs, cur =>
    if isSpace c then
      (if cur = [] then fieldsFrom cs [] else cur.reverse :: fieldsFrom cs [])
    else fieldsFrom cs (c :: cur)

/-- Go `strings.Fields(s)`. -/
def stringsFields (s : Str) : List Str := fieldsFrom s []

/-- Go slice expression `s[low:high]` on a string: panics unless
`0 ≤ low ≤ high ≤ len(s)`. -/
def goSlice (s : Str) (low high : Int) : Res Str :=
  if 0 ≤ low ∧ low ≤ high ∧ high ≤ (s.length : Int) then
    .ok ((s.take high.toNat).drop low.toNat)
  else .panic "slice bounds out of range"

/-! ## parser.go: line classification and normalisation -/

/-- The loop of `isBlockStart` and `isBlockEnd` (the two differ in the brace
only).  A quote of either kind toggles `escaped`; the brace sets `hasBracket`
when `escaped` is off; the `break` of the hash case leaves the `switch` only,
so the scan always runs to the end of the line. -/
def bracketScan (brace : Char) : Str → Bool → Bool → Bool
  | [], hasBracket, escaped => hasBracket && !escaped
  | r :: rs, hasBracket, escaped =>
    if r = dquote ∨ r = squote then bracketScan brace rs hasBracket (!escaped)
    else if r = brace then bracketScan brace rs (if !escaped then true else hasBracket) escaped
    else bracketScan brace rs hasBracket escaped

/-- Source `isBlockStart`. -/
def isBlockStart (data : Str) : Bool := bracketScan (Char.ofNat 123) data false false

/-- Source `isBlockEnd`. -/
def isBlockEnd (data : Str) : Bool := bracketScan (Char.ofNat 125) data false false

/-- Source `isBlockPart`. -/
def isBlockPart (data : Str) : Bool := isBlockStart data || isBlockEnd data

/-- Source `isFullLine`. -/
def isFullLine (data : Str) : Bool := stringsContains data [';']

/-- The deduplication loop of `cleanData`:
`for strings.Contains(data, "  ") { data = strings.Replace(data, "  ", " ", -1) }`.
Every pass shortens the string, so `len(data)` passes are enough. -/
def dedupSpaces : Nat → Str → Str
  | 0, data => data
  | n + 1, data =>
    if stringsContains data [' ', ' '] then dedupSpaces n (replaceDouble data) else data

/-- The comment scan of `cleanData`: the value of `end` after the loop.  A
hash outside quotes sets `end` to `i - 1` while `end` is still `0`; a
semicolon outside quotes sets it to `i` (its `break` leaves the `switch`
only, so later characters are still scanned). -/
def cleanScan : Str → Nat → Int → Bool → Int
  | [], _, e, _ => e
  | r :: rs, i, e, escaped =>
    if r = dquote ∨ r = squote then cleanScan rs (i + 1) e (!escaped)
    else if r = '#' then
      cleanScan rs (i + 1) (if e = 0 ∧ escaped = false then (i : Int) - 1 else e) escaped
    else if r = ';' then
      cleanScan rs (i + 1) (if escaped = false then (i : Int) else e) escaped
    else cleanScan rs (i + 1) e escaped

/-- Source `cleanData`. -/
def cleanData (data : Str) : Res Str :=
  let data1 := trimSpace data
  let data2 := dedupSpaces data1.length data1
  let e := cleanScan data2 0 0 false
  if e ≠ 0 then goSlice data2 0 e else .ok data2

/-- Source `parseProperty`. -/
def parseProperty (data : Str) : Res (Str × Str) := do
  let data ← cleanData data
  let firstSpaceIndex := stringsIndex data [' ']
  if firstSpaceIndex = -1 ∨ (data.length : Int) < firstSpaceIndex + 1 then
    pure (data, [])
  else do
    let name ← goSlice data 0 firstSpaceIndex
    let value ← goSlice data (firstSpaceIndex + 1) data.length
    pure (name, value)

/-- Source `parseLocationArgs`: the results are `(URI, Modifier)`. -/
def parseLocationArgs (data : List Str) : Res (Str × Str) :=
  match data with
  | [a, b] => .ok (b, a)
  | a :: _ => .ok (a, [])
  | [] => .panic "index out of range [0] with length 0"

/-- Source `getCondition`. -/
def getCondition (data : Str) : Res Str :=
  let cStart := stringsIndex data ['(']
  let cEnd := stringsLastIndex data [')']
  goSlice data (cStart + 1) (cEnd - 1)

/-- Source `getBlockName`. -/
def getBlockName (data : Str) : Res (Str × List Str) := do
  let data ← cleanData data
  let data := trimRight data [' ', Char.ofNat 123]
  if stringsCount data ' ' = 0 then pure (data, [])
  else
    match stringsFields data with
    | [] => .panic "index out of range [0] with length 0"
    | name :: args => pure (name, args)

/-- Source `getSafe`. -/
def getSafe (data : List Str) (index : Nat) : Str :=
  if index < data.length then data.getD index [] else []

/-! ## parser.go: the data model -/

/-- A Go `map[string]V`: `none` is the nil map. -/
abbrev GoMap (V : Type) := Option (List (Str × V))

/-- The entry stored under `name` in the entries of a map. -/
def assocGet {V : Type} : List (Str × V) → Str → Option V
  | [], _ => none
  | (k, v) :: rest, name => if k = name then some v else assocGet rest name

/-- The entries of a map after `m[name] = v`: the entry of `name` is
replaced, or added when there was none. -/
def assocSet {V : Type} : List (Str × V) → Str → V → List (Str × V)
  | [], name, v => [(name, v)]
  | (k, w) :: rest, name, v =>
    if k = name then (k, v) :: rest else (k, w) :: assocSet rest name v

/-- Go `m[name]` with the comma-ok result; reading a nil map finds nothing. -/
def mapGet {V : Type} (m : GoMap V) (name : Str) : Option V :=
  match m with
  | none => none
  | some entries => assocGet entries name

/-- Go `m[name] = v`; the write panics on a nil map. -/
def mapSet {V : Type} (m : GoMap V) (name : Str) (v : V) : Res (GoMap V) :=
  match m with
  | none => .panic "assignment to entry in nil map"
  | some entries => .ok (some (assocSet entries name v))

/-- Go `m[name] = append(m[name], v)`. -/
def mapAppend {V : Type} (m : GoMap (List V)) (name : Str) (v : V) : Res (GoMap (List V)) :=
  mapSet m name ((mapGet m name).getD [] ++ [v])

/-- Source `Properties`. -/
abbrev Properties := GoMap (List Str)

/-- Source `ConditionalProperty`. -/
structure ConditionalProperty where
  ConditionID : Int
  Value : Str
  deriving DecidableEq, Repr

/-- Source `ConditionalProperties`. -/
structure ConditionalProperties where
  Conditions : List Str
  Data : GoMap (List ConditionalProperty)
  deriving DecidableEq, Repr

/-- Source `Location` (without `Parent`). -/
structure Location where
  Modifier : Str
  URI : Str
  Properties : Option ConditionalProperties
  deriving DecidableEq, Repr

/-- Source `Server` (without `Parent`). -/
structure Server where
  Properties : Option ConditionalProperties
  Locations : List Location
  deriving DecidableEq, Repr

/-- Source `Upstream` (without `Parent`). -/
structure Upstream where
  Properties : Nginx.Properties
  deriving DecidableEq, Repr

/-- Source `HTTP`. -/
structure HTTP where
  Properties : Nginx.Properties
  Types : Nginx.Properties
  Servers : List Server
  Upstreams : GoMap Upstream
  deriving DecidableEq, Repr

/-- Source `Config`. -/
structure Config where
  Root : Str
  File : Str
  Core : Properties
  Events : Properties
  Stream : Properties
  HTTP : Option Nginx.HTTP
  deriving DecidableEq, Repr

/-! ## parser.go: the block parsers -/

/-- The error every block parser returns at the end of the input. -/
def errNoBlockEnd : String := "Can't find block end"

/-- The loop of `parseSimpleBlock` on the lines from `cursor` on. -/
def parseSimpleLoop : List Str → Nat → Properties → Res (Nat × Properties)
  | [], _, _ => .error errNoBlockEnd
  | line :: rest, cursor, result =>
    if isBlockEnd line then .ok (cursor + 1, result)
    else do
      let (propName, propValue) ← parseProperty line
      let result ← mapAppend result propName propValue
      parseSimpleLoop rest (cursor + 1) result

/-- Source `parseSimpleBlock`. -/
def parseSimpleBlock (data : List Str) (cursor : Nat) : Res (Nat × Properties) :=
  parseSimpleLoop (data.drop cursor) cursor (some [])

/-- The loop of `parseIfBlock` on the lines from `cursor` on. -/
def parseIfLoop : List Str → Nat → Nat → ConditionalProperties →
    Res (Nat × ConditionalProperties)
  | [], _, _, _ => .error errNoBlockEnd
  | line :: rest, cursor, conditionID, props =>
    if isBlockEnd line then .ok (cursor + 1, props)
    else do
      let (propName, propValue) ← parseProperty line
      let d ← mapAppend props.Data propName ⟨(conditionID : Int), propValue⟩
      parseIfLoop rest (cursor + 1) conditionID { props with Data := d }

/-- Source `parseIfBlock`; the new state of `props` is returned with the
cursor. -/
def parseIfBlock (data : List Str) (cursor : Nat) (props : ConditionalProperties) :
    Res (Nat × ConditionalProperties) :=
  if cursor = 0 then .panic "index out of range [-1]"
  else
    match data[cursor - 1]? with
    | none => .panic "index out of range"
    | some line => do
      let condition ← getCondition line
      let conditionID := props.Conditions.length
      parseIfLoop (data.drop cursor) cursor conditionID
        { props with Conditions := props.Conditions ++ [condition] }

/-- The loop of `parseLocationBlock`. -/
def parseLocationLoop : Nat → List Str → Nat → ConditionalProperties → Res (Nat × Location)
  | 0, _, _, _ => .diverge
  | fuel + 1, data, cursor, props =>
    match data[cursor]? with
    | none => .error errNoBlockEnd
    | some line =>
      if isBlockEnd line then
        .ok (cursor + 1, { Modifier := [], URI := [], Properties := some props })
      else if isBlockStart line then do
        let (blockName, _) ← getBlockName line
        if blockName = "if".toList then do
          let (cursor, props) ← parseIfBlock data (cursor + 1) props
          parseLocationLoop fuel data cursor props
        else
          .error ("Unsupported block " ++ String.mk blockName ++ " inside location block")
      else do
        let (propName, propValue) ← parseProperty line
        let d ← mapAppend props.Data propName ⟨-1, propValue⟩
        parseLocationLoop fuel data (cursor + 1) { props with Data := d }

/-- Source `parseLocationBlock`. -/
def parseLocationBlock (data : List Str) (cursor : Nat) : Res (Nat × Location) :=
  parseLocationLoop (data.length + 1) data cursor { Conditions := [], Data := some [] }

/-- The loop of `parseServerBlock`. -/
def parseServerLoop : Nat → List Str → Nat → ConditionalProperties → List Location →
    Res (Nat × Server)
  | 0, _, _, _, _ => .diverge
  | fuel + 1, data, cursor, props, locations =>
    match data[cursor]? with
    | none => .error errNoBlockEnd
    | some line =>
      if isBlockEnd line then
        .ok (cursor + 1, { Properties := some props, Locations := locations })
      else if isBlockStart line then do
        let (blockName, blockArgs) ← getBlockName line
        if blockName = "if".toList then do
          let (cursor, props) ← parseIfBlock data (cursor + 1) props
          parseServerLoop fuel data cursor props locations
        else if blockName = "location".toList then do
          let (cursor, location) ← parseLocationBlock data (cursor + 1)
          let (uri, modifier) ← parseLocationArgs blockArgs
          parseServerLoop fuel data cursor props
            (locations ++ [{ location with URI := uri, Modifier := modifier }])
        else
          .error ("Unsupported block " ++ String.mk blockName ++ " inside server block")
      else do
        let (propName, propValue) ← parseProperty line
        let d ← mapAppend props.Data propName ⟨-1, propValue⟩
        parseServerLoop fuel data (cursor + 1) { props with Data := d } locations

/-- Source `parseServerBlock`. -/
def parseServerBlock (data : List Str) (cursor : Nat) : Res (Nat × Server) :=
  parseServerLoop (data.length + 1) data cursor { Conditions := [], Data := some [] } []

/-- The loop of `parseHTTPBlock`. -/
def parseHTTPLoop : Nat → List Str → Nat → HTTP → Res (Nat × HTTP)
  | 0, _, _, _ => .diverge
  | fuel + 1, data, cursor, http =>
    match data[cursor]? with
    | none => .error errNoBlockEnd
    | some line =>
      if isBlockEnd line then .ok (cursor + 1, http)
      else if isBlockStart line then do
        let (blockName, blockArgs) ← getBlockName line
        if blockName = "types".toList then do
          let (cursor, types) ← parseSimpleBlock data (cursor + 1)
          parseHTTPLoop fuel data cursor { http with Types := types }
        else if blockName = "server".toList then do
          let (cursor, server) ← parseServerBlock data (cursor + 1)
          parseHTTPLoop fuel data cursor { http with Servers := http.Servers ++ [server] }
        else if blockName = "upstream".toList then
          let upstreamName := getSafe blockArgs 0
          if upstreamName = [] then
            .error "Unsupported upstream block doesn't have the name"
          else do
            let (cursor, props) ← parseSimpleBlock data (cursor + 1)
            let ups ← mapSet http.Upstreams upstreamName { Properties := props }
            parseHTTPLoop fuel data cursor { http with Upstreams := ups }
        else
          .error ("Unsupported block " ++ String.mk blockName ++ " inside http block")
      else do
        let (propName, propValue) ← parseProperty line
        let p ← mapAppend http.Properties propName propValue
        parseHTTPLoop fuel data (cursor + 1) { http with Properties := p }

/-- Source `parseHTTPBlock`. -/
def parseHTTPBlock (data : List Str) (cursor : Nat) : Res (Nat × HTTP) :=
  parseHTTPLoop (data.length + 1) data cursor
    { Properties := some [], Types := none, Servers := [], Upstreams := some [] }

/-- The loop of `parseConfig`. -/
def parseConfigLoop : Nat → List Str → Nat → Config → Res Config
  | 0, _, _, _ => .diverge
  | fuel + 1, data, cursor, config =>
    match data[cursor]? with
    | none => .ok config
    | some line =>
      if isBlockStart line then do
        let (blockName, _) ← getBlockName line
        if blockName = "events".toList then do
          let (cursor, events) ← parseSimpleBlock data (cursor + 1)
          parseConfigLoop fuel data cursor { config with Events := events }
        else if blockName = "stream".toList then do
          let (cursor, stream) ← parseSimpleBlock data (cursor + 1)
          parseConfigLoop fuel data cursor { config with Stream := stream }
        else if blockName = "http".toList then do
          let (cursor, http) ← parseHTTPBlock data (cursor + 1)
          parseConfigLoop fuel data cursor { config with HTTP := some http }
        else
          .error ("Unsupported block " ++ String.mk blockName ++ " inside config body")
      else do
        let (propName, propValue) ← parseProperty line
        let core ← mapAppend config.Core propName propValue
        parseConfigLoop fuel data (cursor + 1) { config with Core := core }

/-- Source `parseConfig`. -/
def parseConfig (data : List Str) : Res Config :=
  parseConfigLoop (data.length + 1) data 0
    { Root := [], File := [], Core := some [], Events := none, Stream := none, HTTP := none }

/-! ## helpers.go: the property stores and the query helpers -/

/-- The `range` loop of `Properties.Get` over the entries of the map. -/
def propertiesGetLoop : List (Str × List Str) → Str → Str
  | [], _ => []
  | (k, v) :: rest, name =>
    if k = name then stringsJoin v [' '] else propertiesGetLoop rest name

/-- Source `Properties.Get`. -/
def Properties.Get (p : Properties) (name : Str) : Str :=
  match p with
  | none => []
  | some entries => propertiesGetLoop entries name

/-- The inner loop of `ConditionalProperties.Get`:
`result = append(result, p.Value)` for every stored property. -/
def collectValues : List ConditionalProperty → List Str → List Str
  | [], result => result
  | p :: rest, result => collectValues rest (result ++ [p.Value])

/-- The `range` loop of `ConditionalProperties.Get` over the entries of
`Data`. -/
def conditionalGetLoop : List (Str × List ConditionalProperty) → Str → Str
  | [], _ => []
  | (k, v) :: rest, name =>
    if k = name then stringsJoin (collectValues v []) [' ']
    else conditionalGetLoop rest name

/-- Source `ConditionalProperties.Get`, on a pointer that may be nil. -/
def ConditionalProperties.Get (p : Option ConditionalProperties) (name : Str) : Str :=
  match p with
  | none => []
  | some cp =>
    match cp.Data with
    | none => []
    | some entries => conditionalGetLoop entries name

/-- Source `Server.GetNames`. -/
def Server.GetNames (s : Server) : List Str :=
  stringsFields (ConditionalProperties.Get s.Properties "server_name".toList)

/-- Source `Server.GetProtocols`. -/
def Server.GetProtocols (s : Server) : List Str :=
  stringsFields (ConditionalProperties.Get s.Properties "listen".toList)

/-- Source `isProtocolSupported`. -/
def isProtocolSupported : List Str → Str → Bool
  | [], _ => false
  | p :: rest, protocol =>
    if (p = "http2".toList ∧ (protocol = "http2".toList ∨ protocol = "https".toList)) ∨
       (p = "spdy".toList ∧ (protocol = "spdy".toList ∨ protocol = "https".toList)) ∨
       (p = "ssl".toList ∧ (protocol = "ssl".toList ∨ protocol = "https".toList)) ∨
       (p = "443".toList ∧ (protocol = "443".toList ∨ protocol = "https".toList)) ∨
       (p = "80".toList ∧ (protocol = "80".toList ∨ protocol = "http".toList)) ∨
       p = protocol then true
    else isProtocolSupported rest protocol

/-- Source `HTTP.ServersNum`, on a pointer that may be nil. -/
def HTTP.ServersNum (h : Option HTTP) : Nat :=
  match h with
  | none => 0
  | some http => http.Servers.length

/-- The inner loop of `HTTP.ServersList` over the names of one server. -/
def serverNamesLoop : List Str → Str → List Str → List Str
  | [], _, result => result
  | name :: rest, protocols, result =>
    if stringsContains protocols "http2".toList ∨ stringsContains protocols "ssl".toList ∨
       stringsContains protocols "443".toList then
      serverNamesLoop rest protocols (result ++ [name ++ ":https".toList])
    else serverNamesLoop rest protocols (result ++ [name ++ ":http".toList])

/-- The outer loop of `HTTP.ServersList` over the servers. -/
def serversListLoop : List Server → List Str → List Str
  | [], result => result
  | server :: rest, result =>
    let names := server.GetNames
    let protocols := ConditionalProperties.Get server.Properties "listen".toList
    serversListLoop rest (serverNamesLoop names protocols result)

/-- Source `HTTP.ServersList`. -/
def HTTP.ServersList (h : Option HTTP) : List Str :=
  if HTTP.ServersNum h = 0 then []
  else
    match h with
    | none => []
    | some http => serversListLoop http.Servers []

/-- The inner loop of `HTTP.FindServer` over the names of one server: `true`
when it reaches `return server`. -/
def findNameLoop (server : Server) (name protocol : Str) : List Str → Bool
  | [] => false
  | serverName :: rest =>
    if serverName ≠ name then findNameLoop server name protocol rest
    else if isProtocolSupported server.GetProtocols protocol then true
    else findNameLoop server name protocol rest

/-- The outer loop of `HTTP.FindServer` over the servers. -/
def findServerLoop (name protocol : Str) : List Server → Option Server
  | [] => none
  | server :: rest =>
    if findNameLoop server name protocol server.GetNames then some server
    else findServerLoop name protocol rest

/-- Source `HTTP.FindServer`. -/
def HTTP.FindServer (h : Option HTTP) (name protocol : Str) : Option Server :=
  if HTTP.ServersNum h = 0 then none
  else
    match h with
    | none => none
    | some http => findServerLoop name protocol http.Servers

/-! ## The upstream blocks of an http body -/

/-- The terminated upstream blocks that the loop of `parseHTTPBlock` goes
through from `cursor` on, in order of appearance, each with its name and the
properties `parseSimpleBlock` returns for it.  The function follows the loop
of `parseHTTPLoop` line by line: it stops at the block end, steps over a
plain line, over a types block and over a server block, and records an
upstream block. -/
def upstreamBlocks : Nat → List Str → Nat → List (Str × Properties)
  | 0, _, _ => []
  | fuel + 1, data, cursor =>
    match data[cursor]? with
    | none => []
    | some line =>
      if isBlockEnd line then []
      else if isBlockStart line then
        match getBlockName line with
        | .ok (blockName, blockArgs) =>
          if blockName = "types".toList then
            match parseSimpleBlock data (cursor + 1) with
            | .ok (cursor, _) => upstreamBlocks fuel data cursor
            | _ => []
          else if blockName = "server".toList then
            match parseServerBlock data (cursor + 1) with
            | .ok (cursor, _) => upstreamBlocks fuel data cursor
            | _ => []
          else if blockName = "upstream".toList then
            if getSafe blockArgs 0 = [] then []
            else
              match parseSimpleBlock data (cursor + 1) with
              | .ok (cursor, props) => (getSafe blockArgs 0, props) :: upstreamBlocks fuel data cursor
              | _ => []
          else []
        | _ => []
      else upstreamBlocks fuel data (cursor + 1)

/-- The properties of the last block named `name` in a list of upstream
blocks. -/
def lastUpstreamNamed (name : Str) (blocks : List (Str × Properties)) : Option Upstream :=
  ((blocks.filter (fun e => decide (e.1 = name))).getLast?).map (fun e => { Properties := e.2 })

/-! ## Quoted literals, as the specification and as the scanner see them -/

/-- The specification's reading of quoted literals: a quote character opens a
literal that the next occurrence of the same quote character closes.
`bracesInLiterals brace s lit` holds when every `brace` of `s` lies inside
such a literal, closed further on in `s`; `lit` is the quote character of the
literal the scan is in, if it is in one. -/
def bracesInLiterals (brace : Char) : Str → Option Char → Bool
  | [], _ => true
  | c :: cs, none =>
    if c = dquote ∨ c = squote then bracesInLiterals brace cs (some c)
    else if c = brace then false
    else bracesInLiterals brace cs none
  | c :: cs, some q =>
    if c = q then bracesInLiterals brace cs none
    else if c = brace then decide (q ∈ cs) && bracesInLiterals brace cs (some q)
    else bracesInLiterals brace cs (some q)

/-- The number of quote characters, of either kind, before position `i`. -/
def quotesBefore (s : Str) (i : Nat) : Nat :=
  (s.take i).countP (fun c => decide (c = dquote ∨ c = squote))

/-! ## The query helpers, as the specification words them -/

/-- The servers of an http node in declaration order; none for a nil node. -/
def httpServers (h : Option HTTP) : List Server :=
  match h with
  | none => []
  | some http => http.Servers

/-- A listen token `t` satisfies the requested protocol: it is that protocol,
or it is one of http2, spdy, ssl, 443 and the protocol is https, or it is 80
and the protocol is http. -/
def tokenSatisfies (protocol t : Str) : Bool :=
  decide (t = protocol ∨
    ((t = "http2".toList ∨ t = "spdy".toList ∨ t = "ssl".toList ∨ t = "443".toList) ∧
      protocol = "https".toList) ∨
    (t = "80".toList ∧ protocol = "http".toList))

/-- The server carries `name` among its server_name tokens and one of its
listen tokens satisfies `protocol`. -/
def serverMatches (name protocol : Str) (s : Server) : Bool :=
  decide (name ∈ s.GetNames) && s.GetProtocols.any (tokenSatisfies protocol)

/-- The entries of the listing for one server: one per server_name token,
with `:https` when the joined listen value contains http2, ssl or 443, and
`:http` otherwise. -/
def serverEntries (s : Server) : List Str :=
  s.GetNames.map (fun n =>
    n ++ (if stringsContains (ConditionalProperties.Get s.Properties "listen".toList)
              "http2".toList ∨
            stringsContains (ConditionalProperties.Get s.Properties "listen".toList)
              "ssl".toList ∨
            stringsContains (ConditionalProperties.Get s.Properties "listen".toList)
              "443".toList
          then ":https".toList else ":http".toList))

/-! ## Unterminated input -/

/-- No line of `data` at an index from `cursor` on is a block-end line. -/
def noBlockEndFrom (data : List Str) (cursor : Nat) : Prop :=
  ∀ i l, cursor ≤ i → data[i]? = some l → isBlockEnd l = false

/-! ## helpers.go: the typed accessors

The value parsers return Go tuples: the values and an `error` that is nil
(`none`) or not.  `int64` and `time.Duration` values are integers in the
signed 64-bit range; products and sums wrap around as in Go. -/

/-- The kind of a `strconv.NumError`: `ErrSyntax` or `ErrRange`. -/
inductive NumErr where
  | invalid
  | range
  deriving DecidableEq, Repr

/-- A non-nil Go `error`: one made from a text (`fmt.Errorf`), or the
`*strconv.NumError` with its function, its input and its kind. -/
inductive GoError where
  | text (msg : String)
  | num (func : String) (input : Str) (kind : NumErr)
  deriving DecidableEq, Repr

/-- A Go `error` value; `none` is nil. -/
abbrev GoErr := Option GoError

/-- Source `errEmptyProp`. -/
def errEmptyProp : GoError := .text "Value is empty"

/-- The value of the 64 bits of `x` as a signed integer. -/
def wrap64 (x : Int) : Int :=
  (x + 9223372036854775808) % 18446744073709551616 - 9223372036854775808

/-- Go `a * b` on `int64`. -/
def mul64 (a b : Int) : Int := wrap64 (a * b)

/-- Go `a + b` on `int64`. -/
def add64 (a b : Int) : Int := wrap64 (a + b)

/-- The largest `uint64`. -/
def maxUint64 : Nat := 18446744073709551615

/-- The digit loop of Go `strconv.ParseUint(s, 10, 64)`, `n` being the value
read so far.  A character that is not a decimal digit is a syntax error; a
value that leaves the 64 bits is a range error, reported at the digit that
overflows, the characters after it unread. -/
def parseUintLoop : Str → Nat → Nat × Option NumErr
  | [], n => (n, none)
  | c :: cs, n =>
    if 48 ≤ c.toNat ∧ c.toNat ≤ 57 then
      if n ≥ maxUint64 / 10 + 1 then (maxUint64, some .range)
      else
        let n1 := (n * 10 + (c.toNat - 48)) % 18446744073709551616
        if n1 < n * 10 ∨ n1 > maxUint64 then (maxUint64, some .range)
        else parseUintLoop cs n1
    else (0, some .invalid)

/-- Go `strconv.ParseUint(s, 10, 64)`. -/
def parseUint (s : Str) : Nat × Option NumErr :=
  if s = [] then (0, some .invalid) else parseUintLoop s 0

/-- Go `strconv.ParseInt(s, 10, 64)`: an optional sign, then `ParseUint`; on a
syntax error the value is 0, on a range error it is the nearest `int64`. -/
def strconvParseInt (s : Str) : Int × GoErr :=
  match s with
  | [] => (0, some (.num "ParseInt" s .invalid))
  | c :: cs =>
    let neg := decide (c = '-')
    let rest := if c = '+' ∨ c = '-' then cs else c :: cs
    match parseUint rest with
    | (_, some .invalid) => (0, some (.num "ParseInt" s .invalid))
    | (un, _) =>
      if neg = false ∧ un ≥ 9223372036854775808 then
        (9223372036854775807, some (.num "ParseInt" s .range))
      else if neg = true ∧ un > 9223372036854775808 then
        (-9223372036854775808, some (.num "ParseInt" s .range))
      else (if neg then -(un : Int) else (un : Int), none)

/-- Go `strings.Trim(s, cutset)`. -/
def stringsTrim (s cutset : Str) : Str :=
  trimRight (s.dropWhile (fun c => decide (c ∈ cutset))) cutset

/-- Source `parseBool`. -/
def parseBool (s : Str) : Bool × GoErr :=
  if s = "on".toList then (true, none)
  else if s = "off".toList then (false, none)
  else (false, some (.text ("Unsupported boolean value " ++ String.mk s)))

/-- Source `parseInt`. -/
def parseInt (s : Str) : Int × GoErr := strconvParseInt s

/-- Source `parseSize`. -/
def parseSize (s : Str) : Int × GoErr :=
  let mod := stringsTrim s "0123456789".toList
  let val := stringsTrim s "kKmMgG".toList
  let valInt := (strconvParseInt val).1
  if mod = "k".toList ∨ mod = "K".toList then (mul64 valInt 1024, none)
  else if mod = "m".toList ∨ mod = "M".toList then (mul64 (mul64 valInt 1024) 1024, none)
  else if mod = "g".toList ∨ mod = "G".toList then
    (mul64 (mul64 (mul64 valInt 1024) 1024) 1024, none)
  else if mod = [] then (valInt, none)
  else (0, some (.text ("Unsupported measurement unit " ++ String.mk mod)))

/-- Source `parseBuffers`; the index expressions `buf[0]` and `buf[1]` panic
on a token list that is too short. -/
def parseBuffers (s : Str) : Res (Int × Int × GoErr) :=
  if stringsCount s ' ' ≠ 1 then .ok (0, 0, some (.text "Wrong buffer format value"))
  else
    let buf := stringsFields s
    match buf[0]? with
    | none => .panic "index out of range [0]"
    | some b0 =>
      match parseInt b0 with
      | (_, some err) => .ok (0, 0, some err)
      | (num, none) =>
        match buf[1]? with
        | none => .panic "index out of range [1]"
        | some b1 =>
          match parseSize b1 with
          | (_, some err) => .ok (0, 0, some err)
          | (size, none) => .ok (num, size, none)

/-- Go `time.Millisecond`, in nanoseconds. -/
def Millisecond : Int := 1000000

/-- Go `time.Second`. -/
def Second : Int := 1000000000

/-- Go `time.Minute`. -/
def Minute : Int := 60000000000

/-- Go `time.Hour`. -/
def Hour : Int := 3600000000000

/-- Source `parseTimePeriod`; a `time.Duration` is its count of nanoseconds. -/
def parseTimePeriod (p : Str) : Int × GoErr :=
  let mod := stringsTrim p "0123456789".toList
  let val := stringsTrim p "mshdwMy".toList
  let valInt := (strconvParseInt val).1
  if mod = "ms".toList then (mul64 valInt Millisecond, none)
  else if mod = "s".toList ∨ mod = [] then (mul64 valInt Second, none)
  else if mod = "m".toList then (mul64 valInt Minute, none)
  else if mod = "h".toList then (mul64 valInt Hour, none)
  else if mod = "d".toList then (mul64 (mul64 valInt Hour) 24, none)
  else if mod = "w".toList then (mul64 (mul64 (mul64 valInt Hour) 24) 7, none)
  else if mod = "M".toList then (mul64 (mul64 (mul64 valInt Hour) 24) 30, none)
  else if mod = "y".toList then (mul64 (mul64 (mul64 valInt Hour) 24) 365, none)
  else (0, some (.text ("Unsupported time unit " ++ String.mk mod)))

/-- The loop of `parseTime` over the fields, `result` being the sum so far. -/
def parseTimeLoop : List Str → Int → Int × GoErr
  | [], result => (result, none)
  | part :: rest, result =>
    match parseTimePeriod part with
    | (_, some err) => (0, some err)
    | (dur, none) => parseTimeLoop rest (add64 result dur)

/-- Source `parseTime`. -/
def parseTime (t : Str) : Int × GoErr := parseTimeLoop (stringsFields t) 0

/-- Source `Properties.GetBool`. -/
def Properties.GetBool (p : Properties) (name : Str) : Bool × GoErr :=
  let v := Properties.Get p name
  if v = [] then (false, some errEmptyProp) else parseBool v

/-- Source `Properties.GetInt`. -/
def Properties.GetInt (p : Properties) (name : Str) : Int × GoErr :=
  let v := Properties.Get p name
  if v = [] then (0, some errEmptyProp) else parseInt v

/-- Source `Properties.GetBuf`. -/
def Properties.GetBuf (p : Properties) (name : Str) : Res (Int × Int × GoErr) :=
  let v := Properties.Get p name
  if v = [] then .ok (0, 0, some errEmptyProp) else parseBuffers v

/-- Source `Properties.GetSize`. -/
def Properties.GetSize (p : Properties) (name : Str) : Int × GoErr :=
  let v := Properties.Get p name
  if v = [] then (0, some errEmptyProp) else parseSize v

/-- Source `Properties.GetTime`. -/
def Properties.GetTime (p : Properties) (name : Str) : Int × GoErr :=
  let v := Properties.Get p name
  if v = [] then (0, some errEmptyProp) else parseTime v

/-- Source `ConditionalProperties.GetBool`. -/
def ConditionalProperties.GetBool (p : Option ConditionalProperties) (name : Str) :
    Bool × GoErr :=
  let v := ConditionalProperties.Get p name
  if v = [] then (false, some errEmptyProp) else parseBool v

/-- Source `ConditionalProperties.GetInt`. -/
def ConditionalProperties.GetInt (p : Option ConditionalProperties) (name : Str) :
    Int × GoErr :=
  let v := ConditionalProperties.Get p name
  if v = [] then (0, some errEmptyProp) else parseInt v

/-- Source `ConditionalProperties.GetBuf`. -/
def ConditionalProperties.GetBuf (p : Option ConditionalProperties) (name : Str) :
    Res (Int × Int × GoErr) :=
  let v := ConditionalProperties.Get p name
  if v = [] then .ok (0, 0, some errEmptyProp) else parseBuffers v

/-- Source `ConditionalProperties.GetSize`. -/
def ConditionalProperties.GetSize (p : Option ConditionalProperties) (name : Str) :
    Int × GoErr :=
  let v := ConditionalProperties.Get p name
  if v = [] then (0, some errEmptyProp) else parseSize v

/-- Source `ConditionalProperties.GetTime`. -/
def ConditionalProperties.GetTime (p : Option ConditionalProperties) (name : Str) :
    Int × GoErr :=
  let v := ConditionalProperties.Get p name
  if v = [] then (0, some errEmptyProp) else parseTime v

/-! ## Decimal digit strings -/

/-- The number that a string of decimal digits denotes. -/
def decimalValue (d : Str) : Nat :=
  d.foldl (fun n c => n * 10 + (c.toNat - 48)) 0

/-- Every character of `d` is a decimal digit. -/
def allDigits (d : Str) : Prop := ∀ c ∈ d, c ∈ "0123456789".toList

/-! ## Tokens -/

/-- The string holds no white space: it is one token, or empty. -/
def noSpace (t : Str) : Prop := ∀ c ∈ t, isSpace c = false

/-! ## The lines and the content of a simple block -/

/-- The line is a comment line: trimmed, it begins with the hash.  `readFile`
skips these lines (`strings.HasPrefix(line, "#")`). -/
def isCommentLine (l : Str) : Bool := decide ((trimSpace l).head? = some '#')

/-- The values of the pairs named `name`, in order. -/
def valuesOf (name : Str) (pairs : List (Str × Str)) : List Str :=
  (pairs.filter (fun e => decide (e.1 = name))).map (fun e => e.2)

/-- The entries of a map after `m[name] = append(m[name], v)`. -/
def assocAppend {V : Type} (m : List (Str × List V)) (name : Str) (v : V) :
    List (Str × List V) :=
  assocSet m name ((assocGet m name).getD [] ++ [v])

/-! ## Runs of spaces -/

/-- Every run of spaces replaced by one space: a space followed by a space
is dropped. -/
def collapseSpaces : Str → Str
  | [] => []
  | c :: cs => if c = ' ' ∧ cs.head? = some ' ' then collapseSpaces cs else c :: collapseSpaces cs

/-! ## The content of a server or location block, item by item -/

/-- One item declared directly in a server or location block: a directive, an
`if` block with its condition and the directives of its body, or a nested
location block. -/
inductive BlockItem where
  | directive (name value : Str)
  | ifBlock (condition : Str) (body : List (Str × Str))
  | location
  deriving DecidableEq, Repr

/-- The name and the value that `parseProperty` reads from a line. -/
def directiveOf (text : Str) : Str × Str :=
  match parseProperty text with
  | .ok p => p
  | _ => ([], [])

/-- The lines of the body of an `if` block: the lines before the first
block-end line. -/
def ifBodyLines (lines : List Str) : List Str :=
  lines.takeWhile (fun l => !isBlockEnd l)

/-- The items declared directly in the block whose body starts at `cursor`,
in line order, up to the block-end line of the block.  An `if` line opens an
`if` block that runs to the next block-end line; with `withLocations`, a
`location` line opens a nested block that runs as far as `parseLocationBlock`
reads; every other line before the block end is a directive. -/
def blockItems (withLocations : Bool) : Nat → List Str → Nat → List BlockItem
  | 0, _, _ => []
  | fuel + 1, data, cursor =>
    match data[cursor]? with
    | none => []
    | some text =>
      if isBlockEnd text then []
      else if isBlockStart text then
        match getBlockName text with
        | .ok (blockName, _) =>
          if blockName = "if".toList then
            match getCondition text with
            | .ok condition =>
              .ifBlock condition ((ifBodyLines (data.drop (cursor + 1))).map directiveOf) ::
                blockItems withLocations fuel data
                  (cursor + 1 + (ifBodyLines (data.drop (cursor + 1))).length + 1)
            | _ => []
          else if withLocations = true ∧ blockName = "location".toList then
            match parseLocationBlock data (cursor + 1) with
            | .ok (next, _) => .location :: blockItems withLocations fuel data next
            | _ => []
          else []
        | _ => []
      else
        .directive (directiveOf text).1 (directiveOf text).2 ::
          blockItems withLocations fuel data (cursor + 1)

/-- The conditions of the `if` blocks among the items, in order. -/
def conditionsOf : List BlockItem → List Str
  | [] => []
  | .ifBlock condition _ :: rest => condition :: conditionsOf rest
  | .directive _ _ :: rest => conditionsOf rest
  | .location :: rest => conditionsOf rest

/-- The directives of an `if` body, each with the condition index `k`. -/
def tagWith (k : Int) (body : List (Str × Str)) : List (Str × ConditionalProperty) :=
  body.map (fun e => (e.1, ⟨k, e.2⟩))

/-- The directives of the items in line order, each with its condition index:
`-1` for a directive declared directly in the block, `k` for a directive of
the `if` block number `k`, the first `if` block of the items having the
number `k0`.  The directives of a nested location block are not part of the
block. -/
def taggedEntries : List BlockItem → Nat → List (Str × ConditionalProperty)
  | [], _ => []
  | .directive name value :: rest, k0 => (name, ⟨-1, value⟩) :: taggedEntries rest k0
  | .ifBlock _ body :: rest, k0 => tagWith k0 body ++ taggedEntries rest (k0 + 1)
  | .location :: rest, k0 => taggedEntries rest k0

/-- The second components of the entries named `name`, in order. -/
def entriesNamed {V : Type} (name : Str) (entries : List (Str × V)) : List V :=
  (entries.filter (fun e => decide (e.1 = name))).map (fun e => e.2)

/-- The entries of a map after appending every entry of a list, in order. -/
def storeAll {V : Type} (m : List (Str × List V)) (entries : List (Str × V)) :
    List (Str × List V) :=
  entries.foldl (fun acc e => assocAppend acc e.1 e.2) m

/-- The property store `p` holds the items: its conditions are the conditions
of the `if` blocks in order; under every name it holds the directives of
that name in line order, each with its condition index; and every stored
condition index is `-1` or the index of a stored condition. -/
def holdsItems (p : Option ConditionalProperties) (items : List BlockItem) : Prop :=
  ∃ m : List (Str × List ConditionalProperty),
    p = some { Conditions := conditionsOf items, Data := some m } ∧
    (∀ name, (assocGet m name).getD [] = entriesNamed name (taggedEntries items 0)) ∧
    (∀ name vs e, assocGet m name = some vs → e ∈ vs →
      -1 ≤ e.ConditionID ∧ e.ConditionID < ((conditionsOf items).length : Int))

/-! ## parser.go: reading the lines of a file

The file system and `filepath.Glob` are parameters of the model: `fs path`
is the list of the lines that the scanner yields for the file at `path`, none
when the file cannot be opened; `glob pattern` is the list of the matches of
the pattern, none for a malformed pattern. -/

/-- Go `path.IsAbs`. -/
def pathIsAbs (p : Str) : Bool := decide (p.head? = some '/')

/-- Source `getInclude`. -/
def getInclude (glob : Str → Option (List Str)) (root file : Str) : Res (List Str) :=
  if stringsContains file ['*'] then
    match glob (if !pathIsAbs file then root ++ '/' :: file else file) with
    | none => .error ("Can't read glob " ++ String.mk file ++ ": syntax error in pattern")
    | some found => .ok found
  else .ok [file]

/-- The loop of `readFile` over the files of one include directive;
`readInclude` is the recursive call of `readFile`. -/
def readIncludes (readInclude : Str → Res (List Str)) : List Str → List Str → Res (List Str)
  | [], data => .ok data
  | inc :: rest, data => do
    let includeData ← readInclude inc
    readIncludes readInclude rest (data ++ includeData)

/-- The scanner loop of `readFile` over the remaining lines of the file, with
the lines emitted so far in `data` and the buffered lines in `fullLine`. -/
def readFileLoop (glob : Str → Option (List Str)) (readInclude : Str → Res (List Str))
    (root : Str) : List Str → List Str → List Str → Res (List Str)
  | [], data, _ => .ok data
  | raw :: rest, data, fullLine =>
    if trimSpace raw = [] then readFileLoop glob readInclude root rest data fullLine
    else if "#".toList.isPrefixOf (trimSpace raw) then
      readFileLoop glob readInclude root rest data fullLine
    else if "include".toList.isPrefixOf (trimSpace raw) then do
      let (_, includesPath) ← parseProperty (trimSpace raw)
      let includes ← getInclude glob root includesPath
      let data ← readIncludes readInclude includes data
      readFileLoop glob readInclude root rest data fullLine
    else if !isFullLine (trimSpace raw) && !isBlockPart (trimSpace raw) then
      readFileLoop glob readInclude root rest data (fullLine ++ [trimSpace raw])
    else if fullLine.length ≠ 0 then
      readFileLoop glob readInclude root rest
        (data ++ [stringsJoin (fullLine ++ [trimSpace raw]) [' ']]) []
    else readFileLoop glob readInclude root rest (data ++ [trimSpace raw]) fullLine

/-- Source `readFile`.  The budget bounds the depth of the nesting of
includes. -/
def readFile (fs : Str → Option (List Str)) (glob : Str → Option (List Str)) :
    Nat → Str → Str → Res (List Str)
  | 0, _, _ => .diverge
  | fuel + 1, root, file =>
    match fs (if !pathIsAbs file then root ++ '/' :: file else file) with
    | none => .error "open: no such file or directory"
    | some lines =>
      readFileLoop glob (fun inc => readFile fs glob fuel root inc) root lines [] []

/-! ## Logical lines, as the specification words them -/

/-- The line ends a statement: it contains the terminator or is a block
part. -/
def endsStatement (l : Str) : Bool := isFullLine l || isBlockPart l

/-- The trimmed lines of a file that are neither empty nor comments, in
order. -/
def significantLines (lines : List Str) : List Str :=
  (lines.map trimSpace).filter (fun l => decide (l ≠ []) && !"#".toList.isPrefixOf l)

/-- The lines cut into runs: every run ends at the first line that ends a
statement; the last run is what is left when no such line follows. -/
def runsOf : List Str → List (List Str)
  | [] => []
  | l :: rest =>
    if endsStatement l then [l] :: runsOf rest
    else
      match runsOf rest with
      | [] => [[l]]
      | r :: rs => (l :: r) :: rs

/-- The run ends with a line that ends a statement. -/
def completeRun (r : List Str) : Bool :=
  match r.getLast? with
  | some l => endsStatement l
  | none => false

/-- The logical lines of a list of significant lines: every complete run,
joined with single spaces. -/
def logicalLines (ls : List Str) : List Str :=
  ((runsOf ls).filter completeRun).map (fun r => stringsJoin r [' '])

end Nginx

/-! ## Theorems -/

namespace Nginx

/-- C3: on the block-start line `if ($k == 1) {` the source records the
condition `$k == ` (with its trailing blank), not `$k == 1`: the slice
`data[cStart+1 : cEnd-1]` of `getCondition` stops one character before the
end of the text between the parentheses.  The same holds for the condition
appended to a server's and to a location's `Conditions`. -/
theorem getCondition_loses_last_character :
    getCondition "if ($k == 1) \x7b".toList = .ok "$k == ".toList ∧
    parseServerBlock
        ["if ($k == 1) \x7b".toList, "return 100;".toList, "\x7d".toList, "\x7d".toList] 0 =
      .ok (4, { Properties := some { Conditions := ["$k == ".toList],
                                     Data := some [("return".toList, [⟨0, "100".toList⟩])] },
                Locations := [] }) ∧
    parseLocationBlock
        ["if ($k == 1) \x7b".toList, "return 100;".toList, "\x7d".toList, "\x7d".toList] 0 =
      .ok (4, { Modifier := [], URI := [],
                Properties := some { Conditions := ["$k == ".toList],
                                     Data := some [("return".toList, [⟨0, "100".toList⟩])] } }) := by
  decide

/-- C1: every line of `["if {", "return 100;"]` is a plain or block-start line,
none is a block end, yet the block parsers do not return the unterminated-block
error on it: `getCondition` slices `data[0:-2]` on a block-start line without
parentheses and the call panics, in `parseIfBlock` itself and in every parser
that reaches it, up to `parseConfig` on an http block that is never closed. -/
theorem unterminated_if_block_panics :
    (∀ line ∈ ["http \x7b".toList, "server \x7b".toList, "if \x7b".toList, "return 100;".toList],
      isBlockEnd line = false) ∧
    parseIfBlock ["if \x7b".toList, "return 100;".toList] 1 { Conditions := [], Data := some [] } =
      .panic "slice bounds out of range" ∧
    parseLocationBlock ["if \x7b".toList, "return 100;".toList] 0 =
      .panic "slice bounds out of range" ∧
    parseServerBlock ["if \x7b".toList, "return 100;".toList] 0 =
      .panic "slice bounds out of range" ∧
    parseHTTPBlock ["server \x7b".toList, "if \x7b".toList, "return 100;".toList] 0 =
      .panic "slice bounds out of range" ∧
    parseConfig ["http \x7b".toList, "server \x7b".toList, "if \x7b".toList, "return 100;".toList] =
      .panic "slice bounds out of range" := by
  decide

/-- C2: a block-start line whose block name is not one the context allows makes
the parser of that context return its unsupported-block error, whatever the
other lines are: `parseConfig` (at any point of its loop, and so at the first
line) for a name other than events, stream and http; `parseHTTPBlock` for a
name other than types, server and upstream; `parseServerBlock` for a name
other than if and location; `parseLocationBlock` for a name other than if. -/
theorem unsupported_block_rejected (data : List Str) (cursor : Nat) (line name : Str)
    (args : List Str) (hline : data[cursor]? = some line) (hstart : isBlockStart line = true)
    (hname : getBlockName line = .ok (name, args)) :
    (name ∉ ["events".toList, "stream".toList, "http".toList] →
      (∀ fuel config, parseConfigLoop (fuel + 1) data cursor config =
        .error ("Unsupported block " ++ String.mk name ++ " inside config body")) ∧
      (cursor = 0 → parseConfig data =
        .error ("Unsupported block " ++ String.mk name ++ " inside config body"))) ∧
    (isBlockEnd line = false → name ∉ ["types".toList, "server".toList, "upstream".toList] →
      parseHTTPBlock data cursor =
        .error ("Unsupported block " ++ String.mk name ++ " inside http block")) ∧
    (isBlockEnd line = false → name ∉ ["if".toList, "location".toList] →
      parseServerBlock data cursor =
        .error ("Unsupported block " ++ String.mk name ++ " inside server block")) ∧
    (isBlockEnd line = false → name ∉ ["if".toList] →
      parseLocationBlock data cursor =
        .error ("Unsupported block " ++ String.mk name ++ " inside location block")) := by
  refine ⟨fun h => ⟨fun fuel config => ?_, fun h0 => ?_⟩, fun hend h => ?_, fun hend h => ?_,
    fun hend h => ?_⟩
  · simp at h
    simp [parseConfigLoop, hline, hstart, hname, h, bind, Res.bind]
  · subst h0
    simp at h
    simp [parseConfig, parseConfigLoop, hline, hstart, hname, h, bind, Res.bind]
  · simp at h
    simp [parseHTTPBlock, parseHTTPLoop, hline, hstart, hend, hname, h, bind, Res.bind]
  · simp at h
    simp [parseServerBlock, parseServerLoop, hline, hstart, hend, hname, h, bind, Res.bind]
  · simp at h
    simp [parseLocationBlock, parseLocationLoop, hline, hstart, hend, hname, h, bind, Res.bind]

/-- Witness of C2: the line `unknown {` is rejected in all four contexts. -/
theorem unsupported_block_rejected_witness :
    parseConfig ["unknown \x7b".toList] = .error "Unsupported block unknown inside config body" ∧
    parseHTTPBlock ["unknown \x7b".toList] 0 =
      .error "Unsupported block unknown inside http block" ∧
    parseServerBlock ["unknown \x7b".toList] 0 =
      .error "Unsupported block unknown inside server block" ∧
    parseLocationBlock ["unknown \x7b".toList] 0 =
      .error "Unsupported block unknown inside location block" :=
  have h := unsupported_block_rejected ["unknown \x7b".toList] 0 "unknown \x7b".toList
    "unknown".toList [] (by decide) (by decide) (by decide)
  ⟨(h.1 (by decide)).2 rfl, h.2.1 (by decide) (by decide), h.2.2.1 (by decide) (by decide),
    h.2.2.2 (by decide) (by decide)⟩

/-! ### Sequencing -/

@[simp] theorem Res.ok_bind {α β : Type} (a : α) (f : α → Res β) : (Res.ok a >>= f) = f a := rfl

@[simp] theorem Res.error_bind {α β : Type} (e : String) (f : α → Res β) :
    (Res.error e >>= f) = Res.error e := rfl

@[simp] theorem Res.panic_bind {α β : Type} (e : String) (f : α → Res β) :
    (Res.panic e >>= f) = Res.panic e := rfl

@[simp] theorem Res.diverge_bind {α β : Type} (f : α → Res β) :
    (Res.diverge >>= f) = Res.diverge := rfl

@[simp] theorem Res.pure_eq {α : Type} (a : α) : (pure a : Res α) = Res.ok a := rfl

/-! ### The server loop only ever appends to the locations -/

theorem parseServerLoop_locations_prefix (fuel : Nat) :
    ∀ (data : List Str) (cursor : Nat) (props : ConditionalProperties) (locs : List Location)
      (c : Nat) (server : Server),
      parseServerLoop fuel data cursor props locs = .ok (c, server) →
      locs <+: server.Locations := by
  induction fuel with
  | zero => intro data cursor props locs c server h; simp [parseServerLoop] at h
  | succ fuel ih =>
    intro data cursor props locs c server h
    unfold parseServerLoop at h
    cases hl : data[cursor]? with
    | none => simp [hl] at h
    | some line =>
      simp only [hl] at h
      cases hend : isBlockEnd line with
      | true =>
        simp only [hend, if_true, Res.ok.injEq, Prod.mk.injEq] at h
        obtain ⟨-, rfl⟩ := h
        exact List.prefix_refl _
      | false =>
        simp only [hend, Bool.false_eq_true, if_false] at h
        cases hstart : isBlockStart line with
        | true =>
          simp only [hstart, if_true] at h
          cases hn : getBlockName line with
          | ok r =>
            obtain ⟨name, args⟩ := r
            simp only [hn, Res.ok_bind] at h
            by_cases h1 : name = "if".toList
            · simp only [h1, if_true] at h
              cases hi : parseIfBlock data (cursor + 1) props with
              | ok r => simp only [hi, Res.ok_bind] at h; exact ih _ _ _ _ _ _ h
              | error e => simp [hi] at h
              | panic e => simp [hi] at h
              | diverge => simp [hi] at h
            · simp only [h1, if_false] at h
              by_cases h2 : name = "location".toList
              · simp only [h2, if_true] at h
                cases hlb : parseLocationBlock data (cursor + 1) with
                | ok r =>
                  simp only [hlb, Res.ok_bind] at h
                  cases ha : parseLocationArgs args with
                  | ok q =>
                    simp only [ha, Res.ok_bind] at h
                    exact (List.prefix_append _ _).trans (ih _ _ _ _ _ _ h)
                  | error e => simp [ha] at h
                  | panic e => simp [ha] at h
                  | diverge => simp [ha] at h
                | error e => simp [hlb] at h
                | panic e => simp [hlb] at h
                | diverge => simp [hlb] at h
              · simp only [h2, if_false] at h
                cases h
          | error e => simp [hn] at h
          | panic e => simp [hn] at h
          | diverge => simp [hn] at h
        | false =>
          simp only [hstart, Bool.false_eq_true, if_false] at h
          cases hp : parseProperty line with
          | ok r =>
            simp only [hp, Res.ok_bind] at h
            cases hm : mapAppend props.Data r.1 ⟨-1, r.2⟩ with
            | ok d => simp only [hm, Res.ok_bind] at h; exact ih _ _ _ _ _ _ h
            | error e => simp [hm] at h
            | panic e => simp [hm] at h
            | diverge => simp [hm] at h
          | error e => simp [hp] at h
          | panic e => simp [hp] at h
          | diverge => simp [hp] at h

/-- C4: when a server block parse succeeds and its loop meets, at `cursor`, a
location block-start line whose location block is terminated (its parse
succeeds with `loc`), the server's `Locations` continue the locations
collected so far with that location: with one argument `a` on the line it
has `URI = a` and an empty `Modifier`; with two arguments `m`, `u` it has
`Modifier = m` and `URI = u`. -/
theorem location_arguments_recorded (fuel : Nat) (data : List Str) (cursor : Nat)
    (props : ConditionalProperties) (locs : List Location) (line : Str) (args : List Str)
    (c : Nat) (loc : Location) (cf : Nat) (server : Server)
    (hline : data[cursor]? = some line) (hend : isBlockEnd line = false)
    (hstart : isBlockStart line = true)
    (hname : getBlockName line = .ok ("location".toList, args))
    (hloc : parseLocationBlock data (cursor + 1) = .ok (c, loc))
    (hres : parseServerLoop (fuel + 1) data cursor props locs = .ok (cf, server)) :
    (∀ a, args = [a] →
      (locs ++ [{ loc with URI := a, Modifier := [] }]) <+: server.Locations) ∧
    (∀ m u, args = [m, u] →
      (locs ++ [{ loc with URI := u, Modifier := m }]) <+: server.Locations) := by
  unfold parseServerLoop at hres
  simp only [hline, hend, hstart, hname, hloc, Res.ok_bind, if_true] at hres
  have hne : ¬ ("location".toList = "if".toList) := by decide
  simp only [hne, if_false, if_true, Bool.false_eq_true] at hres
  constructor
  · intro a ha
    subst ha
    simp only [parseLocationArgs, Res.ok_bind] at hres
    exact parseServerLoop_locations_prefix _ _ _ _ _ _ _ hres
  · intro m u ha
    subst ha
    simp only [parseLocationArgs, Res.ok_bind] at hres
    exact parseServerLoop_locations_prefix _ _ _ _ _ _ _ hres

/-- Witness of C4: the server blocks `location / { }` and
`location = /status { }`. -/
theorem location_arguments_recorded_witness :
    ([] ++ [{ Modifier := [], URI := "/".toList,
              Properties := some { Conditions := [], Data := some [] } }]) <+:
      ({ Properties := some { Conditions := [], Data := some [] },
         Locations := [{ Modifier := [], URI := "/".toList,
                         Properties := some { Conditions := [], Data := some [] } }] } :
        Server).Locations ∧
    ([] ++ [{ Modifier := "=".toList, URI := "/status".toList,
              Properties := some { Conditions := [], Data := some [] } }]) <+:
      ({ Properties := some { Conditions := [], Data := some [] },
         Locations := [{ Modifier := "=".toList, URI := "/status".toList,
                         Properties := some { Conditions := [], Data := some [] } }] } :
        Server).Locations :=
  ⟨(location_arguments_recorded 3 ["location / \x7b".toList, "\x7d".toList, "\x7d".toList] 0
      { Conditions := [], Data := some [] } [] "location / \x7b".toList ["/".toList] 2
      { Modifier := [], URI := [], Properties := some { Conditions := [], Data := some [] } } 3
      { Properties := some { Conditions := [], Data := some [] },
        Locations := [{ Modifier := [], URI := "/".toList,
                        Properties := some { Conditions := [], Data := some [] } }] }
      (by decide) (by decide) (by decide) (by decide) (by decide) (by decide)).1 _ rfl,
   (location_arguments_recorded 3 ["location = /status \x7b".toList, "\x7d".toList, "\x7d".toList] 0
      { Conditions := [], Data := some [] } [] "location = /status \x7b".toList
      ["=".toList, "/status".toList] 2
      { Modifier := [], URI := [], Properties := some { Conditions := [], Data := some [] } } 3
      { Properties := some { Conditions := [], Data := some [] },
        Locations := [{ Modifier := "=".toList, URI := "/status".toList,
                        Properties := some { Conditions := [], Data := some [] } }] }
      (by decide) (by decide) (by decide) (by decide) (by decide) (by decide)).2 _ _ rfl⟩

/-! ### Map reads after writes -/

theorem assocGet_assocSet {V : Type} (m : List (Str × V)) (k : Str) (v : V) (name : Str) :
    assocGet (assocSet m k v) name = if k = name then some v else assocGet m name := by
  induction m with
  | nil => simp [assocSet, assocGet]
  | cons e rest ih =>
    obtain ⟨k', w⟩ := e
    simp only [assocSet]
    by_cases hk : k' = k
    · rw [if_pos hk]
      simp only [assocGet]
      subst hk
      by_cases hn : k' = name
      · rw [if_pos hn, if_pos hn]
      · rw [if_neg hn, if_neg hn, if_neg hn]
    · rw [if_neg hk]
      simp only [assocGet, ih]
      by_cases hn' : k' = name
      · have hkn : ¬ k = name := fun h => hk (hn'.trans h.symm)
        rw [if_pos hn', if_neg hkn, if_pos hn']
      · rw [if_neg hn', if_neg hn']

theorem mapGet_mapSet {V : Type} (m m' : GoMap V) (k : Str) (v : V) (name : Str)
    (h : mapSet m k v = .ok m') :
    mapGet m' name = if k = name then some v else mapGet m name := by
  cases m with
  | none => simp [mapSet] at h
  | some entries =>
    simp only [mapSet, Res.ok.injEq] at h
    subst h
    simp [mapGet, assocGet_assocSet]

/-! ### The upstream map after the http loop -/

theorem foldl_last_named (name : Str) (blocks : List (Str × Properties)) (init : Option Upstream) :
    blocks.foldl (fun acc e => if e.1 = name then some { Properties := e.2 } else acc) init =
      (lastUpstreamNamed name blocks).or init := by
  induction blocks generalizing init with
  | nil => simp [lastUpstreamNamed]
  | cons e rest ih =>
    rw [List.foldl_cons, ih]
    by_cases he : e.1 = name
    · simp only [he, if_true, lastUpstreamNamed, List.filter_cons, decide_True]
      cases hr : (rest.filter (fun e => decide (e.1 = name))) with
      | nil => simp
      | cons x xs =>
        rw [List.getLast?_cons_cons]
        cases hx : (x :: xs).getLast? with
        | none => simp at hx
        | some y => simp
    · simp [he, lastUpstreamNamed, List.filter_cons]

theorem parseHTTPLoop_upstreams (name : Str) (fuel : Nat) :
    ∀ (data : List Str) (cursor : Nat) (http : HTTP) (c : Nat) (res : HTTP),
      parseHTTPLoop fuel data cursor http = .ok (c, res) →
      mapGet res.Upstreams name =
        (upstreamBlocks fuel data cursor).foldl
          (fun acc e => if e.1 = name then some { Properties := e.2 } else acc)
          (mapGet http.Upstreams name) := by
  induction fuel with
  | zero => intro data cursor http c res h; simp [parseHTTPLoop] at h
  | succ fuel ih =>
    intro data cursor http c res h
    unfold parseHTTPLoop at h
    unfold upstreamBlocks
    cases hl : data[cursor]? with
    | none => simp [hl] at h
    | some line =>
      simp only [hl] at h ⊢
      cases hend : isBlockEnd line with
      | true =>
        simp only [hend, if_true, Res.ok.injEq, Prod.mk.injEq] at h
        obtain ⟨-, rfl⟩ := h
        simp
      | false =>
        simp only [hend, Bool.false_eq_true, if_false] at h ⊢
        cases hstart : isBlockStart line with
        | true =>
          simp only [hstart, if_true] at h ⊢
          cases hn : getBlockName line with
          | ok r =>
            obtain ⟨blockName, args⟩ := r
            simp only [hn, Res.ok_bind] at h ⊢
            by_cases h1 : blockName = "types".toList
            · simp only [h1, if_true] at h ⊢
              cases hs : parseSimpleBlock data (cursor + 1) with
              | ok r =>
                simp only [hs, Res.ok_bind] at h ⊢
                have h' := ih _ _ _ _ _ h
                exact h'
              | error e => simp [hs] at h
              | panic e => simp [hs] at h
              | diverge => simp [hs] at h
            · simp only [h1, if_false] at h ⊢
              by_cases h2 : blockName = "server".toList
              · simp only [h2, if_true] at h ⊢
                cases hs : parseServerBlock data (cursor + 1) with
                | ok r =>
                  simp only [hs, Res.ok_bind] at h ⊢
                  have h' := ih _ _ _ _ _ h
                  exact h'
                | error e => simp [hs] at h
                | panic e => simp [hs] at h
                | diverge => simp [hs] at h
              · simp only [h2, if_false] at h ⊢
                by_cases h3 : blockName = "upstream".toList
                · simp only [h3, if_true] at h ⊢
                  by_cases h4 : getSafe args 0 = []
                  · simp only [h4, if_true] at h
                    cases h
                  · simp only [h4, if_false] at h ⊢
                    cases hs : parseSimpleBlock data (cursor + 1) with
                    | ok r =>
                      simp only [hs, Res.ok_bind] at h ⊢
                      cases hm : mapSet http.Upstreams (getSafe args 0) { Properties := r.2 } with
                      | ok ups =>
                        simp only [hm, Res.ok_bind] at h
                        rw [ih _ _ _ _ _ h, List.foldl_cons]
                        simp only [mapGet_mapSet _ _ _ _ name hm]
                      | error e => simp [hm] at h
                      | panic e => simp [hm] at h
                      | diverge => simp [hm] at h
                    | error e => simp [hs] at h
                    | panic e => simp [hs] at h
                    | diverge => simp [hs] at h
                · simp only [h3, if_false] at h
                  cases h
          | error e => simp [hn] at h
          | panic e => simp [hn] at h
          | diverge => simp [hn] at h
        | false =>
          simp only [hstart, Bool.false_eq_true, if_false] at h ⊢
          cases hp : parseProperty line with
          | ok r =>
            simp only [hp, Res.ok_bind] at h
            cases hm : mapAppend http.Properties r.1 r.2 with
            | ok d =>
              simp only [hm, Res.ok_bind] at h
              have h' := ih _ _ _ _ _ h
              exact h'
            | error e => simp [hm] at h
            | panic e => simp [hm] at h
            | diverge => simp [hm] at h
          | error e => simp [hp] at h
          | panic e => simp [hp] at h
          | diverge => simp [hp] at h

/-- C5: inside an http block an upstream block-start line without a name makes
the http parser return the missing-name error (at any point of its loop, and
so for `parseHTTPBlock` when the line is at the cursor); and after a
successful `parseHTTPBlock`, for every name `N`, `Upstreams[N]` holds exactly
the properties of the last terminated upstream block named `N` of the body
(a later block replaces an earlier one of the same name), and holds nothing
when the body has no upstream block named `N`. -/
theorem upstream_blocks_registered (data : List Str) (cursor : Nat) :
    (∀ line, data[cursor]? = some line → isBlockEnd line = false → isBlockStart line = true →
      getBlockName line = .ok ("upstream".toList, []) →
      (∀ fuel http, parseHTTPLoop (fuel + 1) data cursor http =
        .error "Unsupported upstream block doesn't have the name") ∧
      parseHTTPBlock data cursor = .error "Unsupported upstream block doesn't have the name") ∧
    (∀ c http, parseHTTPBlock data cursor = .ok (c, http) →
      ∀ N, mapGet http.Upstreams N =
        lastUpstreamNamed N (upstreamBlocks (data.length + 1) data cursor)) := by
  constructor
  · intro line hline hend hstart hname
    have hne1 : ¬ ("upstream".toList = "types".toList) := by decide
    have hne2 : ¬ ("upstream".toList = "server".toList) := by decide
    have hstep : ∀ fuel http, parseHTTPLoop (fuel + 1) data cursor http =
        .error "Unsupported upstream block doesn't have the name" := by
      intro fuel http
      unfold parseHTTPLoop
      simp only [hline, hend, hstart, hname, Res.ok_bind, if_true, Bool.false_eq_true, if_false,
        hne1, hne2, getSafe, List.length_nil, Nat.lt_irrefl]
    exact ⟨hstep, hstep _ _⟩
  · intro c http h N
    have h' := parseHTTPLoop_upstreams N _ _ _ _ _ _ h
    rw [h', foldl_last_named]
    simp [mapGet, assocGet]

/-- Witness of C5: `upstream {` is rejected, and of two upstream blocks named
`a` the second is the one registered. -/
theorem upstream_blocks_registered_witness :
    parseHTTPBlock ["upstream \x7b".toList, "server 127.0.0.1".toList] 0 =
      .error "Unsupported upstream block doesn't have the name" ∧
    mapGet ({ Properties := some [], Types := none, Servers := [],
              Upstreams := some [("a".toList,
                { Properties := some [("server".toList, ["2".toList])] })] } : HTTP).Upstreams
        "a".toList =
      lastUpstreamNamed "a".toList
        [("a".toList, some [("server".toList, ["1".toList])]),
         ("a".toList, some [("server".toList, ["2".toList])])] :=
  ⟨((upstream_blocks_registered ["upstream \x7b".toList, "server 127.0.0.1".toList] 0).1
      "upstream \x7b".toList (by decide) (by decide) (by decide) (by decide)).2,
   (upstream_blocks_registered
      ["upstream a \x7b".toList, "server 1;".toList, "\x7d".toList, "upstream a \x7b".toList,
       "server 2;".toList, "\x7d".toList, "\x7d".toList] 0).2 7
      { Properties := some [], Types := none, Servers := [],
        Upstreams := some [("a".toList,
          { Properties := some [("server".toList, ["2".toList])] })] }
      (by decide) "a".toList⟩

/-- C6: a trailing comment changes the parse.  A quote in the comment turns the
block-start line `events {` into a plain line (the scan of `isBlockStart` does
not stop at the hash, and ends inside quotes); a brace in the comment turns a
plain line into a block start and a block end; a semicolon in the comment
makes `cleanData` cut at that semicolon, so the comment stays in the value;
and `parseConfig` returns different documents with and without the
comment. -/
theorem inline_comment_changes_parse :
    isBlockStart "events \x7b".toList = true ∧
    isBlockStart "events \x7b # don't".toList = false ∧
    isBlockStart "worker_processes 4;".toList = false ∧
    isBlockStart "worker_processes 4; # \x7b".toList = true ∧
    isBlockEnd "worker_processes 4;".toList = false ∧
    isBlockEnd "worker_processes 4; # \x7d".toList = true ∧
    parseProperty "worker_processes 4;".toList =
      .ok ("worker_processes".toList, "4".toList) ∧
    parseProperty "worker_processes 4; # was 2;".toList =
      .ok ("worker_processes".toList, "4; # was 2".toList) ∧
    parseConfig ["events \x7b".toList, "\x7d".toList] =
      .ok { Root := [], File := [], Core := some [], Events := some [], Stream := none,
            HTTP := none } ∧
    parseConfig ["events \x7b # don't".toList, "\x7d".toList] =
      .ok { Root := [], File := [],
            Core := some [("events".toList, ["\x7b".toList]), ("\x7d".toList, [[]])],
            Events := none, Stream := none, HTTP := none } := by
  decide

/-! ### Braces under the quote flag -/

theorem quotesBefore_zero (s : Str) : quotesBefore s 0 = 0 := by
  simp [quotesBefore]

theorem quotesBefore_succ (r : Char) (rs : Str) (i : Nat) :
    quotesBefore (r :: rs) (i + 1) =
      quotesBefore rs i + if r = dquote ∨ r = squote then 1 else 0 := by
  simp [quotesBefore, List.take_succ_cons, List.countP_cons]

theorem bracketScan_flagged (brace : Char) :
    ∀ (s : Str) (escaped : Bool),
      (∀ i, s[i]? = some brace →
        (escaped = true ∧ quotesBefore s i % 2 = 0) ∨
        (escaped = false ∧ quotesBefore s i % 2 = 1)) →
      bracketScan brace s false escaped = false := by
  intro s
  induction s with
  | nil => intro escaped _; simp [bracketScan]
  | cons r rs ih =>
    intro escaped h
    unfold bracketScan
    by_cases hq : r = dquote ∨ r = squote
    · rw [if_pos hq]
      apply ih
      intro i hi
      have h' := h (i + 1) (by simpa using hi)
      rw [quotesBefore_succ, if_pos hq] at h'
      cases escaped <;> simp at h' ⊢ <;> omega
    · rw [if_neg hq]
      have hrest : ∀ i, rs[i]? = some brace →
          (escaped = true ∧ quotesBefore rs i % 2 = 0) ∨
          (escaped = false ∧ quotesBefore rs i % 2 = 1) := by
        intro i hi
        have h' := h (i + 1) (by simpa using hi)
        rw [quotesBefore_succ, if_neg hq] at h'
        simpa using h'
      by_cases hb : r = brace
      · rw [if_pos hb]
        have h0 := h 0 (by simp [hb])
        rw [quotesBefore_zero] at h0
        have he : escaped = true := by
          rcases h0 with h0 | h0
          · exact h0.1
          · exact absurd h0.2 (by decide)
        subst he
        simpa using ih true hrest
      · rw [if_neg hb]
        exact ih escaped hrest

/-- C7, as the source has it: the scanners keep one quote flag that every quote
character, double or single, toggles.  A line in which every `{` (every `}`)
stands after an odd number of quote characters, the flag being on there, is
not a block start (not a block end). -/
theorem braces_under_quote_flag_inert (text : Str) :
    ((∀ i, text[i]? = some (Char.ofNat 123) → quotesBefore text i % 2 = 1) →
      isBlockStart text = false) ∧
    ((∀ i, text[i]? = some (Char.ofNat 125) → quotesBefore text i % 2 = 1) →
      isBlockEnd text = false) := by
  constructor
  · intro h
    exact bracketScan_flagged _ text false (fun i hi => Or.inr ⟨rfl, h i hi⟩)
  · intro h
    exact bracketScan_flagged _ text false (fun i hi => Or.inr ⟨rfl, h i hi⟩)

/-- Witness of C7: `location = '{'` is not a block start, `location = '{' {`
is one. -/
theorem braces_under_quote_flag_inert_witness :
    isBlockStart "location = '\x7b'".toList = false ∧
    isBlockStart "location = '\x7b' \x7b".toList = true :=
  ⟨(braces_under_quote_flag_inert "location = '\x7b'".toList).1 (by
      intro i hi
      have hlt : i < 14 := by
        by_contra hge
        have hnone : "location = '\x7b'".toList[i]? = none :=
          List.getElem?_eq_none (by simpa using hge)
        rw [hnone] at hi
        cases hi
      interval_cases i <;> first | rfl | exact absurd hi (by decide)), by decide⟩

/-- C7 as stated fails: in `x "'{'";` the only `{` lies inside the literal that
the two double quotes delimit, yet the line is classified as a block start,
the single quote before the brace having switched the flag off again. -/
theorem braces_in_literal_counterexample :
    ¬ ((∀ line : Str, bracesInLiterals (Char.ofNat 123) line none = true →
          isBlockStart line = false) ∧
       (∀ line : Str, bracesInLiterals (Char.ofNat 125) line none = true →
          isBlockEnd line = false)) :=
  fun h => absurd (h.1 "x \x22'\x7b'\x22;".toList (by decide)) (by decide)

/-! ### The lookup loops -/

theorem isProtocolSupported_eq_any (protocol : Str) (l : List Str) :
    isProtocolSupported l protocol = l.any (tokenSatisfies protocol) := by
  induction l with
  | nil => rfl
  | cons p rest ih =>
    unfold isProtocolSupported
    rw [List.any_cons, ih]
    by_cases hp : tokenSatisfies protocol p = true
    · have hp' := hp
      simp only [tokenSatisfies, decide_eq_true_eq] at hp'
      rw [if_pos, hp, Bool.true_or]
      rcases hp' with h | ⟨h1, h2⟩ | ⟨h1, h2⟩
      · exact Or.inr (Or.inr (Or.inr (Or.inr (Or.inr h))))
      · rcases h1 with h1 | h1 | h1 | h1
        · exact Or.inl ⟨h1, Or.inr h2⟩
        · exact Or.inr (Or.inl ⟨h1, Or.inr h2⟩)
        · exact Or.inr (Or.inr (Or.inl ⟨h1, Or.inr h2⟩))
        · exact Or.inr (Or.inr (Or.inr (Or.inl ⟨h1, Or.inr h2⟩)))
      · exact Or.inr (Or.inr (Or.inr (Or.inr (Or.inl ⟨h1, Or.inr h2⟩))))
    · have hp' := hp
      simp only [tokenSatisfies, decide_eq_true_eq, not_or, not_and] at hp'
      obtain ⟨hne, h4, h80⟩ := hp'
      rw [if_neg, Bool.not_eq_true _ |>.mp hp, Bool.false_or]
      rintro (⟨h1, h2 | h2⟩ | ⟨h1, h2 | h2⟩ | ⟨h1, h2 | h2⟩ | ⟨h1, h2 | h2⟩ | ⟨h1, h2 | h2⟩ | h)
      · exact hne (h1.trans h2.symm)
      · exact h4 (Or.inl h1) h2
      · exact hne (h1.trans h2.symm)
      · exact h4 (Or.inr (Or.inl h1)) h2
      · exact hne (h1.trans h2.symm)
      · exact h4 (Or.inr (Or.inr (Or.inl h1))) h2
      · exact hne (h1.trans h2.symm)
      · exact h4 (Or.inr (Or.inr (Or.inr h1))) h2
      · exact hne (h1.trans h2.symm)
      · exact h80 h1 h2
      · exact hne h

theorem findNameLoop_eq (server : Server) (name protocol : Str) (names : List Str) :
    findNameLoop server name protocol names =
      (decide (name ∈ names) && isProtocolSupported server.GetProtocols protocol) := by
  induction names with
  | nil => simp [findNameLoop]
  | cons n rest ih =>
    unfold findNameLoop
    by_cases hn : n = name
    · subst hn
      simp only [ne_eq, not_true_eq_false, if_false, List.mem_cons, true_or, decide_True,
        Bool.true_and]
      cases hs : isProtocolSupported server.GetProtocols protocol with
      | true => simp
      | false => simp [ih, hs]
    · have hn' : ¬ name = n := fun h => hn h.symm
      simp only [ne_eq, hn, not_false_eq_true, if_true, ih, List.mem_cons, hn', false_or]

theorem findServerLoop_eq_find (name protocol : Str) (servers : List Server) :
    findServerLoop name protocol servers = servers.find? (serverMatches name protocol) := by
  induction servers with
  | nil => rfl
  | cons s rest ih =>
    unfold findServerLoop
    have hm : findNameLoop s name protocol s.GetNames = serverMatches name protocol s := by
      rw [findNameLoop_eq, isProtocolSupported_eq_any, serverMatches]
    rw [hm, List.find?_cons, ih]
    cases serverMatches name protocol s <;> simp

/-- C8: `FindServer(h, name, protocol)` is the first server of `h`, in
declaration order, whose server_name tokens contain `name` and one of whose
listen tokens satisfies `protocol`; it is none exactly when no server of `h`
meets both conditions, in particular for a nil `h`, for an `h` without
servers, and when no server carries the name. -/
theorem findServer_first_match (h : Option HTTP) (name protocol : Str) :
    HTTP.FindServer h name protocol = (httpServers h).find? (serverMatches name protocol) ∧
    (HTTP.FindServer h name protocol = none ↔
      ∀ s ∈ httpServers h, serverMatches name protocol s = false) ∧
    HTTP.FindServer none name protocol = none ∧
    (httpServers h = [] → HTTP.FindServer h name protocol = none) ∧
    ((∀ s ∈ httpServers h, name ∉ s.GetNames) → HTTP.FindServer h name protocol = none) := by
  have key : HTTP.FindServer h name protocol =
      (httpServers h).find? (serverMatches name protocol) := by
    cases h with
    | none => rfl
    | some http =>
      unfold HTTP.FindServer HTTP.ServersNum httpServers
      by_cases h0 : http.Servers.length = 0
      · have hnil : http.Servers = [] := List.length_eq_zero.mp h0
        simp [hnil]
      · simp only [h0, if_false]
        exact findServerLoop_eq_find _ _ _
  have hnone : HTTP.FindServer h name protocol = none ↔
      ∀ s ∈ httpServers h, serverMatches name protocol s = false := by
    rw [key, List.find?_eq_none]
    simp
  refine ⟨key, hnone, rfl, ?_, ?_⟩
  · intro hs
    rw [key, hs]
    rfl
  · intro hs
    rw [hnone]
    intro s hmem
    simp [serverMatches, hs s hmem]

/-- Witness of C8: among the servers `_` on 80, `service.domain.com` on 80 and
`service.domain.com` on `443 ssl`, the lookup of `service.domain.com` for
https finds the third, and no server is named `unknown`. -/
theorem findServer_first_match_witness :
    HTTP.FindServer
        (some { Properties := some [], Types := none, Upstreams := some [],
                Servers := [
                  { Properties := some { Conditions := [], Data := some [
                      ("listen".toList, [⟨-1, "80".toList⟩]),
                      ("server_name".toList, [⟨-1, "_".toList⟩])] }, Locations := [] },
                  { Properties := some { Conditions := [], Data := some [
                      ("listen".toList, [⟨-1, "80".toList⟩]),
                      ("server_name".toList, [⟨-1, "service.domain.com".toList⟩])] },
                    Locations := [] },
                  { Properties := some { Conditions := [], Data := some [
                      ("listen".toList, [⟨-1, "443 ssl".toList⟩]),
                      ("server_name".toList, [⟨-1, "service.domain.com".toList⟩])] },
                    Locations := [] }] })
        "service.domain.com".toList "https".toList =
      some { Properties := some { Conditions := [], Data := some [
               ("listen".toList, [⟨-1, "443 ssl".toList⟩]),
               ("server_name".toList, [⟨-1, "service.domain.com".toList⟩])] },
             Locations := [] } ∧
    HTTP.FindServer
        (some { Properties := some [], Types := none, Upstreams := some [],
                Servers := [
                  { Properties := some { Conditions := [], Data := some [
                      ("listen".toList, [⟨-1, "80".toList⟩]),
                      ("server_name".toList, [⟨-1, "_".toList⟩])] }, Locations := [] }] })
        "unknown".toList "http".toList = none :=
  ⟨(findServer_first_match _ _ _).1.trans (by decide),
   (findServer_first_match _ _ _).2.2.2.2 (by decide)⟩

/-! ### The listing loops -/

theorem serverNamesLoop_eq (protocols : Str) (names : List Str) (result : List Str) :
    serverNamesLoop names protocols result =
      result ++ names.map (fun n =>
        n ++ (if stringsContains protocols "http2".toList ∨
                stringsContains protocols "ssl".toList ∨
                stringsContains protocols "443".toList
              then ":https".toList else ":http".toList)) := by
  induction names generalizing result with
  | nil => simp [serverNamesLoop]
  | cons n rest ih =>
    unfold serverNamesLoop
    by_cases hc : stringsContains protocols "http2".toList = true ∨
        stringsContains protocols "ssl".toList = true ∨
        stringsContains protocols "443".toList = true
    · rw [if_pos hc, ih, List.map_cons, if_pos hc, List.append_assoc]
      rfl
    · rw [if_neg hc, ih, List.map_cons, if_neg hc, List.append_assoc]
      rfl

theorem serversListLoop_eq (servers : List Server) (result : List Str) :
    serversListLoop servers result = result ++ servers.flatMap serverEntries := by
  induction servers generalizing result with
  | nil => simp [serversListLoop]
  | cons s rest ih =>
    unfold serversListLoop
    simp only [ih, serverNamesLoop_eq, List.flatMap_cons, List.append_assoc]
    rfl

/-- C9: `ServersList(h)` is the concatenation, over the servers of `h` in
declaration order, of the entries of each server (one per server_name token in
token order, `:https` or `:http` after the joined listen value); it is empty
when `h` is nil or has no servers, which is when `ServersNum` is 0.  On the
servers `_` on 80, `service.domain.com` on 80 and `service.domain.com` on
`443 ssl` it is `_:http`, `service.domain.com:http`,
`service.domain.com:https`. -/
theorem serversList_in_declaration_order (h : Option HTTP) :
    HTTP.ServersList h = (httpServers h).flatMap serverEntries ∧
    HTTP.ServersNum h = (httpServers h).length ∧
    HTTP.ServersList none = [] ∧
    (HTTP.ServersNum h = 0 → HTTP.ServersList h = []) ∧
    HTTP.ServersList
        (some { Properties := some [], Types := none, Upstreams := some [],
                Servers := [
                  { Properties := some { Conditions := [], Data := some [
                      ("listen".toList, [⟨-1, "80".toList⟩]),
                      ("server_name".toList, [⟨-1, "_".toList⟩])] }, Locations := [] },
                  { Properties := some { Conditions := [], Data := some [
                      ("listen".toList, [⟨-1, "80".toList⟩]),
                      ("server_name".toList, [⟨-1, "service.domain.com".toList⟩])] },
                    Locations := [] },
                  { Properties := some { Conditions := [], Data := some [
                      ("listen".toList, [⟨-1, "443 ssl".toList⟩]),
                      ("server_name".toList, [⟨-1, "service.domain.com".toList⟩])] },
                    Locations := [] }] }) =
      ["_:http".toList, "service.domain.com:http".toList, "service.domain.com:https".toList] := by
  refine ⟨?_, ?_, rfl, ?_, by decide⟩
  · cases h with
    | none => rfl
    | some http =>
      unfold HTTP.ServersList HTTP.ServersNum httpServers
      by_cases h0 : http.Servers.length = 0
      · have hnil : http.Servers = [] := List.length_eq_zero.mp h0
        simp [hnil]
      · simp only [h0, if_false]
        rw [serversListLoop_eq]
        rfl
  · cases h <;> rfl
  · intro h0
    unfold HTTP.ServersList
    rw [if_pos h0]

/-! ### The property stores -/

theorem propertiesGetLoop_eq (name : Str) (entries : List (Str × List Str)) :
    propertiesGetLoop entries name = stringsJoin ((assocGet entries name).getD []) [' '] := by
  induction entries with
  | nil => rfl
  | cons e rest ih =>
    obtain ⟨k, v⟩ := e
    unfold propertiesGetLoop assocGet
    by_cases hk : k = name
    · rw [if_pos hk, if_pos hk]
      rfl
    · rw [if_neg hk, if_neg hk, ih]

theorem collectValues_eq (l : List ConditionalProperty) (result : List Str) :
    collectValues l result = result ++ l.map (fun p => p.Value) := by
  induction l generalizing result with
  | nil => simp [collectValues]
  | cons p rest ih => simp [collectValues, ih]

theorem conditionalGetLoop_eq (name : Str) (entries : List (Str × List ConditionalProperty)) :
    conditionalGetLoop entries name =
      stringsJoin (((assocGet entries name).getD []).map (fun p => p.Value)) [' '] := by
  induction entries with
  | nil => rfl
  | cons e rest ih =>
    obtain ⟨k, v⟩ := e
    unfold conditionalGetLoop assocGet
    by_cases hk : k = name
    · rw [if_pos hk, if_pos hk, collectValues_eq]
      rfl
    · rw [if_neg hk, if_neg hk, ih]

/-- C10: `p.Get(name)` is the list of values that `p` stores under `name`,
joined with single spaces in stored order, and is empty when `p` stores
nothing under `name` or is nil; `cp.Get(name)` is the `Value` fields of the
entries that `cp.Data` stores under `name`, joined with single spaces in
stored order whatever their `ConditionID`, and is empty when nothing is stored
under `name` or when `cp` or its `Data` is nil. -/
theorem get_joins_stored_values (name : Str) :
    (∀ p : Properties,
      Properties.Get p name = stringsJoin ((mapGet p name).getD []) [' '] ∧
      (mapGet p name = none → Properties.Get p name = [])) ∧
    Properties.Get none name = [] ∧
    (∀ cp : ConditionalProperties,
      ConditionalProperties.Get (some cp) name =
        stringsJoin (((mapGet cp.Data name).getD []).map (fun p => p.Value)) [' '] ∧
      (mapGet cp.Data name = none → ConditionalProperties.Get (some cp) name = []) ∧
      (cp.Data = none → ConditionalProperties.Get (some cp) name = [])) ∧
    ConditionalProperties.Get none name = [] ∧
    (∀ (conds conds' : List Str) (entries entries' : List (Str × List ConditionalProperty)),
      entries.map (fun e => (e.1, e.2.map (fun p => p.Value))) =
        entries'.map (fun e => (e.1, e.2.map (fun p => p.Value))) →
      ConditionalProperties.Get (some { Conditions := conds, Data := some entries }) name =
        ConditionalProperties.Get (some { Conditions := conds', Data := some entries' }) name) := by
  have hp : ∀ p : Properties,
      Properties.Get p name = stringsJoin ((mapGet p name).getD []) [' '] := by
    intro p
    cases p with
    | none => rfl
    | some entries => exact propertiesGetLoop_eq name entries
  have hc : ∀ cp : ConditionalProperties,
      ConditionalProperties.Get (some cp) name =
        stringsJoin (((mapGet cp.Data name).getD []).map (fun p => p.Value)) [' '] := by
    intro cp
    obtain ⟨conds, data⟩ := cp
    cases data with
    | none => rfl
    | some entries => exact conditionalGetLoop_eq name entries
  refine ⟨fun p => ⟨hp p, fun hn => ?_⟩, rfl, fun cp => ⟨hc cp, fun hn => ?_, fun hn => ?_⟩, rfl,
    ?_⟩
  · rw [hp, hn]
    rfl
  · rw [hc, hn]
    rfl
  · rw [hc, hn]
    rfl
  · intro conds conds' entries entries' hmap
    rw [hc, hc]
    have hget : ∀ (l : List (Str × List ConditionalProperty)),
        ((assocGet l name).getD []).map (fun p => p.Value) =
          (assocGet (l.map (fun e => (e.1, e.2.map (fun p => p.Value)))) name).getD [] := by
      intro l
      induction l with
      | nil => rfl
      | cons e rest ih =>
        obtain ⟨k, v⟩ := e
        simp only [assocGet, List.map_cons]
        by_cases hk : k = name
        · rw [if_pos hk, if_pos hk]
          rfl
        · rw [if_neg hk, if_neg hk]
          exact ih
    show stringsJoin (((assocGet entries name).getD []).map _) _ =
      stringsJoin (((assocGet entries' name).getD []).map _) _
    rw [hget, hget, hmap]

/-! ### Outcomes of the helpers: they return or panic, they never loop -/

theorem Res.bind_eq_ok {α β : Type} {r : Res α} {f : α → Res β} {b : β}
    (h : (r >>= f) = Res.ok b) : ∃ a, r = Res.ok a ∧ f a = Res.ok b := by
  cases r with
  | ok a => exact ⟨a, rfl, h⟩
  | error e => cases h
  | panic e => cases h
  | diverge => cases h

theorem Res.bind_ne_diverge {α β : Type} {r : Res α} {f : α → Res β}
    (hr : r ≠ Res.diverge) (hf : ∀ a, r = Res.ok a → f a ≠ Res.diverge) :
    (r >>= f) ≠ Res.diverge := by
  cases r with
  | ok a => exact hf a rfl
  | error e => intro h; cases h
  | panic e => intro h; cases h
  | diverge => exact absurd rfl hr

theorem goSlice_ne_diverge (s : Str) (low high : Int) : goSlice s low high ≠ Res.diverge := by
  unfold goSlice
  split <;> intro h <;> cases h

theorem cleanData_ne_diverge (data : Str) : cleanData data ≠ Res.diverge := by
  unfold cleanData
  simp only
  split
  · exact goSlice_ne_diverge _ _ _
  · intro h; cases h

theorem parseProperty_ne_diverge (data : Str) : parseProperty data ≠ Res.diverge := by
  unfold parseProperty
  refine Res.bind_ne_diverge (cleanData_ne_diverge _) (fun d _ => ?_)
  simp only
  split
  · intro h; cases h
  · refine Res.bind_ne_diverge (goSlice_ne_diverge _ _ _) (fun n _ => ?_)
    refine Res.bind_ne_diverge (goSlice_ne_diverge _ _ _) (fun v _ => ?_)
    intro h; cases h

theorem getBlockName_ne_diverge (data : Str) : getBlockName data ≠ Res.diverge := by
  unfold getBlockName
  refine Res.bind_ne_diverge (cleanData_ne_diverge _) (fun d _ => ?_)
  simp only
  split
  · intro h; cases h
  · split <;> intro h <;> cases h

theorem getCondition_ne_diverge (data : Str) : getCondition data ≠ Res.diverge :=
  goSlice_ne_diverge _ _ _

theorem parseLocationArgs_ne_diverge (data : List Str) :
    parseLocationArgs data ≠ Res.diverge := by
  unfold parseLocationArgs
  split <;> intro h <;> cases h

theorem mapSet_ne_diverge {V : Type} (m : GoMap V) (name : Str) (v : V) :
    mapSet m name v ≠ Res.diverge := by
  unfold mapSet
  split <;> intro h <;> cases h

theorem mapAppend_ne_diverge {V : Type} (m : GoMap (List V)) (name : Str) (v : V) :
    mapAppend m name v ≠ Res.diverge :=
  mapSet_ne_diverge _ _ _

/-! ### The loops without a step budget -/

theorem parseSimpleLoop_ne_diverge (lines : List Str) :
    ∀ (cursor : Nat) (result : Properties),
      parseSimpleLoop lines cursor result ≠ Res.diverge := by
  induction lines with
  | nil => intro cursor result h; cases h
  | cons line rest ih =>
    intro cursor result
    unfold parseSimpleLoop
    split
    · intro h; cases h
    · refine Res.bind_ne_diverge (parseProperty_ne_diverge _) (fun p _ => ?_)
      exact Res.bind_ne_diverge (mapAppend_ne_diverge _ _ _) (fun r _ => ih _ _)

theorem parseSimpleLoop_progress (lines : List Str) :
    ∀ (cursor : Nat) (result : Properties) (c : Nat) (p : Properties),
      parseSimpleLoop lines cursor result = .ok (c, p) →
      cursor < c ∧ c ≤ cursor + lines.length := by
  induction lines with
  | nil => intro cursor result c p h; cases h
  | cons line rest ih =>
    intro cursor result c p h
    unfold parseSimpleLoop at h
    split at h
    · simp only [Res.ok.injEq, Prod.mk.injEq] at h
      obtain ⟨rfl, -⟩ := h
      simp
    · obtain ⟨q, -, h⟩ := Res.bind_eq_ok h
      obtain ⟨r, -, h⟩ := Res.bind_eq_ok h
      have := ih _ _ _ _ h
      simp only [List.length_cons]
      omega

theorem parseSimpleLoop_no_end (lines : List Str) (hno : ∀ l ∈ lines, isBlockEnd l = false) :
    ∀ (cursor : Nat) (result : Properties),
      (parseSimpleLoop lines cursor result).isOk = false := by
  induction lines with
  | nil => intro cursor result; rfl
  | cons line rest ih =>
    intro cursor result
    unfold parseSimpleLoop
    rw [hno line (List.mem_cons_self _ _)]
    simp only [Bool.false_eq_true, if_false]
    cases hp : parseProperty line with
    | ok q =>
      simp only [Res.ok_bind]
      cases hm : mapAppend result q.1 q.2 with
      | ok r =>
        simp only [Res.ok_bind]
        exact ih (fun l hl => hno l (List.mem_cons_of_mem _ hl)) _ _
      | error e => rfl
      | panic e => rfl
      | diverge => rfl
    | error e => rfl
    | panic e => rfl
    | diverge => rfl

theorem parseSimpleBlock_ne_diverge (data : List Str) (cursor : Nat) :
    parseSimpleBlock data cursor ≠ Res.diverge :=
  parseSimpleLoop_ne_diverge _ _ _

theorem parseSimpleBlock_progress (data : List Str) (cursor c : Nat) (p : Properties)
    (h : parseSimpleBlock data cursor = .ok (c, p)) : cursor < c ∧ c ≤ data.length := by
  have hp := parseSimpleLoop_progress _ _ _ _ _ h
  have hlen : cursor < data.length := by
    by_contra hge
    unfold parseSimpleBlock at h
    rw [List.drop_eq_nil_of_le (by omega)] at h
    cases h
  simp only [List.length_drop] at hp
  omega

theorem parseIfLoop_ne_diverge (lines : List Str) :
    ∀ (cursor conditionID : Nat) (props : ConditionalProperties),
      parseIfLoop lines cursor conditionID props ≠ Res.diverge := by
  induction lines with
  | nil => intro cursor conditionID props h; cases h
  | cons line rest ih =>
    intro cursor conditionID props
    unfold parseIfLoop
    split
    · intro h; cases h
    · refine Res.bind_ne_diverge (parseProperty_ne_diverge _) (fun p _ => ?_)
      exact Res.bind_ne_diverge (mapAppend_ne_diverge _ _ _) (fun r _ => ih _ _ _)

theorem parseIfLoop_progress (lines : List Str) :
    ∀ (cursor conditionID : Nat) (props : ConditionalProperties) (c : Nat)
      (res : ConditionalProperties),
      parseIfLoop lines cursor conditionID props = .ok (c, res) →
      cursor < c ∧ c ≤ cursor + lines.length := by
  induction lines with
  | nil => intro cursor conditionID props c res h; cases h
  | cons line rest ih =>
    intro cursor conditionID props c res h
    unfold parseIfLoop at h
    split at h
    · simp only [Res.ok.injEq, Prod.mk.injEq] at h
      obtain ⟨rfl, -⟩ := h
      simp
    · obtain ⟨q, -, h⟩ := Res.bind_eq_ok h
      obtain ⟨r, -, h⟩ := Res.bind_eq_ok h
      have := ih _ _ _ _ _ h
      simp only [List.length_cons]
      omega

theorem parseIfLoop_no_end (lines : List Str) (hno : ∀ l ∈ lines, isBlockEnd l = false) :
    ∀ (cursor conditionID : Nat) (props : ConditionalProperties),
      (parseIfLoop lines cursor conditionID props).isOk = false := by
  induction lines with
  | nil => intro cursor conditionID props; rfl
  | cons line rest ih =>
    intro cursor conditionID props
    unfold parseIfLoop
    rw [hno line (List.mem_cons_self _ _)]
    simp only [Bool.false_eq_true, if_false]
    cases hp : parseProperty line with
    | ok q =>
      simp only [Res.ok_bind]
      cases hm : mapAppend props.Data q.1 ⟨(conditionID : Int), q.2⟩ with
      | ok r =>
        simp only [Res.ok_bind]
        exact ih (fun l hl => hno l (List.mem_cons_of_mem _ hl)) _ _ _
      | error e => rfl
      | panic e => rfl
      | diverge => rfl
    | error e => rfl
    | panic e => rfl
    | diverge => rfl

theorem parseIfBlock_ne_diverge (data : List Str) (cursor : Nat)
    (props : ConditionalProperties) : parseIfBlock data cursor props ≠ Res.diverge := by
  unfold parseIfBlock
  split
  · intro h; cases h
  · split
    · intro h; cases h
    · exact Res.bind_ne_diverge (getCondition_ne_diverge _) (fun c _ => parseIfLoop_ne_diverge _ _ _ _)

theorem parseIfBlock_progress (data : List Str) (cursor c : Nat)
    (props res : ConditionalProperties) (h : parseIfBlock data cursor props = .ok (c, res)) :
    cursor < c ∧ c ≤ data.length := by
  unfold parseIfBlock at h
  split at h
  · cases h
  · split at h
    · cases h
    · obtain ⟨cond, -, h⟩ := Res.bind_eq_ok h
      have hp := parseIfLoop_progress _ _ _ _ _ _ h
      have hlen : cursor < data.length := by
        by_contra hge
        rw [List.drop_eq_nil_of_le (by omega)] at h
        cases h
      simp only [List.length_drop] at hp
      omega

/-! ### The compound loops: progress, budget, unterminated input -/

theorem Res.bind_isOk_false {α β : Type} {r : Res α} {f : α → Res β}
    (hf : ∀ a, r = Res.ok a → (f a).isOk = false) : (r >>= f).isOk = false := by
  cases r with
  | ok a => exact hf a rfl
  | error e => rfl
  | panic e => rfl
  | diverge => rfl

theorem Res.isOk_false_of_bind {α β : Type} {r : Res α} {f : α → Res β}
    (hr : r.isOk = false) : (r >>= f).isOk = false := by
  cases r with
  | ok a => cases hr
  | error e => rfl
  | panic e => rfl
  | diverge => rfl

theorem lt_length_of_getElem? {α : Type} {l : List α} {i : Nat} {a : α}
    (h : l[i]? = some a) : i < l.length := by
  by_contra hge
  rw [List.getElem?_eq_none (by omega)] at h
  cases h

theorem noBlockEndFrom_mono {data : List Str} {c c' : Nat} (h : noBlockEndFrom data c)
    (hle : c ≤ c') : noBlockEndFrom data c' :=
  fun i l hi hl => h i l (le_trans hle hi) hl

theorem noBlockEndFrom_drop {data : List Str} {cursor : Nat} (h : noBlockEndFrom data cursor) :
    ∀ l ∈ data.drop cursor, isBlockEnd l = false := by
  intro l hl
  obtain ⟨i, hi⟩ := List.mem_iff_getElem?.mp hl
  rw [List.getElem?_drop] at hi
  exact h (cursor + i) l (Nat.le_add_right _ _) hi

theorem parseSimpleBlock_no_end (data : List Str) (cursor : Nat)
    (h : noBlockEndFrom data cursor) : (parseSimpleBlock data cursor).isOk = false :=
  parseSimpleLoop_no_end _ (noBlockEndFrom_drop h) _ _

theorem parseIfBlock_no_end (data : List Str) (cursor : Nat) (props : ConditionalProperties)
    (h : noBlockEndFrom data cursor) : (parseIfBlock data cursor props).isOk = false := by
  unfold parseIfBlock
  split
  · rfl
  · split
    · rfl
    · exact Res.bind_isOk_false (fun c _ => parseIfLoop_no_end _ (noBlockEndFrom_drop h) _ _ _)

theorem parseLocationLoop_progress (fuel : Nat) :
    ∀ (data : List Str) (cursor : Nat) (props : ConditionalProperties) (c : Nat)
      (loc : Location),
      parseLocationLoop fuel data cursor props = .ok (c, loc) →
      cursor < c ∧ c ≤ data.length := by
  induction fuel with
  | zero => intro data cursor props c loc h; cases h
  | succ fuel ih =>
    intro data cursor props c loc h
    unfold parseLocationLoop at h
    cases hl : data[cursor]? with
    | none => simp [hl] at h
    | some line =>
      have hlt := lt_length_of_getElem? hl
      simp only [hl] at h
      split at h
      · simp only [Res.ok.injEq, Prod.mk.injEq] at h
        obtain ⟨rfl, -⟩ := h
        omega
      · split at h
        · obtain ⟨r, -, h⟩ := Res.bind_eq_ok h
          split at h
          · obtain ⟨q, hq, h⟩ := Res.bind_eq_ok h
            have h1 := parseIfBlock_progress _ _ _ _ _ hq
            have h2 := ih _ _ _ _ _ h
            omega
          · cases h
        · obtain ⟨r, -, h⟩ := Res.bind_eq_ok h
          obtain ⟨d, -, h⟩ := Res.bind_eq_ok h
          have h2 := ih _ _ _ _ _ h
          omega

theorem parseLocationLoop_ne_diverge (fuel : Nat) :
    ∀ (data : List Str) (cursor : Nat) (props : ConditionalProperties),
      data.length - cursor < fuel → parseLocationLoop fuel data cursor props ≠ Res.diverge := by
  induction fuel with
  | zero => intro data cursor props h; omega
  | succ fuel ih =>
    intro data cursor props hfuel
    unfold parseLocationLoop
    cases hl : data[cursor]? with
    | none => intro h; cases h
    | some line =>
      have hlt := lt_length_of_getElem? hl
      simp only
      split
      · intro h; cases h
      · split
        · refine Res.bind_ne_diverge (getBlockName_ne_diverge _) (fun r _ => ?_)
          split
          · refine Res.bind_ne_diverge (parseIfBlock_ne_diverge _ _ _) (fun q hq => ?_)
            have h1 := parseIfBlock_progress _ _ _ _ _ hq
            exact ih _ _ _ (by omega)
          · intro h; cases h
        · refine Res.bind_ne_diverge (parseProperty_ne_diverge _) (fun r _ => ?_)
          refine Res.bind_ne_diverge (mapAppend_ne_diverge _ _ _) (fun d _ => ?_)
          exact ih _ _ _ (by omega)

theorem parseLocationLoop_no_end (fuel : Nat) :
    ∀ (data : List Str) (cursor : Nat) (props : ConditionalProperties),
      noBlockEndFrom data cursor → (parseLocationLoop fuel data cursor props).isOk = false := by
  induction fuel with
  | zero => intro data cursor props _; rfl
  | succ fuel ih =>
    intro data cursor props hno
    unfold parseLocationLoop
    cases hl : data[cursor]? with
    | none => rfl
    | some line =>
      simp only [hno cursor line (le_refl _) hl, Bool.false_eq_true, if_false]
      split
      · refine Res.bind_isOk_false (fun r _ => ?_)
        split
        · exact Res.isOk_false_of_bind
            (parseIfBlock_no_end _ _ _ (noBlockEndFrom_mono hno (Nat.le_succ _)))
        · rfl
      · refine Res.bind_isOk_false (fun r _ => ?_)
        refine Res.bind_isOk_false (fun d _ => ?_)
        exact ih _ _ _ (noBlockEndFrom_mono hno (Nat.le_succ _))

theorem parseLocationBlock_progress (data : List Str) (cursor c : Nat) (loc : Location)
    (h : parseLocationBlock data cursor = .ok (c, loc)) : cursor < c ∧ c ≤ data.length :=
  parseLocationLoop_progress _ _ _ _ _ _ h

theorem parseLocationBlock_ne_diverge (data : List Str) (cursor : Nat) :
    parseLocationBlock data cursor ≠ Res.diverge :=
  parseLocationLoop_ne_diverge _ _ _ _ (by omega)

theorem parseServerLoop_progress (fuel : Nat) :
    ∀ (data : List Str) (cursor : Nat) (props : ConditionalProperties) (locs : List Location)
      (c : Nat) (server : Server),
      parseServerLoop fuel data cursor props locs = .ok (c, server) →
      cursor < c ∧ c ≤ data.length := by
  induction fuel with
  | zero => intro data cursor props locs c server h; cases h
  | succ fuel ih =>
    intro data cursor props locs c server h
    unfold parseServerLoop at h
    cases hl : data[cursor]? with
    | none => simp [hl] at h
    | some line =>
      have hlt := lt_length_of_getElem? hl
      simp only [hl] at h
      split at h
      · simp only [Res.ok.injEq, Prod.mk.injEq] at h
        obtain ⟨rfl, -⟩ := h
        omega
      · split at h
        · obtain ⟨r, -, h⟩ := Res.bind_eq_ok h
          split at h
          · obtain ⟨q, hq, h⟩ := Res.bind_eq_ok h
            have h1 := parseIfBlock_progress _ _ _ _ _ hq
            have h2 := ih _ _ _ _ _ _ h
            omega
          · split at h
            · obtain ⟨q, hq, h⟩ := Res.bind_eq_ok h
              obtain ⟨a, -, h⟩ := Res.bind_eq_ok h
              have h1 := parseLocationBlock_progress _ _ _ _ hq
              have h2 := ih _ _ _ _ _ _ h
              omega
            · cases h
        · obtain ⟨r, -, h⟩ := Res.bind_eq_ok h
          obtain ⟨d, -, h⟩ := Res.bind_eq_ok h
          have h2 := ih _ _ _ _ _ _ h
          omega

theorem parseServerLoop_ne_diverge (fuel : Nat) :
    ∀ (data : List Str) (cursor : Nat) (props : ConditionalProperties) (locs : List Location),
      data.length - cursor < fuel →
      parseServerLoop fuel data cursor props locs ≠ Res.diverge := by
  induction fuel with
  | zero => intro data cursor props locs h; omega
  | succ fuel ih =>
    intro data cursor props locs hfuel
    unfold parseServerLoop
    cases hl : data[cursor]? with
    | none => intro h; cases h
    | some line =>
      have hlt := lt_length_of_getElem? hl
      simp only
      split
      · intro h; cases h
      · split
        · refine Res.bind_ne_diverge (getBlockName_ne_diverge _) (fun r _ => ?_)
          split
          · refine Res.bind_ne_diverge (parseIfBlock_ne_diverge _ _ _) (fun q hq => ?_)
            have h1 := parseIfBlock_progress _ _ _ _ _ hq
            exact ih _ _ _ _ (by omega)
          · split
            · refine Res.bind_ne_diverge (parseLocationBlock_ne_diverge _ _) (fun q hq => ?_)
              refine Res.bind_ne_diverge (parseLocationArgs_ne_diverge _) (fun a _ => ?_)
              have h1 := parseLocationBlock_progress _ _ _ _ hq
              exact ih _ _ _ _ (by omega)
            · intro h; cases h
        · refine Res.bind_ne_diverge (parseProperty_ne_diverge _) (fun r _ => ?_)
          refine Res.bind_ne_diverge (mapAppend_ne_diverge _ _ _) (fun d _ => ?_)
          exact ih _ _ _ _ (by omega)

theorem parseServerLoop_no_end (fuel : Nat) :
    ∀ (data : List Str) (cursor : Nat) (props : ConditionalProperties) (locs : List Location),
      noBlockEndFrom data cursor →
      (parseServerLoop fuel data cursor props locs).isOk = false := by
  induction fuel with
  | zero => intro data cursor props locs _; rfl
  | succ fuel ih =>
    intro data cursor props locs hno
    unfold parseServerLoop
    cases hl : data[cursor]? with
    | none => rfl
    | some line =>
      simp only [hno cursor line (le_refl _) hl, Bool.false_eq_true, if_false]
      split
      · refine Res.bind_isOk_false (fun r _ => ?_)
        split
        · exact Res.isOk_false_of_bind
            (parseIfBlock_no_end _ _ _ (noBlockEndFrom_mono hno (Nat.le_succ _)))
        · split
          · exact Res.isOk_false_of_bind
              (parseLocationLoop_no_end _ _ _ _ (noBlockEndFrom_mono hno (Nat.le_succ _)))
          · rfl
      · refine Res.bind_isOk_false (fun r _ => ?_)
        refine Res.bind_isOk_false (fun d _ => ?_)
        exact ih _ _ _ _ (noBlockEndFrom_mono hno (Nat.le_succ _))

theorem parseServerBlock_progress (data : List Str) (cursor c : Nat) (server : Server)
    (h : parseServerBlock data cursor = .ok (c, server)) : cursor < c ∧ c ≤ data.length :=
  parseServerLoop_progress _ _ _ _ _ _ _ h

theorem parseServerBlock_ne_diverge (data : List Str) (cursor : Nat) :
    parseServerBlock data cursor ≠ Res.diverge :=
  parseServerLoop_ne_diverge _ _ _ _ _ (by omega)

theorem parseHTTPLoop_progress (fuel : Nat) :
    ∀ (data : List Str) (cursor : Nat) (http : HTTP) (c : Nat) (res : HTTP),
      parseHTTPLoop fuel data cursor http = .ok (c, res) →
      cursor < c ∧ c ≤ data.length := by
  induction fuel with
  | zero => intro data cursor http c res h; cases h
  | succ fuel ih =>
    intro data cursor http c res h
    unfold parseHTTPLoop at h
    cases hl : data[cursor]? with
    | none => simp [hl] at h
    | some line =>
      have hlt := lt_length_of_getElem? hl
      simp only [hl] at h
      split at h
      · simp only [Res.ok.injEq, Prod.mk.injEq] at h
        obtain ⟨rfl, -⟩ := h
        omega
      · split at h
        · obtain ⟨r, -, h⟩ := Res.bind_eq_ok h
          split at h
          · obtain ⟨q, hq, h⟩ := Res.bind_eq_ok h
            have h1 := parseSimpleBlock_progress _ _ _ _ hq
            have h2 := ih _ _ _ _ _ h
            omega
          · split at h
            · obtain ⟨q, hq, h⟩ := Res.bind_eq_ok h
              have h1 := parseServerBlock_progress _ _ _ _ hq
              have h2 := ih _ _ _ _ _ h
              omega
            · split at h
              · split at h
                · cases h
                · obtain ⟨q, hq, h⟩ := Res.bind_eq_ok h
                  obtain ⟨u, -, h⟩ := Res.bind_eq_ok h
                  have h1 := parseSimpleBlock_progress _ _ _ _ hq
                  have h2 := ih _ _ _ _ _ h
                  omega
              · cases h
        · obtain ⟨r, -, h⟩ := Res.bind_eq_ok h
          obtain ⟨d, -, h⟩ := Res.bind_eq_ok h
          have h2 := ih _ _ _ _ _ h
          omega

theorem parseHTTPLoop_ne_diverge (fuel : Nat) :
    ∀ (data : List Str) (cursor : Nat) (http : HTTP),
      data.length - cursor < fuel → parseHTTPLoop fuel data cursor http ≠ Res.diverge := by
  induction fuel with
  | zero => intro data cursor http h; omega
  | succ fuel ih =>
    intro data cursor http hfuel
    unfold parseHTTPLoop
    cases hl : data[cursor]? with
    | none => intro h; cases h
    | some line =>
      have hlt := lt_length_of_getElem? hl
      simp only
      split
      · intro h; cases h
      · split
        · refine Res.bind_ne_diverge (getBlockName_ne_diverge _) (fun r _ => ?_)
          split
          · refine Res.bind_ne_diverge (parseSimpleBlock_ne_diverge _ _) (fun q hq => ?_)
            have h1 := parseSimpleBlock_progress _ _ _ _ hq
            exact ih _ _ _ (by omega)
          · split
            · refine Res.bind_ne_diverge (parseServerBlock_ne_diverge _ _) (fun q hq => ?_)
              have h1 := parseServerBlock_progress _ _ _ _ hq
              exact ih _ _ _ (by omega)
            · split
              · split
                · intro h; cases h
                · refine Res.bind_ne_diverge (parseSimpleBlock_ne_diverge _ _) (fun q hq => ?_)
                  refine Res.bind_ne_diverge (mapSet_ne_diverge _ _ _) (fun u _ => ?_)
                  have h1 := parseSimpleBlock_progress _ _ _ _ hq
                  exact ih _ _ _ (by omega)
              · intro h; cases h
        · refine Res.bind_ne_diverge (parseProperty_ne_diverge _) (fun r _ => ?_)
          refine Res.bind_ne_diverge (mapAppend_ne_diverge _ _ _) (fun d _ => ?_)
          exact ih _ _ _ (by omega)

theorem parseHTTPLoop_no_end (fuel : Nat) :
    ∀ (data : List Str) (cursor : Nat) (http : HTTP),
      noBlockEndFrom data cursor → (parseHTTPLoop fuel data cursor http).isOk = false := by
  induction fuel with
  | zero => intro data cursor http _; rfl
  | succ fuel ih =>
    intro data cursor http hno
    have hno' := noBlockEndFrom_mono hno (Nat.le_succ cursor)
    unfold parseHTTPLoop
    cases hl : data[cursor]? with
    | none => rfl
    | some line =>
      simp only [hno cursor line (le_refl _) hl, Bool.false_eq_true, if_false]
      split
      · refine Res.bind_isOk_false (fun r _ => ?_)
        split
        · exact Res.isOk_false_of_bind (parseSimpleBlock_no_end _ _ hno')
        · split
          · exact Res.isOk_false_of_bind (parseServerLoop_no_end _ _ _ _ _ hno')
          · split
            · split
              · rfl
              · exact Res.isOk_false_of_bind (parseSimpleBlock_no_end _ _ hno')
            · rfl
      · refine Res.bind_isOk_false (fun r _ => ?_)
        refine Res.bind_isOk_false (fun d _ => ?_)
        exact ih _ _ _ hno'

theorem parseHTTPBlock_progress (data : List Str) (cursor c : Nat) (http : HTTP)
    (h : parseHTTPBlock data cursor = .ok (c, http)) : cursor < c ∧ c ≤ data.length :=
  parseHTTPLoop_progress _ _ _ _ _ _ h

theorem parseHTTPBlock_ne_diverge (data : List Str) (cursor : Nat) :
    parseHTTPBlock data cursor ≠ Res.diverge :=
  parseHTTPLoop_ne_diverge _ _ _ _ (by omega)

theorem parseConfigLoop_ne_diverge (fuel : Nat) :
    ∀ (data : List Str) (cursor : Nat) (config : Config),
      data.length - cursor < fuel → parseConfigLoop fuel data cursor config ≠ Res.diverge := by
  induction fuel with
  | zero => intro data cursor config h; omega
  | succ fuel ih =>
    intro data cursor config hfuel
    unfold parseConfigLoop
    cases hl : data[cursor]? with
    | none => intro h; cases h
    | some line =>
      have hlt := lt_length_of_getElem? hl
      simp only
      split
      · refine Res.bind_ne_diverge (getBlockName_ne_diverge _) (fun r _ => ?_)
        split
        · refine Res.bind_ne_diverge (parseSimpleBlock_ne_diverge _ _) (fun q hq => ?_)
          have h1 := parseSimpleBlock_progress _ _ _ _ hq
          exact ih _ _ _ (by omega)
        · split
          · refine Res.bind_ne_diverge (parseSimpleBlock_ne_diverge _ _) (fun q hq => ?_)
            have h1 := parseSimpleBlock_progress _ _ _ _ hq
            exact ih _ _ _ (by omega)
          · split
            · refine Res.bind_ne_diverge (parseHTTPBlock_ne_diverge _ _) (fun q hq => ?_)
              have h1 := parseHTTPBlock_progress _ _ _ _ hq
              exact ih _ _ _ (by omega)
            · intro h; cases h
      · refine Res.bind_ne_diverge (parseProperty_ne_diverge _) (fun r _ => ?_)
        refine Res.bind_ne_diverge (mapAppend_ne_diverge _ _ _) (fun d _ => ?_)
        exact ih _ _ _ (by omega)

/-- The step budget of the block parsers is never exhausted: each call returns
a node, returns an error, or panics. -/
theorem parsers_terminate (data : List Str) (cursor : Nat) (props : ConditionalProperties) :
    parseSimpleBlock data cursor ≠ Res.diverge ∧
    parseIfBlock data cursor props ≠ Res.diverge ∧
    parseLocationBlock data cursor ≠ Res.diverge ∧
    parseServerBlock data cursor ≠ Res.diverge ∧
    parseHTTPBlock data cursor ≠ Res.diverge ∧
    parseConfig data ≠ Res.diverge :=
  ⟨parseSimpleBlock_ne_diverge _ _, parseIfBlock_ne_diverge _ _ _,
   parseLocationBlock_ne_diverge _ _, parseServerBlock_ne_diverge _ _,
   parseHTTPBlock_ne_diverge _ _, parseConfigLoop_ne_diverge _ _ _ _ (by omega)⟩

/-- Without a block-end line from `cursor` on, no block parser returns a
node: the call ends with an error or with a panic. -/
theorem unterminated_block_no_node (data : List Str) (cursor : Nat)
    (props : ConditionalProperties) (hno : noBlockEndFrom data cursor) :
    (parseSimpleBlock data cursor).isOk = false ∧
    (parseIfBlock data cursor props).isOk = false ∧
    (parseLocationBlock data cursor).isOk = false ∧
    (parseServerBlock data cursor).isOk = false ∧
    (parseHTTPBlock data cursor).isOk = false :=
  ⟨parseSimpleBlock_no_end _ _ hno, parseIfBlock_no_end _ _ _ hno,
   parseLocationLoop_no_end _ _ _ _ hno, parseServerLoop_no_end _ _ _ _ _ hno,
   parseHTTPLoop_no_end _ _ _ _ hno⟩

/-! ### The typed accessors on an empty value -/

theorem stringsJoin_singleton_nil (sep : Str) : stringsJoin [[]] sep = [] := rfl

/-- C11: when `Get(name)` is the empty string, each of `GetBool`, `GetInt`,
`GetSize`, `GetBuf` and `GetTime`, of `Properties` and of
`ConditionalProperties`, returns the zero values with the error
`errEmptyProp` ("Value is empty") and parses nothing; `Get(name)` is empty for
a nil store, for a name that is absent and for a name under which only one
empty value is stored. -/
theorem typed_getters_empty_value (name : Str) :
    (∀ p : Properties, Properties.Get p name = [] →
      Properties.GetBool p name = (false, some errEmptyProp) ∧
      Properties.GetInt p name = (0, some errEmptyProp) ∧
      Properties.GetSize p name = (0, some errEmptyProp) ∧
      Properties.GetBuf p name = .ok (0, 0, some errEmptyProp) ∧
      Properties.GetTime p name = (0, some errEmptyProp)) ∧
    (∀ cp : Option ConditionalProperties, ConditionalProperties.Get cp name = [] →
      ConditionalProperties.GetBool cp name = (false, some errEmptyProp) ∧
      ConditionalProperties.GetInt cp name = (0, some errEmptyProp) ∧
      ConditionalProperties.GetSize cp name = (0, some errEmptyProp) ∧
      ConditionalProperties.GetBuf cp name = .ok (0, 0, some errEmptyProp) ∧
      ConditionalProperties.GetTime cp name = (0, some errEmptyProp)) ∧
    Properties.Get none name = [] ∧
    (∀ p : Properties, mapGet p name = none → Properties.Get p name = []) ∧
    (∀ p : Properties, mapGet p name = some [[]] → Properties.Get p name = []) ∧
    ConditionalProperties.Get none name = [] ∧
    (∀ cp : ConditionalProperties, mapGet cp.Data name = none →
      ConditionalProperties.Get (some cp) name = []) ∧
    (∀ (cp : ConditionalProperties) (id : Int), mapGet cp.Data name = some [⟨id, []⟩] →
      ConditionalProperties.Get (some cp) name = []) := by
  have hp : ∀ p : Properties,
      Properties.Get p name = stringsJoin ((mapGet p name).getD []) [' '] := by
    intro p
    cases p with
    | none => rfl
    | some entries => exact propertiesGetLoop_eq name entries
  have hc : ∀ cp : ConditionalProperties,
      ConditionalProperties.Get (some cp) name =
        stringsJoin (((mapGet cp.Data name).getD []).map (fun p => p.Value)) [' '] := by
    intro cp
    obtain ⟨conds, data⟩ := cp
    cases data with
    | none => rfl
    | some entries => exact conditionalGetLoop_eq name entries
  refine ⟨fun p h => ?_, fun cp h => ?_, rfl, fun p h => ?_, fun p h => ?_, rfl, fun cp h => ?_,
    fun cp id h => ?_⟩
  · simp [Properties.GetBool, Properties.GetInt, Properties.GetSize, Properties.GetBuf,
      Properties.GetTime, h]
  · simp [ConditionalProperties.GetBool, ConditionalProperties.GetInt,
      ConditionalProperties.GetSize, ConditionalProperties.GetBuf,
      ConditionalProperties.GetTime, h]
  · rw [hp, h]; rfl
  · rw [hp, h]; rfl
  · rw [hc, h]; rfl
  · rw [hc, h]; rfl

/-- Witness of C11: the accessors on the store `{"a": [""]}`, on the nil store
and on a nil conditional store. -/
theorem typed_getters_empty_value_witness :
    Properties.GetBool (some [("a".toList, [[]])]) "a".toList = (false, some errEmptyProp) ∧
    Properties.GetBuf none "a".toList = .ok (0, 0, some errEmptyProp) ∧
    ConditionalProperties.GetTime none "a".toList = (0, some errEmptyProp) :=
  ⟨((typed_getters_empty_value "a".toList).1 (some [("a".toList, [[]])]) (by decide)).1,
   ((typed_getters_empty_value "a".toList).1 none (by decide)).2.2.2.1,
   ((typed_getters_empty_value "a".toList).2.1 none (by decide)).2.2.2.2⟩

/-- C13: `parseSize(s)` returns an error exactly when `s`, stripped of its
leading and trailing decimal digits, is none of the empty string, `k`, `K`,
`m`, `M`, `g`, `G`; the size returned with the error is 0 (so for `2J`). -/
theorem parseSize_fails_iff_unit_unrecognised (s : Str) :
    ((parseSize s).2 ≠ none ↔
      stringsTrim s "0123456789".toList ∉
        [[], "k".toList, "K".toList, "m".toList, "M".toList, "g".toList, "G".toList]) ∧
    ((parseSize s).2 ≠ none → (parseSize s).1 = 0) ∧
    parseSize "2J".toList = (0, some (.text "Unsupported measurement unit J")) := by
  refine ⟨?_, ?_, by decide⟩
  · unfold parseSize
    simp only [List.mem_cons, List.not_mem_nil, or_false, not_or]
    by_cases h1 : stringsTrim s "0123456789".toList = "k".toList ∨
        stringsTrim s "0123456789".toList = "K".toList
    · rw [if_pos h1]; simp; tauto
    · rw [if_neg h1]
      by_cases h2 : stringsTrim s "0123456789".toList = "m".toList ∨
          stringsTrim s "0123456789".toList = "M".toList
      · rw [if_pos h2]; simp; tauto
      · rw [if_neg h2]
        by_cases h3 : stringsTrim s "0123456789".toList = "g".toList ∨
            stringsTrim s "0123456789".toList = "G".toList
        · rw [if_pos h3]; simp; tauto
        · rw [if_neg h3]
          by_cases h4 : stringsTrim s "0123456789".toList = []
          · rw [if_pos h4]; simp; tauto
          · rw [if_neg h4]; simp; tauto
  · unfold parseSize
    simp only
    split_ifs <;> simp

/-- C19: `parseBool` returns true without error for exactly the string `on`,
false without error for exactly the string `off`, and false with an error for
every other string (so for `auto`, `On`, `on on`); `GetBool` of either store is
`parseBool` of the value whenever the value is not empty. -/
theorem parseBool_on_off (s : Str) :
    (parseBool s = (true, none) ↔ s = "on".toList) ∧
    (parseBool s = (false, none) ↔ s = "off".toList) ∧
    (s ≠ "on".toList → s ≠ "off".toList →
      parseBool s = (false, some (.text ("Unsupported boolean value " ++ String.mk s)))) ∧
    (parseBool "auto".toList).1 = false ∧ (parseBool "auto".toList).2 ≠ none ∧
    (parseBool "On".toList).1 = false ∧ (parseBool "On".toList).2 ≠ none ∧
    (parseBool "on on".toList).1 = false ∧ (parseBool "on on".toList).2 ≠ none ∧
    (∀ (p : Properties) (name : Str), Properties.Get p name = s → s ≠ [] →
      Properties.GetBool p name = parseBool s) ∧
    (∀ (cp : Option ConditionalProperties) (name : Str),
      ConditionalProperties.Get cp name = s → s ≠ [] →
      ConditionalProperties.GetBool cp name = parseBool s) := by
  have hne : ¬ ("off".toList = "on".toList) := by decide
  refine ⟨?_, ?_, ?_, by decide, by decide, by decide, by decide, by decide, by decide, ?_, ?_⟩
  · unfold parseBool
    by_cases h1 : s = "on".toList
    · rw [if_pos h1]; exact ⟨fun _ => h1, fun _ => rfl⟩
    · rw [if_neg h1]
      by_cases h2 : s = "off".toList
      · rw [if_pos h2]; exact ⟨fun h => (by cases h), fun h => absurd h h1⟩
      · rw [if_neg h2]; exact ⟨fun h => (by cases h), fun h => absurd h h1⟩
  · unfold parseBool
    by_cases h1 : s = "on".toList
    · rw [if_pos h1]
      exact ⟨fun h => (by cases h), fun h => absurd (h1.symm.trans h).symm hne⟩
    · rw [if_neg h1]
      by_cases h2 : s = "off".toList
      · rw [if_pos h2]; exact ⟨fun _ => h2, fun _ => rfl⟩
      · rw [if_neg h2]; exact ⟨fun h => (by cases h), fun h => absurd h h2⟩
  · intro h1 h2
    unfold parseBool
    rw [if_neg h1, if_neg h2]
  · intro p name hget hs
    unfold Properties.GetBool
    simp only [hget, hs, if_false]
  · intro cp name hget hs
    unfold ConditionalProperties.GetBool
    simp only [hget, hs, if_false]

/-- C16: `4 ` has one space and one token.  `parseBuffers` passes the space
count, reads `buf[0]`, and panics on `buf[1]`: index out of range; so does
`GetBuf` on the store that holds `4` and an empty value under one name, and on
the value of the line `proxy_buffers 4 ;`.  A value of one blank panics on
`buf[0]`.  And the value `4<tab>16k 8`, of three tokens, is accepted as
`(4, 16384)`. -/
theorem parseBuffers_index_out_of_range :
    parseBuffers "4 ".toList = .panic "index out of range [1]" ∧
    parseBuffers " ".toList = .panic "index out of range [0]" ∧
    Properties.GetBuf (some [("proxy_buffers".toList, ["4".toList, []])])
      "proxy_buffers".toList = .panic "index out of range [1]" ∧
    parseProperty "proxy_buffers 4 ;".toList = .ok ("proxy_buffers".toList, "4 ".toList) ∧
    parseBuffers "4\t16k 8".toList = .ok (4, 16384, none) := by
  decide

/-! ### Trimming and reading digit strings -/

theorem dropWhile_append_of_all {p : Char → Bool} (d s : Str) (h : ∀ c ∈ d, p c = true) :
    (d ++ s).dropWhile p = s.dropWhile p := by
  induction d with
  | nil => rfl
  | cons c cs ih =>
    have hc : p c = true := h c (List.mem_cons_self _ _)
    simp only [List.cons_append, List.dropWhile_cons, hc, if_true]
    exact ih (fun x hx => h x (List.mem_cons_of_mem _ hx))

theorem dropWhile_of_none {p : Char → Bool} (s : Str) (h : ∀ c ∈ s, p c = false) :
    s.dropWhile p = s := by
  cases s with
  | nil => rfl
  | cons c cs =>
    have hc : p c = false := h c (List.mem_cons_self _ _)
    simp [List.dropWhile_cons, hc]

theorem stringsTrim_prefix_in_cutset (d sfx cutset : Str) (hd : ∀ c ∈ d, c ∈ cutset)
    (hs : ∀ c ∈ sfx, c ∉ cutset) : stringsTrim (d ++ sfx) cutset = sfx := by
  unfold stringsTrim trimRight
  rw [dropWhile_append_of_all d sfx (fun c hc => by simpa using hd c hc),
    dropWhile_of_none sfx (fun c hc => by simpa using hs c hc),
    dropWhile_of_none sfx.reverse (fun c hc => by simpa using hs c (List.mem_reverse.mp hc)),
    List.reverse_reverse]

theorem stringsTrim_suffix_in_cutset (d sfx cutset : Str) (hd : ∀ c ∈ d, c ∉ cutset)
    (hs : ∀ c ∈ sfx, c ∈ cutset) : stringsTrim (d ++ sfx) cutset = d := by
  unfold stringsTrim trimRight
  have hrev : ((d ++ sfx).reverse.dropWhile (fun c => decide (c ∈ cutset))).reverse = d := by
    rw [List.reverse_append, dropWhile_append_of_all sfx.reverse d.reverse
      (fun c hc => by simpa using hs c (List.mem_reverse.mp hc)),
      dropWhile_of_none d.reverse (fun c hc => by simpa using hd c (List.mem_reverse.mp hc)),
      List.reverse_reverse]
  cases d with
  | nil =>
    have h1 : ([] ++ sfx).dropWhile (fun c => decide (c ∈ cutset)) = [] := by
      have := dropWhile_append_of_all (p := fun c => decide (c ∈ cutset)) sfx []
        (fun c hc => by simpa using hs c hc)
      simpa using this
    rw [h1]
    rfl
  | cons c cs =>
    have hc : decide (c ∈ cutset) = false := by simpa using hd c (List.mem_cons_self _ _)
    have h1 : ((c :: cs) ++ sfx).dropWhile (fun c => decide (c ∈ cutset)) = (c :: cs) ++ sfx := by
      simp only [List.cons_append, List.dropWhile_cons, hc]
      rfl
    rw [h1]
    exact hrev

/-! ### Reading digit strings -/

theorem digit_toNat {c : Char} (h : c ∈ "0123456789".toList) : 48 ≤ c.toNat ∧ c.toNat ≤ 57 := by
  simp only [String.toList, List.mem_cons, List.mem_singleton, List.not_mem_nil, or_false] at h
  rcases h with h | h | h | h | h | h | h | h | h | h <;> subst h <;> decide

theorem digits_foldl_ge (d : Str) (n : Nat) :
    n ≤ d.foldl (fun n c => n * 10 + (c.toNat - 48)) n := by
  induction d generalizing n with
  | nil => exact le_refl _
  | cons c cs ih =>
    simp only [List.foldl_cons]
    exact le_trans (by omega) (ih _)

theorem parseUintLoop_digits (d : Str) (hdig : allDigits d) :
    ∀ n, d.foldl (fun n c => n * 10 + (c.toNat - 48)) n < 18446744073709551616 →
      parseUintLoop d n = (d.foldl (fun n c => n * 10 + (c.toNat - 48)) n, none) := by
  induction d with
  | nil => intro n _; rfl
  | cons c cs ih =>
    intro n hlt
    have hc := digit_toNat (hdig c (List.mem_cons_self _ _))
    simp only [List.foldl_cons] at hlt ⊢
    have hge := digits_foldl_ge cs (n * 10 + (c.toNat - 48))
    unfold parseUintLoop
    have h1 : ¬ (n ≥ maxUint64 / 10 + 1) := by
      have : maxUint64 / 10 + 1 = 1844674407370955162 := by decide
      rw [this]
      omega
    have h2 : (n * 10 + (c.toNat - 48)) % 18446744073709551616 = n * 10 + (c.toNat - 48) :=
      Nat.mod_eq_of_lt (by omega)
    have h3 : ¬ (n * 10 + (c.toNat - 48) < n * 10 ∨ n * 10 + (c.toNat - 48) > maxUint64) := by
      unfold maxUint64
      omega
    simp only [hc.1, hc.2, and_self, if_true, h1, if_false, h2, h3]
    exact ih (fun x hx => hdig x (List.mem_cons_of_mem _ hx)) _ hlt

theorem strconvParseInt_digits (d : Str) (hne : d ≠ []) (hdig : allDigits d)
    (hfit : decimalValue d ≤ 9223372036854775807) :
    strconvParseInt d = ((decimalValue d : Int), none) := by
  cases d with
  | nil => exact absurd rfl hne
  | cons c cs =>
    have hc := digit_toNat (hdig c (List.mem_cons_self _ _))
    have hplus : c ≠ '+' := by
      intro h; subst h; revert hc; decide
    have hminus : c ≠ '-' := by
      intro h; subst h; revert hc; decide
    have hloop := parseUintLoop_digits (c :: cs) hdig 0 (by unfold decimalValue at hfit; omega)
    unfold strconvParseInt
    simp only [hplus, hminus, or_self, if_false, decide_False, parseUint, List.cons_ne_nil,
      hloop]
    have hlt : ¬ ((c :: cs).foldl (fun n c => n * 10 + (c.toNat - 48)) 0 ≥
        9223372036854775808) := by
      unfold decimalValue at hfit; omega
    simp [decimalValue]
    simpa using hlt

theorem wrap64_of_range (x : Int) (h1 : -9223372036854775808 ≤ x)
    (h2 : x ≤ 9223372036854775807) : wrap64 x = x := by
  unfold wrap64
  omega

theorem mul64_of_range (a b : Int) (h1 : -9223372036854775808 ≤ a * b)
    (h2 : a * b ≤ 9223372036854775807) : mul64 a b = a * b :=
  wrap64_of_range _ h1 h2

theorem digit_not_size_unit {c : Char} (h : c ∈ "0123456789".toList) :
    c ∉ "kKmMgG".toList := by
  have hc := digit_toNat h
  intro hu
  simp only [String.toList, List.mem_cons, List.mem_singleton, List.not_mem_nil, or_false] at hu
  rcases hu with hu | hu | hu | hu | hu | hu <;> subst hu <;> revert hc <;> decide

theorem digit_not_time_unit {c : Char} (h : c ∈ "0123456789".toList) :
    c ∉ "mshdwMy".toList := by
  have hc := digit_toNat h
  intro hu
  simp only [String.toList, List.mem_cons, List.mem_singleton, List.not_mem_nil, or_false] at hu
  rcases hu with hu | hu | hu | hu | hu | hu | hu <;> subst hu <;> revert hc <;> decide

theorem parseSize_parts (d sfx : Str) (hne : d ≠ []) (hdig : allDigits d)
    (hfit : decimalValue d ≤ 9223372036854775807)
    (h1 : ∀ c ∈ sfx, c ∉ "0123456789".toList) (h2 : ∀ c ∈ sfx, c ∈ "kKmMgG".toList) :
    stringsTrim (d ++ sfx) "0123456789".toList = sfx ∧
    (strconvParseInt (stringsTrim (d ++ sfx) "kKmMgG".toList)).1 = (decimalValue d : Int) := by
  refine ⟨stringsTrim_prefix_in_cutset d sfx _ hdig h1, ?_⟩
  rw [stringsTrim_suffix_in_cutset d sfx _ (fun c hc => digit_not_size_unit (hdig c hc)) h2,
    strconvParseInt_digits d hne hdig hfit]

/-- C12: for a non-empty string of decimal digits `d` that denotes `n`,
`parseSize` returns `n` for `d` itself, `n * 1024` for `d` followed by `k` or
`K`, `n * 1024^2` for `m` or `M`, `n * 1024^3` for `g` or `G`, each time
without error, whenever that product is at most the largest `int64`; so `160`
gives 160, `16k` 16384, `512k` 524288, `8M` 8388608 and `2G` 2147483648. -/
theorem parseSize_digits_with_unit (d : Str) (hne : d ≠ []) (hdig : allDigits d) :
    (decimalValue d ≤ 9223372036854775807 →
      parseSize d = ((decimalValue d : Int), none)) ∧
    (decimalValue d * 1024 ≤ 9223372036854775807 →
      parseSize (d ++ "k".toList) = ((decimalValue d : Int) * 1024, none) ∧
      parseSize (d ++ "K".toList) = ((decimalValue d : Int) * 1024, none)) ∧
    (decimalValue d * (1024 * 1024) ≤ 9223372036854775807 →
      parseSize (d ++ "m".toList) = ((decimalValue d : Int) * (1024 * 1024), none) ∧
      parseSize (d ++ "M".toList) = ((decimalValue d : Int) * (1024 * 1024), none)) ∧
    (decimalValue d * (1024 * 1024 * 1024) ≤ 9223372036854775807 →
      parseSize (d ++ "g".toList) = ((decimalValue d : Int) * (1024 * 1024 * 1024), none) ∧
      parseSize (d ++ "G".toList) = ((decimalValue d : Int) * (1024 * 1024 * 1024), none)) ∧
    parseSize "160".toList = (160, none) ∧ parseSize "16k".toList = (16384, none) ∧
    parseSize "512k".toList = (524288, none) ∧ parseSize "8M".toList = (8388608, none) ∧
    parseSize "2G".toList = (2147483648, none) := by
  have key : ∀ sfx : Str, decimalValue d ≤ 9223372036854775807 →
      (∀ c ∈ sfx, c ∉ "0123456789".toList) → (∀ c ∈ sfx, c ∈ "kKmMgG".toList) →
      parseSize (d ++ sfx) =
        (if sfx = "k".toList ∨ sfx = "K".toList then (mul64 (decimalValue d) 1024, none)
         else if sfx = "m".toList ∨ sfx = "M".toList then
           (mul64 (mul64 (decimalValue d) 1024) 1024, none)
         else if sfx = "g".toList ∨ sfx = "G".toList then
           (mul64 (mul64 (mul64 (decimalValue d) 1024) 1024) 1024, none)
         else if sfx = [] then ((decimalValue d : Int), none)
         else (0, some (.text ("Unsupported measurement unit " ++ String.mk sfx)))) := by
    intro sfx hfit h1 h2
    obtain ⟨hm, hv⟩ := parseSize_parts d sfx hne hdig hfit h1 h2
    unfold parseSize
    simp only [hm, hv]
  have e1 : ∀ n : Nat, n * 1024 ≤ 9223372036854775807 → mul64 (n : Int) 1024 = (n : Int) * 1024 :=
    fun n h => mul64_of_range _ _ (by omega) (by omega)
  have e2 : ∀ n : Nat, n * (1024 * 1024) ≤ 9223372036854775807 →
      mul64 (mul64 (n : Int) 1024) 1024 = (n : Int) * (1024 * 1024) := by
    intro n h
    rw [e1 n (by omega), mul64_of_range _ _ (by omega) (by omega)]
    omega
  have e3 : ∀ n : Nat, n * (1024 * 1024 * 1024) ≤ 9223372036854775807 →
      mul64 (mul64 (mul64 (n : Int) 1024) 1024) 1024 = (n : Int) * (1024 * 1024 * 1024) := by
    intro n h
    rw [e2 n (by omega), mul64_of_range _ _ (by omega) (by omega)]
    omega
  refine ⟨fun h => ?_, fun h => ⟨?_, ?_⟩, fun h => ⟨?_, ?_⟩, fun h => ⟨?_, ?_⟩,
    by decide, by decide, by decide, by decide, by decide⟩
  · have := key [] h (by decide) (by decide)
    rw [List.append_nil] at this
    rw [this]
    simp
  · rw [key "k".toList (by omega) (by decide) (by decide), e1 _ h]
    simp
  · rw [key "K".toList (by omega) (by decide) (by decide), e1 _ h]
    simp
  · rw [key "m".toList (by omega) (by decide) (by decide), e2 _ h]
    simp
  · rw [key "M".toList (by omega) (by decide) (by decide), e2 _ h]
    simp
  · rw [key "g".toList (by omega) (by decide) (by decide), e3 _ h]
    simp
  · rw [key "G".toList (by omega) (by decide) (by decide), e3 _ h]
    simp

/-- Witness of C12: the digit string `16` with each unit. -/
theorem parseSize_digits_with_unit_witness :
    parseSize "16".toList = (16, none) ∧
    parseSize ("16".toList ++ "k".toList) = (16 * 1024, none) ∧
    parseSize ("16".toList ++ "M".toList) = (16 * (1024 * 1024), none) ∧
    parseSize ("16".toList ++ "g".toList) = (16 * (1024 * 1024 * 1024), none) :=
  have h := parseSize_digits_with_unit "16".toList (by decide) (by unfold allDigits; decide)
  ⟨h.1 (by decide), (h.2.1 (by decide)).1, (h.2.2.1 (by decide)).2, (h.2.2.2.1 (by decide)).1⟩

theorem parseTimePeriod_parts (d sfx : Str) (hne : d ≠ []) (hdig : allDigits d)
    (hfit : decimalValue d ≤ 9223372036854775807)
    (h1 : ∀ c ∈ sfx, c ∉ "0123456789".toList) (h2 : ∀ c ∈ sfx, c ∈ "mshdwMy".toList) :
    stringsTrim (d ++ sfx) "0123456789".toList = sfx ∧
    (strconvParseInt (stringsTrim (d ++ sfx) "mshdwMy".toList)).1 = (decimalValue d : Int) := by
  refine ⟨stringsTrim_prefix_in_cutset d sfx _ hdig h1, ?_⟩
  rw [stringsTrim_suffix_in_cutset d sfx _ (fun c hc => digit_not_time_unit (hdig c hc)) h2,
    strconvParseInt_digits d hne hdig hfit]

/-- C18: for a non-empty string of decimal digits `d` that denotes `n`,
`parseTimePeriod` returns without error `n` milliseconds for `d` followed by
`ms`, `n` seconds for `s` and for `d` alone, `n` minutes for `m`, `n` hours
for `h`, `n * 24` hours for `d`, `n * 7 * 24` hours for `w`, `n * 30 * 24`
hours for `M` and `n * 365 * 24` hours for `y`, whenever that duration is at
most the largest `int64` count of nanoseconds; so `48` is 48s, `230ms` 230ms,
`2w` 336h, `2M` 1440h and `1y` 8760h. -/
theorem parseTimePeriod_digits_with_unit (d : Str) (hne : d ≠ []) (hdig : allDigits d) :
    ((decimalValue d : Int) * Millisecond ≤ 9223372036854775807 →
      parseTimePeriod (d ++ "ms".toList) = ((decimalValue d : Int) * Millisecond, none)) ∧
    ((decimalValue d : Int) * Second ≤ 9223372036854775807 →
      parseTimePeriod (d ++ "s".toList) = ((decimalValue d : Int) * Second, none) ∧
      parseTimePeriod d = ((decimalValue d : Int) * Second, none)) ∧
    ((decimalValue d : Int) * Minute ≤ 9223372036854775807 →
      parseTimePeriod (d ++ "m".toList) = ((decimalValue d : Int) * Minute, none)) ∧
    ((decimalValue d : Int) * Hour ≤ 9223372036854775807 →
      parseTimePeriod (d ++ "h".toList) = ((decimalValue d : Int) * Hour, none)) ∧
    ((decimalValue d : Int) * (24 * Hour) ≤ 9223372036854775807 →
      parseTimePeriod (d ++ "d".toList) = ((decimalValue d : Int) * (24 * Hour), none)) ∧
    ((decimalValue d : Int) * (7 * 24 * Hour) ≤ 9223372036854775807 →
      parseTimePeriod (d ++ "w".toList) = ((decimalValue d : Int) * (7 * 24 * Hour), none)) ∧
    ((decimalValue d : Int) * (30 * 24 * Hour) ≤ 9223372036854775807 →
      parseTimePeriod (d ++ "M".toList) = ((decimalValue d : Int) * (30 * 24 * Hour), none)) ∧
    ((decimalValue d : Int) * (365 * 24 * Hour) ≤ 9223372036854775807 →
      parseTimePeriod (d ++ "y".toList) = ((decimalValue d : Int) * (365 * 24 * Hour), none)) ∧
    parseTimePeriod "48".toList = (48 * Second, none) ∧
    parseTimePeriod "230ms".toList = (230 * Millisecond, none) ∧
    parseTimePeriod "2w".toList = (336 * Hour, none) ∧
    parseTimePeriod "2M".toList = (1440 * Hour, none) ∧
    parseTimePeriod "1y".toList = (8760 * Hour, none) := by
  have key : ∀ sfx : Str, decimalValue d ≤ 9223372036854775807 →
      (∀ c ∈ sfx, c ∉ "0123456789".toList) → (∀ c ∈ sfx, c ∈ "mshdwMy".toList) →
      parseTimePeriod (d ++ sfx) =
        (if sfx = "ms".toList then (mul64 (decimalValue d) Millisecond, none)
         else if sfx = "s".toList ∨ sfx = [] then (mul64 (decimalValue d) Second, none)
         else if sfx = "m".toList then (mul64 (decimalValue d) Minute, none)
         else if sfx = "h".toList then (mul64 (decimalValue d) Hour, none)
         else if sfx = "d".toList then (mul64 (mul64 (decimalValue d) Hour) 24, none)
         else if sfx = "w".toList then
           (mul64 (mul64 (mul64 (decimalValue d) Hour) 24) 7, none)
         else if sfx = "M".toList then
           (mul64 (mul64 (mul64 (decimalValue d) Hour) 24) 30, none)
         else if sfx = "y".toList then
           (mul64 (mul64 (mul64 (decimalValue d) Hour) 24) 365, none)
         else (0, some (.text ("Unsupported time unit " ++ String.mk sfx)))) := by
    intro sfx hfit h1 h2
    obtain ⟨hm, hv⟩ := parseTimePeriod_parts d sfx hne hdig hfit h1 h2
    unfold parseTimePeriod
    simp only [hm, hv]
  have hnn : (0 : Int) ≤ (decimalValue d : Int) := Int.ofNat_nonneg _
  refine ⟨fun h => ?_, fun h => ⟨?_, ?_⟩, fun h => ?_, fun h => ?_, fun h => ?_, fun h => ?_,
    fun h => ?_, fun h => ?_, by decide, by decide, by decide, by decide, by decide⟩
  · unfold Millisecond at h
    rw [key "ms".toList (by omega) (by decide) (by decide), if_pos (by decide)]
    simp only [Millisecond]
    rw [mul64_of_range _ _ (by omega) (by omega)]
  · unfold Second at h
    rw [key "s".toList (by omega) (by decide) (by decide),
      if_neg (by decide), if_pos (by decide)]
    simp only [Second]
    rw [mul64_of_range _ _ (by omega) (by omega)]
  · unfold Second at h
    have hk := key [] (by omega) (by decide) (by decide)
    rw [List.append_nil, if_neg (by decide), if_pos (by decide)] at hk
    rw [hk]
    simp only [Second]
    rw [mul64_of_range _ _ (by omega) (by omega)]
  · unfold Minute at h
    rw [key "m".toList (by omega) (by decide) (by decide),
      if_neg (by decide), if_neg (by decide), if_pos (by decide)]
    simp only [Minute]
    rw [mul64_of_range _ _ (by omega) (by omega)]
  · unfold Hour at h
    rw [key "h".toList (by omega) (by decide) (by decide),
      if_neg (by decide), if_neg (by decide), if_neg (by decide), if_pos (by decide)]
    simp only [Hour]
    rw [mul64_of_range _ _ (by omega) (by omega)]
  · unfold Hour at h
    rw [key "d".toList (by omega) (by decide) (by decide),
      if_neg (by decide), if_neg (by decide), if_neg (by decide), if_neg (by decide),
      if_pos (by decide)]
    simp only [Hour]
    rw [mul64_of_range _ 3600000000000 (by omega) (by omega),
      mul64_of_range _ 24 (by omega) (by omega)]
    have he : (decimalValue d : Int) * 3600000000000 * 24 =
        (decimalValue d : Int) * (24 * 3600000000000) := by omega
    rw [he]
  · unfold Hour at h
    rw [key "w".toList (by omega) (by decide) (by decide),
      if_neg (by decide), if_neg (by decide), if_neg (by decide), if_neg (by decide),
      if_neg (by decide), if_pos (by decide)]
    simp only [Hour]
    rw [mul64_of_range _ 3600000000000 (by omega) (by omega),
      mul64_of_range _ 24 (by omega) (by omega), mul64_of_range _ 7 (by omega) (by omega)]
    have he : (decimalValue d : Int) * 3600000000000 * 24 * 7 =
        (decimalValue d : Int) * (7 * 24 * 3600000000000) := by omega
    rw [he]
  · unfold Hour at h
    rw [key "M".toList (by omega) (by decide) (by decide),
      if_neg (by decide), if_neg (by decide), if_neg (by decide), if_neg (by decide),
      if_neg (by decide), if_neg (by decide), if_pos (by decide)]
    simp only [Hour]
    rw [mul64_of_range _ 3600000000000 (by omega) (by omega),
      mul64_of_range _ 24 (by omega) (by omega), mul64_of_range _ 30 (by omega) (by omega)]
    have he : (decimalValue d : Int) * 3600000000000 * 24 * 30 =
        (decimalValue d : Int) * (30 * 24 * 3600000000000) := by omega
    rw [he]
  · unfold Hour at h
    rw [key "y".toList (by omega) (by decide) (by decide),
      if_neg (by decide), if_neg (by decide), if_neg (by decide), if_neg (by decide),
      if_neg (by decide), if_neg (by decide), if_neg (by decide), if_pos (by decide)]
    simp only [Hour]
    rw [mul64_of_range _ 3600000000000 (by omega) (by omega),
      mul64_of_range _ 24 (by omega) (by omega), mul64_of_range _ 365 (by omega) (by omega)]
    have he : (decimalValue d : Int) * 3600000000000 * 24 * 365 =
        (decimalValue d : Int) * (365 * 24 * 3600000000000) := by omega
    rw [he]

/-- Witness of C18: the digit string `2` with the units `w` and `ms`, and
alone. -/
theorem parseTimePeriod_digits_with_unit_witness :
    parseTimePeriod ("2".toList ++ "w".toList) = (2 * (7 * 24 * Hour), none) ∧
    parseTimePeriod ("2".toList ++ "ms".toList) = (2 * Millisecond, none) ∧
    parseTimePeriod "2".toList = (2 * Second, none) :=
  have h := parseTimePeriod_digits_with_unit "2".toList (by decide) (by unfold allDigits; decide)
  ⟨h.2.2.2.2.2.1 (by decide), h.1 (by decide), (h.2.1 (by decide)).2⟩

/-! ### A numeric part that does not parse -/

theorem strconvParseInt_invalid_value (v : Str) (f : String) (i : Str)
    (h : (strconvParseInt v).2 = some (.num f i .invalid)) : (strconvParseInt v).1 = 0 := by
  unfold strconvParseInt at h ⊢
  cases v with
  | nil => rfl
  | cons c cs =>
    simp only at h ⊢
    split
    · rfl
    · rename_i un e hne heq
      rw [heq] at h
      simp only at h
      split_ifs at h <;> simp at h

/-- C14, as the source has it: when `s` carries a recognised unit (or none) and
`strconv.ParseInt` rejects its numeric part - `s` without its leading and
trailing characters from `kKmMgG` - with a syntax error, `parseSize(s)`
returns the value 0 and no error; the numeric part is so rejected when it is
empty. -/
theorem parseSize_malformed_number_is_zero (s : Str)
    (hmod : stringsTrim s "0123456789".toList ∈
      [[], "k".toList, "K".toList, "m".toList, "M".toList, "g".toList, "G".toList])
    (hsyn : ∃ f i, (parseInt (stringsTrim s "kKmMgG".toList)).2 = some (.num f i .invalid)) :
    parseSize s = (0, none) ∧
    (parseInt []).2 = some (.num "ParseInt" [] .invalid) := by
  refine ⟨?_, rfl⟩
  obtain ⟨f, i, hsyn⟩ := hsyn
  have hv := strconvParseInt_invalid_value _ f i hsyn
  have hz1 : mul64 0 1024 = 0 := by decide
  unfold parseSize
  simp only [hv, hz1]
  simp only [List.mem_cons, List.mem_singleton, List.not_mem_nil, or_false] at hmod
  split_ifs with h1 h2 h3 h4
  · rfl
  · rfl
  · rfl
  · rfl
  · exfalso
    rcases hmod with h | h | h | h | h | h | h
    · exact h4 h
    · exact h1 (Or.inl h)
    · exact h1 (Or.inr h)
    · exact h2 (Or.inl h)
    · exact h2 (Or.inr h)
    · exact h3 (Or.inl h)
    · exact h3 (Or.inr h)

/-- Witness of C14: `k` has an empty numeric part, `1k2` the numeric part
`1k2`; both give 0 without error. -/
theorem parseSize_malformed_number_is_zero_witness :
    parseSize "k".toList = (0, none) ∧ parseSize "1k2".toList = (0, none) :=
  ⟨(parseSize_malformed_number_is_zero "k".toList (by decide)
      ⟨"ParseInt", [], by decide⟩).1,
   (parseSize_malformed_number_is_zero "1k2".toList (by decide)
      ⟨"ParseInt", "1k2".toList, by decide⟩).1⟩

/-- C14 as stated fails: the numeric part of `9223372036854775808` is out of
the `int64` range and does not parse, its unit is recognised (none), and
`parseSize` returns 9223372036854775807, the value `strconv.ParseInt` gives
with its range error, not 0. -/
theorem parseSize_out_of_range_counterexample :
    ¬ (∀ s : Str,
        stringsTrim s "0123456789".toList ∈
          [[], "k".toList, "K".toList, "m".toList, "M".toList, "g".toList, "G".toList] →
        (parseInt (stringsTrim s "kKmMgG".toList)).2 ≠ none →
        parseSize s = (0, none)) :=
  fun h => absurd (h "9223372036854775808".toList (by decide) (by decide)) (by decide)

/-! ### Fields of space-joined tokens -/

theorem fieldsFrom_token (a s cur : Str) (ha : noSpace a) :
    fieldsFrom (a ++ s) cur = fieldsFrom s (a.reverse ++ cur) := by
  induction a generalizing cur with
  | nil => rfl
  | cons c cs ih =>
    have hc : isSpace c = false := ha c (List.mem_cons_self _ _)
    rw [List.cons_append, fieldsFrom]
    simp only [hc, Bool.false_eq_true, if_false]
    rw [ih (c :: cur) (fun x hx => ha x (List.mem_cons_of_mem _ hx))]
    simp

theorem fieldsFrom_space (s cur : Str) :
    fieldsFrom (' ' :: s) cur =
      if cur = [] then fieldsFrom s [] else cur.reverse :: fieldsFrom s [] := by
  rw [fieldsFrom]
  have h : isSpace ' ' = true := by decide
  simp only [h, if_true]

theorem stringsFields_join (ts : List Str) (h : ∀ t ∈ ts, noSpace t) :
    stringsFields (stringsJoin ts [' ']) = ts.filter (fun t => decide (t ≠ [])) := by
  unfold stringsFields
  induction ts with
  | nil => rfl
  | cons a rest ih =>
    have ha : noSpace a := h a (List.mem_cons_self _ _)
    have hrest : ∀ t ∈ rest, noSpace t := fun t ht => h t (List.mem_cons_of_mem _ ht)
    cases rest with
    | nil =>
      have h1 := fieldsFrom_token a [] [] ha
      rw [List.append_nil, List.append_nil] at h1
      simp only [stringsJoin, h1, fieldsFrom, List.reverse_eq_nil_iff, List.reverse_reverse]
      by_cases hn : a = [] <;> simp [hn]
    | cons b rest' =>
      have hj : stringsJoin (a :: b :: rest') [' '] = a ++ (' ' :: stringsJoin (b :: rest') [' ']) := by
        simp [stringsJoin]
      rw [hj, fieldsFrom_token a _ [] ha, List.append_nil, fieldsFrom_space, ih hrest]
      by_cases hn : a = [] <;> simp [hn]

theorem count_space_of_noSpace (a : Str) (ha : noSpace a) : stringsCount a ' ' = 0 := by
  unfold stringsCount
  rw [List.count_eq_zero]
  intro hmem
  have := ha ' ' hmem
  revert this
  decide

/-- C15: for non-empty strings `a` and `b` without white space,
`parseBuffers` of `a`, one space, `b` returns `(n, size)` without error when
`parseInt(a)` gives `n` and `parseSize(b)` gives `size` without error;
otherwise it returns `(0, 0)` with the error of `parseInt(a)` if that fails,
and else with the error of `parseSize(b)`.  So `4 16k` gives `(4, 16384)`, and
`A 16k` and `4 A` fail with `(0, 0)`. -/
theorem parseBuffers_two_tokens (a b : Str) (hane : a ≠ []) (hbne : b ≠ [])
    (ha : noSpace a) (hb : noSpace b) :
    (∀ n size, parseInt a = (n, none) → parseSize b = (size, none) →
      parseBuffers (a ++ [' '] ++ b) = .ok (n, size, none)) ∧
    (∀ v e, parseInt a = (v, some e) → parseBuffers (a ++ [' '] ++ b) = .ok (0, 0, some e)) ∧
    (∀ n v e, parseInt a = (n, none) → parseSize b = (v, some e) →
      parseBuffers (a ++ [' '] ++ b) = .ok (0, 0, some e)) ∧
    parseBuffers "4 16k".toList = .ok (4, 16384, none) ∧
    parseBuffers "A 16k".toList = .ok (0, 0, some (.num "ParseInt" "A".toList .invalid)) ∧
    parseBuffers "4 A".toList = .ok (0, 0, some (.text "Unsupported measurement unit A")) := by
  have hcount : stringsCount (a ++ [' '] ++ b) ' ' = 1 := by
    have h1 := count_space_of_noSpace a ha
    have h2 := count_space_of_noSpace b hb
    unfold stringsCount at h1 h2 ⊢
    simp [List.count_append, h1, h2]
  have hfields : stringsFields (a ++ [' '] ++ b) = [a, b] := by
    have h := stringsFields_join [a, b] (by
      intro t ht
      simp only [List.mem_cons, List.mem_singleton, List.not_mem_nil, or_false] at ht
      rcases ht with rfl | rfl
      · exact ha
      · exact hb)
    have hj : stringsJoin [a, b] [' '] = a ++ [' '] ++ b := by simp [stringsJoin]
    rw [hj] at h
    rw [h]
    simp [hane, hbne]
  have hunfold : parseBuffers (a ++ [' '] ++ b) =
      (match parseInt a with
       | (_, some err) => .ok (0, 0, some err)
       | (num, none) =>
         match parseSize b with
         | (_, some err) => .ok (0, 0, some err)
         | (size, none) => .ok (num, size, none)) := by
    unfold parseBuffers
    simp only [hcount, ne_eq, not_true_eq_false, if_false, hfields]
    rfl
  refine ⟨?_, ?_, ?_, by decide, by decide, by decide⟩
  · intro n size h1 h2
    rw [hunfold, h1, h2]
  · intro v e h1
    rw [hunfold, h1]
  · intro n v e h1 h2
    rw [hunfold, h1, h2]

/-- Witness of C15: the tokens `4` and `16k`. -/
theorem parseBuffers_two_tokens_witness :
    parseBuffers ("4".toList ++ [' '] ++ "16k".toList) = .ok (4, 16384, none) :=
  (parseBuffers_two_tokens "4".toList "16k".toList (by decide) (by decide)
    (by unfold noSpace; decide) (by unfold noSpace; decide)).1 4 16384 (by decide) (by decide)

/-! ### Sums of durations -/

theorem wrap64_range (x : Int) :
    -9223372036854775808 ≤ wrap64 x ∧ wrap64 x ≤ 9223372036854775807 := by
  unfold wrap64
  omega

theorem wrap64_add_wrap (x y : Int) : wrap64 (wrap64 x + y) = wrap64 (x + y) := by
  unfold wrap64
  omega

theorem wrap64_idem (x : Int) : wrap64 (wrap64 x) = wrap64 x := by
  unfold wrap64
  omega

theorem parseTimeLoop_filter (ts : List Str) :
    ∀ r : Int, parseTimeLoop (ts.filter (fun t => decide (t ≠ []))) (wrap64 r) =
      parseTimeLoop ts (wrap64 r) := by
  induction ts with
  | nil => intro r; rfl
  | cons t rest ih =>
    intro r
    by_cases ht : t = []
    · subst ht
      have hnil : parseTimePeriod [] = (0, none) := by decide
      have hadd : add64 (wrap64 r) 0 = wrap64 r := by
        unfold add64
        rw [Int.add_zero, wrap64_idem]
      simp only [ne_eq, not_true_eq_false, decide_False, List.filter_cons, Bool.false_eq_true,
        if_false, parseTimeLoop, hnil, hadd]
      exact ih r
    · simp only [ne_eq, ht, not_false_eq_true, decide_True, List.filter_cons, if_true,
        parseTimeLoop]
      rcases h : parseTimePeriod t with ⟨dur, _ | err⟩
      · simp only
        exact ih (wrap64 r + dur)
      · rfl

theorem parseTimeLoop_all_ok (ts : List Str) (hok : ∀ t ∈ ts, (parseTimePeriod t).2 = none) :
    ∀ r : Int, parseTimeLoop ts (wrap64 r) =
      (wrap64 (r + (ts.map (fun t => (parseTimePeriod t).1)).sum), none) := by
  induction ts with
  | nil => intro r; simp [parseTimeLoop]
  | cons t rest ih =>
    intro r
    have ht := hok t (List.mem_cons_self _ _)
    rcases h : parseTimePeriod t with ⟨dur, _ | err⟩
    · simp only [parseTimeLoop, h, List.map_cons, List.sum_cons]
      have := ih (fun x hx => hok x (List.mem_cons_of_mem _ hx)) (wrap64 r + dur)
      unfold add64
      rw [this, Int.add_assoc, wrap64_add_wrap]
    · rw [h] at ht
      cases ht

theorem parseTimeLoop_some_error (ts : List Str)
    (herr : ∃ t ∈ ts, (parseTimePeriod t).2 ≠ none) :
    ∀ r : Int, (parseTimeLoop ts r).1 = 0 ∧ (parseTimeLoop ts r).2 ≠ none := by
  induction ts with
  | nil => obtain ⟨t, ht, -⟩ := herr; cases ht
  | cons t rest ih =>
    intro r
    rcases h : parseTimePeriod t with ⟨dur, _ | err⟩
    · simp only [parseTimeLoop, h]
      apply ih
      obtain ⟨x, hx, hne⟩ := herr
      rcases List.mem_cons.mp hx with rfl | hx'
      · rw [h] at hne
        exact absurd rfl hne
      · exact ⟨x, hx', hne⟩
    · simp [parseTimeLoop, h]

theorem parseTime_join (ts : List Str) (hts : ∀ t ∈ ts, noSpace t) :
    parseTime (stringsJoin ts [' ']) = parseTimeLoop ts 0 := by
  unfold parseTime
  rw [stringsFields_join ts hts]
  have h0 : (0 : Int) = wrap64 0 := by decide
  rw [h0]
  exact parseTimeLoop_filter ts 0

theorem fieldsFrom_append_space (b : Str) (a : Str) :
    ∀ cur : Str, fieldsFrom (a ++ ' ' :: b) cur = fieldsFrom a cur ++ fieldsFrom b [] := by
  induction a with
  | nil =>
    intro cur
    rw [List.nil_append, fieldsFrom_space, fieldsFrom]
    by_cases hc : cur = [] <;> simp [hc]
  | cons c cs ih =>
    intro cur
    rw [List.cons_append, fieldsFrom, fieldsFrom]
    by_cases hs : isSpace c = true
    · simp only [hs, if_true]
      by_cases hc : cur = [] <;> simp [hc, ih]
    · simp only [hs, if_false]
      exact ih _

theorem parseTimeLoop_ok_all (ts : List Str) :
    ∀ r : Int, (parseTimeLoop ts r).2 = none → ∀ t ∈ ts, (parseTimePeriod t).2 = none := by
  intro r hok t ht
  by_contra hne
  exact (parseTimeLoop_some_error ts ⟨t, ht, hne⟩ r).2 hok

theorem parseTime_concat (a b : Str) (x y : Int) (hx : parseTime a = (x, none))
    (hy : parseTime b = (y, none)) : parseTime (a ++ [' '] ++ b) = (add64 x y, none) := by
  have h0 : (0 : Int) = wrap64 0 := by decide
  have hfa := parseTimeLoop_ok_all (stringsFields a) 0 (by
    have := congrArg Prod.snd hx
    exact this)
  have hfb := parseTimeLoop_ok_all (stringsFields b) 0 (by
    have := congrArg Prod.snd hy
    exact this)
  have hfields : stringsFields (a ++ [' '] ++ b) = stringsFields a ++ stringsFields b := by
    unfold stringsFields
    rw [List.append_assoc]
    exact fieldsFrom_append_space b a []
  unfold parseTime at hx hy ⊢
  rw [h0, parseTimeLoop_all_ok _ hfa 0] at hx
  rw [h0, parseTimeLoop_all_ok _ hfb 0] at hy
  rw [hfields, h0, parseTimeLoop_all_ok _ (by
    intro t ht
    rcases List.mem_append.mp ht with h | h
    · exact hfa t h
    · exact hfb t h) 0]
  simp only [Prod.mk.injEq, and_true] at hx hy
  rw [← hx, ← hy]
  simp only [List.map_append, List.sum_append, add64, wrap64, Prod.mk.injEq, and_true]
  omega

/-- C17: for tokens without white space, `parseTime` of the tokens joined by
single spaces succeeds exactly when `parseTimePeriod` succeeds on every token,
and then returns the sum of the durations of the tokens, taken as Go adds
`int64` values (it is the exact sum whenever that lies in the `int64` range);
when a token fails, the call fails with duration 0.  For any two strings that
`parseTime` accepts, `parseTime` of the one, a space, the other is the sum of
the two results, in either order.  So `2d 6h 30m 15s` gives 54h30m15s and `3u`
fails. -/
theorem parseTime_additive (ts : List Str) (hts : ∀ t ∈ ts, noSpace t) :
    ((parseTime (stringsJoin ts [' '])).2 = none ↔
      ∀ t ∈ ts, (parseTimePeriod t).2 = none) ∧
    ((∀ t ∈ ts, (parseTimePeriod t).2 = none) →
      parseTime (stringsJoin ts [' ']) =
        (wrap64 ((ts.map (fun t => (parseTimePeriod t).1)).sum), none) ∧
      (-9223372036854775808 ≤ (ts.map (fun t => (parseTimePeriod t).1)).sum →
        (ts.map (fun t => (parseTimePeriod t).1)).sum ≤ 9223372036854775807 →
        parseTime (stringsJoin ts [' ']) =
          ((ts.map (fun t => (parseTimePeriod t).1)).sum, none))) ∧
    ((∃ t ∈ ts, (parseTimePeriod t).2 ≠ none) →
      (parseTime (stringsJoin ts [' '])).1 = 0 ∧
      (parseTime (stringsJoin ts [' '])).2 ≠ none) ∧
    (∀ a b x y, parseTime a = (x, none) → parseTime b = (y, none) →
      parseTime (a ++ [' '] ++ b) = (add64 x y, none) ∧
      parseTime (b ++ [' '] ++ a) = (add64 x y, none)) ∧
    parseTime "2d 6h 30m 15s".toList = (54 * Hour + 30 * Minute + 15 * Second, none) ∧
    parseTime "3u".toList = (0, some (.text "Unsupported time unit u")) := by
  have h0 : (0 : Int) = wrap64 0 := by decide
  have hall : (∀ t ∈ ts, (parseTimePeriod t).2 = none) →
      parseTime (stringsJoin ts [' ']) =
        (wrap64 ((ts.map (fun t => (parseTimePeriod t).1)).sum), none) := by
    intro hok
    rw [parseTime_join ts hts, h0, parseTimeLoop_all_ok ts hok 0, Int.zero_add]
  have herr : (∃ t ∈ ts, (parseTimePeriod t).2 ≠ none) →
      (parseTime (stringsJoin ts [' '])).1 = 0 ∧
      (parseTime (stringsJoin ts [' '])).2 ≠ none := by
    intro he
    rw [parseTime_join ts hts]
    exact parseTimeLoop_some_error ts he 0
  refine ⟨⟨fun hok => ?_, fun hok => ?_⟩, fun hok => ⟨hall hok, fun h1 h2 => ?_⟩, herr,
    fun a b x y hx hy => ⟨parseTime_concat a b x y hx hy, ?_⟩, by decide, by decide⟩
  · by_contra hne
    push_neg at hne
    exact (herr hne).2 hok
  · rw [hall hok]
  · rw [hall hok, wrap64_of_range _ h1 h2]
  · rw [parseTime_concat b a y x hy hx]
    simp only [add64, Int.add_comm]

/-- Witness of C17: the tokens `2d`, `6h`, `30m`, `15s`. -/
theorem parseTime_additive_witness :
    parseTime (stringsJoin ["2d".toList, "6h".toList, "30m".toList, "15s".toList] [' ']) =
      (48 * Hour + 6 * Hour + 30 * Minute + 15 * Second, none) :=
  ((parseTime_additive ["2d".toList, "6h".toList, "30m".toList, "15s".toList]
      (by unfold noSpace; decide)).2.1 (by decide)).2 (by decide) (by decide)

/-! ### Lines that are not comments are read without a panic -/

theorem head?_replaceDouble (s : Str) : (replaceDouble s).head? = s.head? := by
  match s with
  | [] => rfl
  | [a] => rfl
  | a :: b :: rest =>
    rw [replaceDouble]
    split
    · rename_i h
      simp [h.1]
    · rfl

theorem head?_dedupSpaces (n : Nat) : ∀ s : Str, (dedupSpaces n s).head? = s.head? := by
  induction n with
  | zero => intro s; rfl
  | succ n ih =>
    intro s
    rw [dedupSpaces]
    split
    · rw [ih, head?_replaceDouble]
    · rfl

theorem cleanScan_bounds (s : Str) :
    ∀ (i : Nat) (e : Int) (escaped : Bool), 0 ≤ e → e ≤ (i : Int) →
      (1 ≤ i ∨ s.head? ≠ some '#') →
      0 ≤ cleanScan s i e escaped ∧ cleanScan s i e escaped ≤ (i : Int) + s.length := by
  induction s with
  | nil =>
    intro i e escaped h0 h1 _
    simp only [cleanScan, List.length_nil]
    omega
  | cons r rs ih =>
    intro i e escaped h0 h1 hhead
    rw [cleanScan]
    simp only [List.length_cons]
    split
    · have := ih (i + 1) e (!escaped) h0 (by push_cast; omega) (Or.inl (by omega))
      push_cast at this ⊢
      omega
    · split
      · rename_i hr
        have hi : 1 ≤ i := by
          rcases hhead with h | h
          · exact h
          · exact absurd (by rw [hr]; rfl) h
        have := ih (i + 1) (if e = 0 ∧ escaped = false then (i : Int) - 1 else e) escaped
          (by split <;> omega) (by split <;> push_cast <;> omega) (Or.inl (by omega))
        push_cast at this ⊢
        omega
      · split
        · have := ih (i + 1) (if escaped = false then (i : Int) else e) escaped
            (by split <;> omega) (by split <;> push_cast <;> omega) (Or.inl (by omega))
          push_cast at this ⊢
          omega
        · have := ih (i + 1) e escaped h0 (by push_cast; omega) (Or.inl (by omega))
          push_cast at this ⊢
          omega

theorem cleanData_ok (l : Str) (h : isCommentLine l = false) : ∃ d, cleanData l = .ok d := by
  unfold cleanData
  simp only
  have hhead : (dedupSpaces (trimSpace l).length (trimSpace l)).head? ≠ some '#' := by
    rw [head?_dedupSpaces]
    simpa [isCommentLine] using h
  have hb := cleanScan_bounds _ 0 0 false (le_refl _) (le_refl _) (Or.inr hhead)
  split
  · unfold goSlice
    rw [if_pos ⟨le_refl _, hb.1, by simpa using hb.2⟩]
    exact ⟨_, rfl⟩
  · exact ⟨_, rfl⟩

theorem indexFrom_bounds (sub : Str) (s : Str) :
    ∀ i : Nat, indexFrom sub s i = -1 ∨ (i : Int) ≤ indexFrom sub s i := by
  induction s with
  | nil =>
    intro i
    rw [indexFrom]
    split
    · exact Or.inr (le_refl _)
    · exact Or.inl rfl
  | cons c cs ih =>
    intro i
    rw [indexFrom]
    split
    · exact Or.inr (le_refl _)
    · rcases ih (i + 1) with h | h
      · exact Or.inl h
      · exact Or.inr (by push_cast at h; omega)

theorem parseProperty_ok (l : Str) (h : isCommentLine l = false) :
    ∃ n v, parseProperty l = .ok (n, v) := by
  obtain ⟨d, hd⟩ := cleanData_ok l h
  unfold parseProperty
  simp only [hd, Res.ok_bind]
  split
  · exact ⟨_, _, rfl⟩
  · rename_i hcond
    have hidx := indexFrom_bounds [' '] d 0
    unfold stringsIndex at hcond ⊢
    have h1 : goSlice d 0 (indexFrom [' '] d 0) =
        .ok ((d.take (indexFrom [' '] d 0).toNat).drop 0) := by
      unfold goSlice
      rw [if_pos]
      · rfl
      · push_cast at hidx; omega
    have h2 : goSlice d (indexFrom [' '] d 0 + 1) d.length =
        .ok ((d.take (d.length : Int).toNat).drop (indexFrom [' '] d 0 + 1).toNat) := by
      unfold goSlice
      rw [if_pos]
      push_cast at hidx; omega
    rw [h1, h2]
    exact ⟨_, _, rfl⟩

/-! ### The content of a simple block -/

theorem mapAppend_some {V : Type} (m : List (Str × List V)) (name : Str) (v : V) :
    mapAppend (some m) name v = .ok (some (assocAppend m name v)) := rfl

theorem assocGet_assocAppend {V : Type} (m : List (Str × List V)) (n : Str) (v : V)
    (name : Str) :
    assocGet (assocAppend m n v) name =
      if n = name then some ((assocGet m n).getD [] ++ [v]) else assocGet m name :=
  assocGet_assocSet _ _ _ _

theorem assocGet_foldl_append (name : Str) (pairs : List (Str × Str)) :
    ∀ m : List (Str × List Str),
      assocGet (pairs.foldl (fun acc e => assocAppend acc e.1 e.2) m) name =
        if valuesOf name pairs = [] then assocGet m name
        else some ((assocGet m name).getD [] ++ valuesOf name pairs) := by
  induction pairs with
  | nil => intro m; rfl
  | cons e rest ih =>
    intro m
    obtain ⟨n, v⟩ := e
    rw [List.foldl_cons, ih, assocGet_assocAppend]
    by_cases hn : n = name
    · subst hn
      have hv : valuesOf n ((n, v) :: rest) = v :: valuesOf n rest := by
        simp [valuesOf, List.filter_cons]
      rw [hv, if_pos rfl]
      by_cases hr : valuesOf n rest = []
      · simp [hr]
      · simp [hr]
    · have hv : valuesOf name ((n, v) :: rest) = valuesOf name rest := by
        simp [valuesOf, List.filter_cons, hn]
      rw [hv, if_neg hn]

theorem parseSimpleLoop_lines (lines : List Str) (endl : Str) (post : List Str)
    (hend : isBlockEnd endl = true) :
    ∀ (pairs : List (Str × Str)) (cursor : Nat) (m : List (Str × List Str)),
      (∀ l ∈ lines, isBlockEnd l = false) →
      lines.map parseProperty = pairs.map Res.ok →
      parseSimpleLoop (lines ++ endl :: post) cursor (some m) =
        .ok (cursor + lines.length + 1,
          some (pairs.foldl (fun acc e => assocAppend acc e.1 e.2) m)) := by
  induction lines with
  | nil =>
    intro pairs cursor m _ hp
    cases pairs with
    | nil => simp [parseSimpleLoop, hend]
    | cons e rest => simp at hp
  | cons l ls ih =>
    intro pairs cursor m hno hp
    cases pairs with
    | nil => simp at hp
    | cons e rest =>
      simp only [List.map_cons, List.cons.injEq] at hp
      obtain ⟨hl, hrest⟩ := hp
      have hle : isBlockEnd l = false := hno l (List.mem_cons_self _ _)
      rw [List.cons_append, parseSimpleLoop]
      simp only [hle, Bool.false_eq_true, if_false, hl, Res.ok_bind, mapAppend_some]
      rw [ih rest (cursor + 1) _ (fun x hx => hno x (List.mem_cons_of_mem _ hx)) hrest]
      simp only [List.length_cons, List.foldl_cons]
      congr 2
      omega

theorem parseProperty_all_ok (lines : List Str) (h : ∀ l ∈ lines, isCommentLine l = false) :
    ∃ pairs : List (Str × Str), lines.map parseProperty = pairs.map Res.ok := by
  induction lines with
  | nil => exact ⟨[], rfl⟩
  | cons l ls ih =>
    obtain ⟨n, v, hl⟩ := parseProperty_ok l (h l (List.mem_cons_self _ _))
    obtain ⟨pairs, hp⟩ := ih (fun x hx => h x (List.mem_cons_of_mem _ hx))
    exact ⟨(n, v) :: pairs, by simp [hl, hp]⟩

theorem parseSimpleLoop_all_plain (lines : List Str) :
    ∀ (cursor : Nat) (result : List (Str × List Str)),
      (∀ l ∈ lines, isBlockEnd l = false) → (∀ l ∈ lines, isCommentLine l = false) →
      parseSimpleLoop lines cursor (some result) = .error errNoBlockEnd := by
  induction lines with
  | nil => intro cursor result _ _; rfl
  | cons l ls ih =>
    intro cursor result hno hnc
    obtain ⟨n, v, hl⟩ := parseProperty_ok l (hnc l (List.mem_cons_self _ _))
    rw [parseSimpleLoop]
    simp only [hno l (List.mem_cons_self _ _), Bool.false_eq_true, if_false, hl, Res.ok_bind,
      mapAppend_some]
    exact ih _ _ (fun x hx => hno x (List.mem_cons_of_mem _ hx))
      (fun x hx => hnc x (List.mem_cons_of_mem _ hx))

theorem mem_take_drop_index {data : List Str} {cursor i : Nat} {l : Str}
    (h : l ∈ (data.drop cursor).take (i - cursor)) :
    ∃ j, cursor ≤ j ∧ j < i ∧ data[j]? = some l := by
  obtain ⟨k, hk⟩ := List.mem_iff_getElem?.mp h
  rw [List.getElem?_take] at hk
  split at hk
  · rw [List.getElem?_drop] at hk
    exact ⟨cursor + k, by omega, by omega, hk⟩
  · cases hk

theorem mem_drop_index {data : List Str} {cursor : Nat} {l : Str} (h : l ∈ data.drop cursor) :
    ∃ j, cursor ≤ j ∧ data[j]? = some l := by
  obtain ⟨k, hk⟩ := List.mem_iff_getElem?.mp h
  rw [List.getElem?_drop] at hk
  exact ⟨cursor + k, by omega, hk⟩

theorem drop_split_at {data : List Str} {cursor i : Nat} {endl : Str} (hci : cursor ≤ i)
    (hi : data[i]? = some endl) :
    data.drop cursor = (data.drop cursor).take (i - cursor) ++ endl :: data.drop (i + 1) ∧
    ((data.drop cursor).take (i - cursor)).length = i - cursor := by
  have hlt : i < data.length := lt_length_of_getElem? hi
  have hget : data[i] = endl := by
    rw [List.getElem?_eq_getElem hlt] at hi
    exact Option.some.inj hi
  constructor
  · conv_lhs => rw [← List.take_append_drop (i - cursor) (data.drop cursor)]
    rw [List.drop_drop, show cursor + (i - cursor) = i by omega,
      List.drop_eq_getElem_cons hlt, hget]
  · rw [List.length_take, List.length_drop]
    omega

/-- C20, as the source has it: let `i` be the least index from `cursor` on
whose line is a block end, and let no line from `cursor` to `i - 1` be a
comment line (`readFile` emits none).  Then `parseSimpleBlock` succeeds with
the cursor `i + 1` and a map that holds, for every name, the values that
`parseProperty` gives with that name on the lines `cursor` to `i - 1`, in line
order, and nothing for a name that no such line gives; and when no line from
`cursor` on is a block end or a comment line, it returns the error "Can't
find block end" (with cursor -1 and no map). -/
theorem parseSimpleBlock_reads_until_end (data : List Str) (cursor : Nat) :
    (∀ (i : Nat) (endl : Str), cursor ≤ i → data[i]? = some endl → isBlockEnd endl = true →
      (∀ j l, cursor ≤ j → j < i → data[j]? = some l →
        isBlockEnd l = false ∧ isCommentLine l = false) →
      ∃ (p : Properties) (pairs : List (Str × Str)),
        parseSimpleBlock data cursor = .ok (i + 1, p) ∧
        ((data.drop cursor).take (i - cursor)).map parseProperty = pairs.map Res.ok ∧
        (∀ name, mapGet p name =
          if valuesOf name pairs = [] then none else some (valuesOf name pairs)) ∧
        (∀ name, mapGet p name ≠ none ↔ name ∈ pairs.map (fun e => e.1))) ∧
    ((∀ j l, cursor ≤ j → data[j]? = some l →
        isBlockEnd l = false ∧ isCommentLine l = false) →
      parseSimpleBlock data cursor = .error errNoBlockEnd) := by
  constructor
  · intro i endl hci hi hend hbefore
    obtain ⟨hsplit, hlen⟩ := drop_split_at hci hi
    have hno : ∀ l ∈ (data.drop cursor).take (i - cursor), isBlockEnd l = false := by
      intro l hl
      obtain ⟨j, h1, h2, h3⟩ := mem_take_drop_index hl
      exact (hbefore j l h1 h2 h3).1
    have hnc : ∀ l ∈ (data.drop cursor).take (i - cursor), isCommentLine l = false := by
      intro l hl
      obtain ⟨j, h1, h2, h3⟩ := mem_take_drop_index hl
      exact (hbefore j l h1 h2 h3).2
    obtain ⟨pairs, hpairs⟩ := parseProperty_all_ok _ hnc
    have hget : ∀ name,
        mapGet (some (pairs.foldl (fun acc e => assocAppend acc e.1 e.2) [])) name =
          if valuesOf name pairs = [] then none else some (valuesOf name pairs) := by
      intro name
      show assocGet _ name = _
      rw [assocGet_foldl_append]
      simp [assocGet]
    refine ⟨some (pairs.foldl (fun acc e => assocAppend acc e.1 e.2) []), pairs, ?_, hpairs,
      hget, ?_⟩
    · unfold parseSimpleBlock
      rw [hsplit, parseSimpleLoop_lines _ endl _ hend pairs cursor [] hno hpairs, hlen]
      congr 2
      omega
    · intro name
      rw [hget]
      have hiff : valuesOf name pairs = [] ↔ name ∉ pairs.map (fun e => e.1) := by
        simp only [valuesOf, List.map_eq_nil_iff, List.filter_eq_nil_iff, decide_eq_true_eq,
          List.mem_map, not_exists, not_and]
      by_cases hv : valuesOf name pairs = []
      · simp [hv, hiff.mp hv]
      · have hm : name ∈ pairs.map (fun e => e.1) := by
          by_contra hnm
          exact hv (hiff.mpr hnm)
        simp [hv, hm]
  · intro hall
    unfold parseSimpleBlock
    apply parseSimpleLoop_all_plain
    · intro l hl
      obtain ⟨j, h1, h2⟩ := mem_drop_index hl
      exact (hall j l h1 h2).1
    · intro l hl
      obtain ⟨j, h1, h2⟩ := mem_drop_index hl
      exact (hall j l h1 h2).2

/-- Witness of C20: the block `worker_connections 8192;`, `multi_accept on;`,
`}` read from cursor 1, and the same lines without the block end. -/
theorem parseSimpleBlock_reads_until_end_witness :
    (∃ (p : Properties) (pairs : List (Str × Str)),
      parseSimpleBlock ["events \x7b".toList, "worker_connections  8192;".toList,
        "multi_accept on;".toList, "\x7d".toList] 1 = .ok (3 + 1, p) ∧
      ((["events \x7b".toList, "worker_connections  8192;".toList,
        "multi_accept on;".toList, "\x7d".toList].drop 1).take (3 - 1)).map parseProperty =
        pairs.map Res.ok ∧
      (∀ name, mapGet p name =
        if valuesOf name pairs = [] then none else some (valuesOf name pairs)) ∧
      (∀ name, mapGet p name ≠ none ↔ name ∈ pairs.map (fun e => e.1))) ∧
    parseSimpleBlock ["events \x7b".toList, "worker_connections  8192;".toList] 1 =
      .error errNoBlockEnd :=
  ⟨(parseSimpleBlock_reads_until_end ["events \x7b".toList, "worker_connections  8192;".toList,
      "multi_accept on;".toList, "\x7d".toList] 1).1 3 "\x7d".toList (by decide) (by decide)
      (by decide) (by
        intro j l h1 h2 hl
        interval_cases j
        · cases hl; decide
        · cases hl; decide),
   (parseSimpleBlock_reads_until_end
      ["events \x7b".toList, "worker_connections  8192;".toList] 1).2 (by
        intro j l h1 hl
        have hlt := lt_length_of_getElem? hl
        simp only [List.length_cons, List.length_nil] at hlt
        have hj : j = 1 := by omega
        subst hj
        cases hl; decide)⟩

/-- C20 as stated fails: in `["#", "}"]` the least block-end index from cursor
0 is 1, yet `parseSimpleBlock` does not succeed: `cleanData` slices `data[:-1]`
on the line `#` and the call panics. -/
theorem parseSimpleBlock_comment_line_counterexample :
    ¬ (∀ (data : List Str) (cursor i : Nat) (endl : Str), cursor ≤ i →
        data[i]? = some endl → isBlockEnd endl = true →
        (∀ j l, cursor ≤ j → j < i → data[j]? = some l → isBlockEnd l = false) →
        ∃ p, parseSimpleBlock data cursor = .ok (i + 1, p)) := by
  intro h
  obtain ⟨p, hp⟩ := h ["#".toList, "\x7d".toList] 0 1 "\x7d".toList (by decide) (by decide)
    (by decide) (by
      intro j l _ h2 hl
      interval_cases j
      cases hl; decide)
  have hv : (parseSimpleBlock ["#".toList, "\x7d".toList] 0).isPanic = true := by decide
  rw [hp] at hv
  cases hv

/-- C26: the block parsers are not total.  A location block-start line
without arguments makes `parseServerBlock` index `data[0]` of an empty
argument list in `parseLocationArgs`, once the location block itself has been
read; an if block-start line without parentheses, or with empty ones, makes
`getCondition` slice `data[0:-2]`, respectively `data[4:3]`.  Each call panics,
in the server and location parsers and in `parseHTTPBlock` and `parseConfig`
above them. -/
theorem block_parsers_panic :
    parseServerBlock ["location \x7b".toList, "\x7d".toList, "\x7d".toList] 0 =
      .panic "index out of range [0] with length 0" ∧
    parseServerBlock ["if \x7b".toList, "\x7d".toList, "\x7d".toList] 0 =
      .panic "slice bounds out of range" ∧
    parseServerBlock ["if () \x7b".toList, "\x7d".toList, "\x7d".toList] 0 =
      .panic "slice bounds out of range" ∧
    parseLocationBlock ["if \x7b".toList, "\x7d".toList, "\x7d".toList] 0 =
      .panic "slice bounds out of range" ∧
    parseLocationBlock ["if () \x7b".toList, "\x7d".toList, "\x7d".toList] 0 =
      .panic "slice bounds out of range" ∧
    parseHTTPBlock ["server \x7b".toList, "location \x7b".toList, "\x7d".toList, "\x7d".toList,
      "\x7d".toList] 0 = .panic "index out of range [0] with length 0" ∧
    parseConfig ["http \x7b".toList, "server \x7b".toList, "location \x7b".toList,
      "\x7d".toList, "\x7d".toList, "\x7d".toList] =
      .panic "index out of range [0] with length 0" ∧
    parseConfig ["http \x7b".toList, "server \x7b".toList, "if () \x7b".toList,
      "\x7d".toList, "\x7d".toList, "\x7d".toList] = .panic "slice bounds out of range" := by
  decide

/-! ### Products that leave the int64 range -/

theorem parseSize_digits_unfold (d sfx : Str) (hne : d ≠ []) (hdig : allDigits d)
    (hfit : decimalValue d ≤ 9223372036854775807)
    (h1 : ∀ c ∈ sfx, c ∉ "0123456789".toList) (h2 : ∀ c ∈ sfx, c ∈ "kKmMgG".toList) :
    parseSize (d ++ sfx) =
      (if sfx = "k".toList ∨ sfx = "K".toList then (mul64 (decimalValue d) 1024, none)
       else if sfx = "m".toList ∨ sfx = "M".toList then
         (mul64 (mul64 (decimalValue d) 1024) 1024, none)
       else if sfx = "g".toList ∨ sfx = "G".toList then
         (mul64 (mul64 (mul64 (decimalValue d) 1024) 1024) 1024, none)
       else if sfx = [] then ((decimalValue d : Int), none)
       else (0, some (.text ("Unsupported measurement unit " ++ String.mk sfx)))) := by
  obtain ⟨hm, hv⟩ := parseSize_parts d sfx hne hdig hfit h1 h2
  unfold parseSize
  simp only [hm, hv]

theorem parseTimePeriod_digits_unfold (d sfx : Str) (hne : d ≠ []) (hdig : allDigits d)
    (hfit : decimalValue d ≤ 9223372036854775807)
    (h1 : ∀ c ∈ sfx, c ∉ "0123456789".toList) (h2 : ∀ c ∈ sfx, c ∈ "mshdwMy".toList) :
    parseTimePeriod (d ++ sfx) =
      (if sfx = "ms".toList then (mul64 (decimalValue d) Millisecond, none)
       else if sfx = "s".toList ∨ sfx = [] then (mul64 (decimalValue d) Second, none)
       else if sfx = "m".toList then (mul64 (decimalValue d) Minute, none)
       else if sfx = "h".toList then (mul64 (decimalValue d) Hour, none)
       else if sfx = "d".toList then (mul64 (mul64 (decimalValue d) Hour) 24, none)
       else if sfx = "w".toList then
         (mul64 (mul64 (mul64 (decimalValue d) Hour) 24) 7, none)
       else if sfx = "M".toList then
         (mul64 (mul64 (mul64 (decimalValue d) Hour) 24) 30, none)
       else if sfx = "y".toList then
         (mul64 (mul64 (mul64 (decimalValue d) Hour) 24) 365, none)
       else (0, some (.text ("Unsupported time unit " ++ String.mk sfx)))) := by
  obtain ⟨hm, hv⟩ := parseTimePeriod_parts d sfx hne hdig hfit h1 h2
  unfold parseTimePeriod
  simp only [hm, hv]

/-- C28: for a non-empty string of decimal digits `d` that denotes `n` within
the `int64` range, `parseSize` and `parseTimePeriod` return, for every
recognised unit and without error, the product of `n` and the multiplier of
the unit as the 64 bits hold it (`wrap64`), whether the product is in the
`int64` range or not; so `8589934592g` is accepted and gives
-9223372036854775808. -/
theorem products_wrap_around (d : Str) (hne : d ≠ []) (hdig : allDigits d)
    (hfit : decimalValue d ≤ 9223372036854775807) :
    parseSize d = ((decimalValue d : Int), none) ∧
    parseSize (d ++ "k".toList) = (wrap64 ((decimalValue d : Int) * 1024), none) ∧
    parseSize (d ++ "K".toList) = (wrap64 ((decimalValue d : Int) * 1024), none) ∧
    parseSize (d ++ "m".toList) = (wrap64 ((decimalValue d : Int) * (1024 * 1024)), none) ∧
    parseSize (d ++ "M".toList) = (wrap64 ((decimalValue d : Int) * (1024 * 1024)), none) ∧
    parseSize (d ++ "g".toList) =
      (wrap64 ((decimalValue d : Int) * (1024 * 1024 * 1024)), none) ∧
    parseSize (d ++ "G".toList) =
      (wrap64 ((decimalValue d : Int) * (1024 * 1024 * 1024)), none) ∧
    parseTimePeriod (d ++ "ms".toList) = (wrap64 ((decimalValue d : Int) * Millisecond), none) ∧
    parseTimePeriod (d ++ "s".toList) = (wrap64 ((decimalValue d : Int) * Second), none) ∧
    parseTimePeriod d = (wrap64 ((decimalValue d : Int) * Second), none) ∧
    parseTimePeriod (d ++ "m".toList) = (wrap64 ((decimalValue d : Int) * Minute), none) ∧
    parseTimePeriod (d ++ "h".toList) = (wrap64 ((decimalValue d : Int) * Hour), none) ∧
    parseTimePeriod (d ++ "d".toList) =
      (wrap64 ((decimalValue d : Int) * (24 * Hour)), none) ∧
    parseTimePeriod (d ++ "w".toList) =
      (wrap64 ((decimalValue d : Int) * (7 * 24 * Hour)), none) ∧
    parseTimePeriod (d ++ "M".toList) =
      (wrap64 ((decimalValue d : Int) * (30 * 24 * Hour)), none) ∧
    parseTimePeriod (d ++ "y".toList) =
      (wrap64 ((decimalValue d : Int) * (365 * 24 * Hour)), none) ∧
    parseSize "8589934592g".toList = (-9223372036854775808, none) := by
  have w2 : ∀ n : Int, mul64 (mul64 n 1024) 1024 = wrap64 (n * (1024 * 1024)) := by
    intro n; unfold mul64 wrap64; omega
  have w3 : ∀ n : Int, mul64 (mul64 (mul64 n 1024) 1024) 1024 =
      wrap64 (n * (1024 * 1024 * 1024)) := by
    intro n; unfold mul64 wrap64; omega
  have t24 : ∀ n : Int, mul64 (mul64 n Hour) 24 = wrap64 (n * (24 * Hour)) := by
    intro n; unfold mul64 wrap64 Hour; omega
  have t7 : ∀ n : Int, mul64 (mul64 (mul64 n Hour) 24) 7 = wrap64 (n * (7 * 24 * Hour)) := by
    intro n; unfold mul64 wrap64 Hour; omega
  have t30 : ∀ n : Int, mul64 (mul64 (mul64 n Hour) 24) 30 = wrap64 (n * (30 * 24 * Hour)) := by
    intro n; unfold mul64 wrap64 Hour; omega
  have t365 : ∀ n : Int, mul64 (mul64 (mul64 n Hour) 24) 365 =
      wrap64 (n * (365 * 24 * Hour)) := by
    intro n; unfold mul64 wrap64 Hour; omega
  have hs := fun sfx h1 h2 => parseSize_digits_unfold d sfx hne hdig hfit h1 h2
  have ht := fun sfx h1 h2 => parseTimePeriod_digits_unfold d sfx hne hdig hfit h1 h2
  have hs0 := hs [] (by decide) (by decide)
  have ht0 := ht [] (by decide) (by decide)
  rw [List.append_nil] at hs0 ht0
  refine ⟨?_, ?_, ?_, ?_, ?_, ?_, ?_, ?_, ?_, ?_, ?_, ?_, ?_, ?_, ?_, ?_, by decide⟩
  · rw [hs0, if_neg (by decide), if_neg (by decide), if_neg (by decide), if_pos rfl]
  · rw [hs _ (by decide) (by decide), if_pos (by decide)]; rfl
  · rw [hs _ (by decide) (by decide), if_pos (by decide)]; rfl
  · rw [hs _ (by decide) (by decide), if_neg (by decide), if_pos (by decide), w2]
  · rw [hs _ (by decide) (by decide), if_neg (by decide), if_pos (by decide), w2]
  · rw [hs _ (by decide) (by decide), if_neg (by decide), if_neg (by decide),
      if_pos (by decide), w3]
  · rw [hs _ (by decide) (by decide), if_neg (by decide), if_neg (by decide),
      if_pos (by decide), w3]
  · rw [ht _ (by decide) (by decide), if_pos (by decide)]; rfl
  · rw [ht _ (by decide) (by decide), if_neg (by decide), if_pos (by decide)]; rfl
  · rw [ht0, if_neg (by decide), if_pos (by decide)]; rfl
  · rw [ht _ (by decide) (by decide), if_neg (by decide), if_neg (by decide),
      if_pos (by decide)]; rfl
  · rw [ht _ (by decide) (by decide), if_neg (by decide), if_neg (by decide),
      if_neg (by decide), if_pos (by decide)]; rfl
  · rw [ht _ (by decide) (by decide), if_neg (by decide), if_neg (by decide),
      if_neg (by decide), if_neg (by decide), if_pos (by decide), t24]
  · rw [ht _ (by decide) (by decide), if_neg (by decide), if_neg (by decide),
      if_neg (by decide), if_neg (by decide), if_neg (by decide), if_pos (by decide), t7]
  · rw [ht _ (by decide) (by decide), if_neg (by decide), if_neg (by decide),
      if_neg (by decide), if_neg (by decide), if_neg (by decide), if_neg (by decide),
      if_pos (by decide), t30]
  · rw [ht _ (by decide) (by decide), if_neg (by decide), if_neg (by decide),
      if_neg (by decide), if_neg (by decide), if_neg (by decide), if_neg (by decide),
      if_neg (by decide), if_pos (by decide), t365]

/-- Witness of C28: `8589934592` with the unit `g`, and `9223372036854775807`
with the unit `h`. -/
theorem products_wrap_around_witness :
    parseSize ("8589934592".toList ++ "g".toList) =
      (wrap64 (8589934592 * (1024 * 1024 * 1024)), none) ∧
    parseTimePeriod ("9223372036854775807".toList ++ "h".toList) =
      (wrap64 (9223372036854775807 * Hour), none) :=
  ⟨(products_wrap_around "8589934592".toList (by decide) (by unfold allDigits; decide)
      (by decide)).2.2.2.2.2.1,
   (products_wrap_around "9223372036854775807".toList (by decide)
      (by unfold allDigits; decide) (by decide)).2.2.2.2.2.2.2.2.2.2.2.1⟩

/-! ### The listing against the lookup -/

theorem findServer_eq_find (h : Option HTTP) (name protocol : Str) :
    HTTP.FindServer h name protocol = (httpServers h).find? (serverMatches name protocol) := by
  cases h with
  | none => rfl
  | some http =>
    unfold HTTP.FindServer HTTP.ServersNum httpServers
    by_cases h0 : http.Servers.length = 0
    · have hnil : http.Servers = [] := List.length_eq_zero.mp h0
      simp [hnil]
    · simp only [h0, if_false]
      exact findServerLoop_eq_find _ _ _

theorem serversList_eq_flatMap (h : Option HTTP) :
    HTTP.ServersList h = (httpServers h).flatMap serverEntries := by
  cases h with
  | none => rfl
  | some http =>
    unfold HTTP.ServersList HTTP.ServersNum httpServers
    by_cases h0 : http.Servers.length = 0
    · have hnil : http.Servers = [] := List.length_eq_zero.mp h0
      simp [hnil]
    · simp only [h0, if_false]
      rw [serversListLoop_eq]
      rfl

theorem findServer_isSome_of_match (h : Option HTTP) (name protocol : Str) (s : Server)
    (hs : s ∈ httpServers h) (hm : serverMatches name protocol s = true) :
    (HTTP.FindServer h name protocol).isSome = true := by
  rw [findServer_eq_find]
  cases hf : (httpServers h).find? (serverMatches name protocol) with
  | some x => rfl
  | none =>
    rw [List.find?_eq_none] at hf
    exact absurd hm (hf s hs)

/-- C29, as the source has it: every entry of `ServersList(h)` is `n:https` or
`n:http` for a server `s` of `h` and one of its names `n`; when one of the
listen tokens of `s` is exactly `http2`, `spdy`, `ssl`, `443` or `https`,
`FindServer(h, n, "https")` returns a server, and when one of them is exactly
`80` or `http`, `FindServer(h, n, "http")` returns a server. -/
theorem listing_and_lookup (h : Option HTTP) (e : Str) (he : e ∈ HTTP.ServersList h) :
    ∃ s ∈ httpServers h, ∃ n ∈ s.GetNames,
      (e = n ++ ":https".toList ∨ e = n ++ ":http".toList) ∧
      ((∃ t ∈ s.GetProtocols, t ∈ ["http2".toList, "spdy".toList, "ssl".toList,
          "443".toList, "https".toList]) →
        (HTTP.FindServer h n "https".toList).isSome = true) ∧
      ((∃ t ∈ s.GetProtocols, t ∈ ["80".toList, "http".toList]) →
        (HTTP.FindServer h n "http".toList).isSome = true) := by
  rw [serversList_eq_flatMap, List.mem_flatMap] at he
  obtain ⟨s, hs, hes⟩ := he
  unfold serverEntries at hes
  rw [List.mem_map] at hes
  obtain ⟨n, hn, hne⟩ := hes
  refine ⟨s, hs, n, hn, ?_, ?_, ?_⟩
  · rw [← hne]
    split
    · exact Or.inl rfl
    · exact Or.inr rfl
  · rintro ⟨t, ht, htok⟩
    apply findServer_isSome_of_match h n _ s hs
    unfold serverMatches
    rw [Bool.and_eq_true]
    refine ⟨by simpa using hn, ?_⟩
    rw [List.any_eq_true]
    refine ⟨t, ht, ?_⟩
    unfold tokenSatisfies
    simp only [List.mem_cons, List.mem_singleton, List.not_mem_nil, or_false] at htok
    rw [decide_eq_true_eq]
    rcases htok with h1 | h1 | h1 | h1 | h1
    · exact Or.inr (Or.inl ⟨Or.inl h1, rfl⟩)
    · exact Or.inr (Or.inl ⟨Or.inr (Or.inl h1), rfl⟩)
    · exact Or.inr (Or.inl ⟨Or.inr (Or.inr (Or.inl h1)), rfl⟩)
    · exact Or.inr (Or.inl ⟨Or.inr (Or.inr (Or.inr h1)), rfl⟩)
    · exact Or.inl h1
  · rintro ⟨t, ht, htok⟩
    apply findServer_isSome_of_match h n _ s hs
    unfold serverMatches
    rw [Bool.and_eq_true]
    refine ⟨by simpa using hn, ?_⟩
    rw [List.any_eq_true]
    refine ⟨t, ht, ?_⟩
    unfold tokenSatisfies
    simp only [List.mem_cons, List.mem_singleton, List.not_mem_nil, or_false] at htok
    rw [decide_eq_true_eq]
    rcases htok with h1 | h1
    · exact Or.inr (Or.inr ⟨h1, rfl⟩)
    · exact Or.inl h1

/-- Witness of C29: the server `a` that listens on `443 ssl`. -/
theorem listing_and_lookup_witness :
    ∃ s ∈ httpServers (some { Properties := some [], Types := none, Upstreams := some [],
                                Servers := [
                                  { Properties := some { Conditions := [], Data := some [
                                      ("listen".toList, [⟨-1, "443 ssl".toList⟩]),
                                      ("server_name".toList, [⟨-1, "a".toList⟩])] },
                                    Locations := [] }] }),
      ∃ n ∈ s.GetNames,
        ("a:https".toList = n ++ ":https".toList ∨ "a:https".toList = n ++ ":http".toList) ∧
        ((∃ t ∈ s.GetProtocols, t ∈ ["http2".toList, "spdy".toList, "ssl".toList,
            "443".toList, "https".toList]) →
          (HTTP.FindServer
                      (some { Properties := some [], Types := none, Upstreams := some [],
                                Servers := [
                                  { Properties := some { Conditions := [], Data := some [
                                      ("listen".toList, [⟨-1, "443 ssl".toList⟩]),
                                      ("server_name".toList, [⟨-1, "a".toList⟩])] },
                                    Locations := [] }] })
            n "https".toList).isSome = true) ∧
        ((∃ t ∈ s.GetProtocols, t ∈ ["80".toList, "http".toList]) →
          (HTTP.FindServer
                      (some { Properties := some [], Types := none, Upstreams := some [],
                                Servers := [
                                  { Properties := some { Conditions := [], Data := some [
                                      ("listen".toList, [⟨-1, "443 ssl".toList⟩]),
                                      ("server_name".toList, [⟨-1, "a".toList⟩])] },
                                    Locations := [] }] })
            n "http".toList).isSome = true) :=
  listing_and_lookup _ "a:https".toList (by decide)

/-- C29 as stated fails: the server `a` that listens on `8443` is listed as
`a:https`, the text `8443` containing `443`, and `FindServer(h, "a",
"https")` returns none, no listen token being `443`. -/
theorem listing_and_lookup_counterexample :
    ¬ (∀ (h : Option HTTP) (n : Str),
        (n ++ ":https".toList ∈ HTTP.ServersList h →
          (HTTP.FindServer h n "https".toList).isSome = true) ∧
        (n ++ ":http".toList ∈ HTTP.ServersList h →
          (HTTP.FindServer h n "http".toList).isSome = true)) := by
  intro hall
  have h1 := (hall (some { Properties := some [], Types := none, Upstreams := some [],
                                Servers := [
                                  { Properties := some { Conditions := [], Data := some [
                                      ("listen".toList, [⟨-1, "8443".toList⟩]),
                                      ("server_name".toList, [⟨-1, "a".toList⟩])] },
                                    Locations := [] }] })
    "a".toList).1 (by decide)
  revert h1
  decide

/-! ### Cursor progress: the line before the returned cursor -/

theorem parseSimpleLoop_ends (lines : List Str) :
    ∀ (cursor : Nat) (result : Properties) (c : Nat) (p : Properties),
      parseSimpleLoop lines cursor result = .ok (c, p) →
      ∃ l, lines[c - 1 - cursor]? = some l ∧ isBlockEnd l = true := by
  induction lines with
  | nil => intro cursor result c p h; cases h
  | cons line rest ih =>
    intro cursor result c p h
    unfold parseSimpleLoop at h
    split at h
    · rename_i hend
      simp only [Res.ok.injEq, Prod.mk.injEq] at h
      obtain ⟨rfl, -⟩ := h
      exact ⟨line, by simp, hend⟩
    · obtain ⟨q, -, h⟩ := Res.bind_eq_ok h
      obtain ⟨r, -, h⟩ := Res.bind_eq_ok h
      have hp := parseSimpleLoop_progress _ _ _ _ _ h
      obtain ⟨l, hl, hend⟩ := ih _ _ _ _ h
      refine ⟨l, ?_, hend⟩
      have he : c - 1 - cursor = (c - 1 - (cursor + 1)) + 1 := by omega
      rw [he, List.getElem?_cons_succ]
      exact hl

theorem parseIfLoop_ends (lines : List Str) :
    ∀ (cursor conditionID : Nat) (props : ConditionalProperties) (c : Nat)
      (res : ConditionalProperties),
      parseIfLoop lines cursor conditionID props = .ok (c, res) →
      ∃ l, lines[c - 1 - cursor]? = some l ∧ isBlockEnd l = true := by
  induction lines with
  | nil => intro cursor conditionID props c res h; cases h
  | cons line rest ih =>
    intro cursor conditionID props c res h
    unfold parseIfLoop at h
    split at h
    · rename_i hend
      simp only [Res.ok.injEq, Prod.mk.injEq] at h
      obtain ⟨rfl, -⟩ := h
      exact ⟨line, by simp, hend⟩
    · obtain ⟨q, -, h⟩ := Res.bind_eq_ok h
      obtain ⟨r, -, h⟩ := Res.bind_eq_ok h
      have hp := parseIfLoop_progress _ _ _ _ _ _ h
      obtain ⟨l, hl, hend⟩ := ih _ _ _ _ _ h
      refine ⟨l, ?_, hend⟩
      have he : c - 1 - cursor = (c - 1 - (cursor + 1)) + 1 := by omega
      rw [he, List.getElem?_cons_succ]
      exact hl

theorem parseSimpleBlock_ends (data : List Str) (cursor c : Nat) (p : Properties)
    (h : parseSimpleBlock data cursor = .ok (c, p)) :
    ∃ l, data[c - 1]? = some l ∧ isBlockEnd l = true := by
  have hp := parseSimpleLoop_progress _ _ _ _ _ h
  obtain ⟨l, hl, hend⟩ := parseSimpleLoop_ends _ _ _ _ _ h
  refine ⟨l, ?_, hend⟩
  rw [List.getElem?_drop] at hl
  have he : cursor + (c - 1 - cursor) = c - 1 := by omega
  rw [he] at hl
  exact hl

theorem parseIfBlock_ends (data : List Str) (cursor c : Nat)
    (props res : ConditionalProperties) (h : parseIfBlock data cursor props = .ok (c, res)) :
    ∃ l, data[c - 1]? = some l ∧ isBlockEnd l = true := by
  unfold parseIfBlock at h
  split at h
  · cases h
  · split at h
    · cases h
    · obtain ⟨cond, -, h⟩ := Res.bind_eq_ok h
      have hp := parseIfLoop_progress _ _ _ _ _ _ h
      obtain ⟨l, hl, hend⟩ := parseIfLoop_ends _ _ _ _ _ _ h
      refine ⟨l, ?_, hend⟩
      rw [List.getElem?_drop] at hl
      have he : cursor + (c - 1 - cursor) = c - 1 := by omega
      rw [he] at hl
      exact hl

theorem parseLocationLoop_ends (fuel : Nat) :
    ∀ (data : List Str) (cursor : Nat) (props : ConditionalProperties) (c : Nat)
      (loc : Location),
      parseLocationLoop fuel data cursor props = .ok (c, loc) →
      ∃ l, data[c - 1]? = some l ∧ isBlockEnd l = true := by
  induction fuel with
  | zero => intro data cursor props c loc h; cases h
  | succ fuel ih =>
    intro data cursor props c loc h
    unfold parseLocationLoop at h
    cases hl : data[cursor]? with
    | none => simp [hl] at h
    | some line =>
      simp only [hl] at h
      split at h
      · rename_i hend
        simp only [Res.ok.injEq, Prod.mk.injEq] at h
        obtain ⟨rfl, -⟩ := h
        exact ⟨line, by simpa using hl, hend⟩
      · split at h
        · obtain ⟨r, -, h⟩ := Res.bind_eq_ok h
          split at h
          · obtain ⟨q, -, h⟩ := Res.bind_eq_ok h
            exact ih _ _ _ _ _ h
          · cases h
        · obtain ⟨r, -, h⟩ := Res.bind_eq_ok h
          obtain ⟨d, -, h⟩ := Res.bind_eq_ok h
          exact ih _ _ _ _ _ h

theorem parseServerLoop_ends (fuel : Nat) :
    ∀ (data : List Str) (cursor : Nat) (props : ConditionalProperties) (locs : List Location)
      (c : Nat) (server : Server),
      parseServerLoop fuel data cursor props locs = .ok (c, server) →
      ∃ l, data[c - 1]? = some l ∧ isBlockEnd l = true := by
  induction fuel with
  | zero => intro data cursor props locs c server h; cases h
  | succ fuel ih =>
    intro data cursor props locs c server h
    unfold parseServerLoop at h
    cases hl : data[cursor]? with
    | none => simp [hl] at h
    | some line =>
      simp only [hl] at h
      split at h
      · rename_i hend
        simp only [Res.ok.injEq, Prod.mk.injEq] at h
        obtain ⟨rfl, -⟩ := h
        exact ⟨line, by simpa using hl, hend⟩
      · split at h
        · obtain ⟨r, -, h⟩ := Res.bind_eq_ok h
          split at h
          · obtain ⟨q, -, h⟩ := Res.bind_eq_ok h
            exact ih _ _ _ _ _ _ h
          · split at h
            · obtain ⟨q, -, h⟩ := Res.bind_eq_ok h
              obtain ⟨a, -, h⟩ := Res.bind_eq_ok h
              exact ih _ _ _ _ _ _ h
            · cases h
        · obtain ⟨r, -, h⟩ := Res.bind_eq_ok h
          obtain ⟨d, -, h⟩ := Res.bind_eq_ok h
          exact ih _ _ _ _ _ _ h

theorem parseHTTPLoop_ends (fuel : Nat) :
    ∀ (data : List Str) (cursor : Nat) (http : HTTP) (c : Nat) (res : HTTP),
      parseHTTPLoop fuel data cursor http = .ok (c, res) →
      ∃ l, data[c - 1]? = some l ∧ isBlockEnd l = true := by
  induction fuel with
  | zero => intro data cursor http c res h; cases h
  | succ fuel ih =>
    intro data cursor http c res h
    unfold parseHTTPLoop at h
    cases hl : data[cursor]? with
    | none => simp [hl] at h
    | some line =>
      simp only [hl] at h
      split at h
      · rename_i hend
        simp only [Res.ok.injEq, Prod.mk.injEq] at h
        obtain ⟨rfl, -⟩ := h
        exact ⟨line, by simpa using hl, hend⟩
      · split at h
        · obtain ⟨r, -, h⟩ := Res.bind_eq_ok h
          split at h
          · obtain ⟨q, -, h⟩ := Res.bind_eq_ok h
            exact ih _ _ _ _ _ h
          · split at h
            · obtain ⟨q, -, h⟩ := Res.bind_eq_ok h
              exact ih _ _ _ _ _ h
            · split at h
              · split at h
                · cases h
                · obtain ⟨q, -, h⟩ := Res.bind_eq_ok h
                  obtain ⟨u, -, h⟩ := Res.bind_eq_ok h
                  exact ih _ _ _ _ _ h
              · cases h
        · obtain ⟨r, -, h⟩ := Res.bind_eq_ok h
          obtain ⟨d, -, h⟩ := Res.bind_eq_ok h
          exact ih _ _ _ _ _ h

/-- C27: cursor progress. Whenever `parseSimpleBlock`, `parseHTTPBlock`,
`parseServerBlock`, `parseLocationBlock` or `parseIfBlock` returns a node
with the cursor `c`, then `cursor < c`, `c` is at most `len(data)` and the
line `data[c-1]` is a block-end line; and no parser, `parseConfig` included,
exhausts the step budget of `len(data) + 1` loop iterations: parsing ends on
every finite sequence of lines. -/
theorem cursor_progress (data : List Str) (cursor : Nat) (props : ConditionalProperties) :
    (∀ c p, parseSimpleBlock data cursor = .ok (c, p) →
      cursor < c ∧ c ≤ data.length ∧ ∃ l, data[c - 1]? = some l ∧ isBlockEnd l = true) ∧
    (∀ c p, parseHTTPBlock data cursor = .ok (c, p) →
      cursor < c ∧ c ≤ data.length ∧ ∃ l, data[c - 1]? = some l ∧ isBlockEnd l = true) ∧
    (∀ c p, parseServerBlock data cursor = .ok (c, p) →
      cursor < c ∧ c ≤ data.length ∧ ∃ l, data[c - 1]? = some l ∧ isBlockEnd l = true) ∧
    (∀ c p, parseLocationBlock data cursor = .ok (c, p) →
      cursor < c ∧ c ≤ data.length ∧ ∃ l, data[c - 1]? = some l ∧ isBlockEnd l = true) ∧
    (∀ c p, parseIfBlock data cursor props = .ok (c, p) →
      1 ≤ cursor ∧ cursor < c ∧ c ≤ data.length ∧
        ∃ l, data[c - 1]? = some l ∧ isBlockEnd l = true) ∧
    parseSimpleBlock data cursor ≠ Res.diverge ∧
    parseHTTPBlock data cursor ≠ Res.diverge ∧
    parseServerBlock data cursor ≠ Res.diverge ∧
    parseLocationBlock data cursor ≠ Res.diverge ∧
    parseIfBlock data cursor props ≠ Res.diverge ∧
    parseConfig data ≠ Res.diverge := by
  refine ⟨?_, ?_, ?_, ?_, ?_, parseSimpleBlock_ne_diverge _ _, parseHTTPBlock_ne_diverge _ _,
    parseServerBlock_ne_diverge _ _, parseLocationBlock_ne_diverge _ _,
    parseIfBlock_ne_diverge _ _ _, parseConfigLoop_ne_diverge _ _ _ _ (by omega)⟩
  · intro c p h
    have h1 := parseSimpleBlock_progress _ _ _ _ h
    exact ⟨h1.1, h1.2, parseSimpleBlock_ends _ _ _ _ h⟩
  · intro c p h
    have h1 := parseHTTPBlock_progress _ _ _ _ h
    exact ⟨h1.1, h1.2, parseHTTPLoop_ends _ _ _ _ _ _ h⟩
  · intro c p h
    have h1 := parseServerBlock_progress _ _ _ _ h
    exact ⟨h1.1, h1.2, parseServerLoop_ends _ _ _ _ _ _ _ h⟩
  · intro c p h
    have h1 := parseLocationBlock_progress _ _ _ _ h
    exact ⟨h1.1, h1.2, parseLocationLoop_ends _ _ _ _ _ _ h⟩
  · intro c p h
    have h1 := parseIfBlock_progress _ _ _ _ _ h
    refine ⟨?_, h1.1, h1.2, parseIfBlock_ends _ _ _ _ _ h⟩
    by_contra h0
    have hc : cursor = 0 := by omega
    subst hc
    unfold parseIfBlock at h
    simp at h

/-- Witness of C27: the server block of `server`, `listen 80;`, `if ($a) `,
`return 1;`, closing brace, closing brace, read from line 1, returns the
cursor 6 after the block-end line `data[5]` (the condition is stored
without its last character). -/
theorem cursor_progress_witness :
    1 < 6 ∧ 6 ≤ ["server \x7b".toList, "listen 80;".toList, "if ($a) \x7b".toList,
      "return 1;".toList, "\x7d".toList, "\x7d".toList].length ∧
    ∃ l, ["server \x7b".toList, "listen 80;".toList, "if ($a) \x7b".toList,
      "return 1;".toList, "\x7d".toList, "\x7d".toList][6 - 1]? = some l ∧
      isBlockEnd l = true :=
  (cursor_progress ["server \x7b".toList, "listen 80;".toList, "if ($a) \x7b".toList,
      "return 1;".toList, "\x7d".toList, "\x7d".toList] 1
      { Conditions := [], Data := some [] }).2.2.1 6
    { Properties := some { Conditions := ["$".toList], Data := some [
        ("listen".toList, [⟨-1, "80".toList⟩]),
        ("return".toList, [⟨0, "1".toList⟩])] }, Locations := [] }
    (by decide)

/-! ### Block starts: the brace and the final state of the quote flag -/

theorem exists_index_cons {b r : Char} {rs : Str} (P : Nat → Prop) :
    (∃ i, (r :: rs)[i]? = some b ∧ P i) ↔ (r = b ∧ P 0) ∨ ∃ j, rs[j]? = some b ∧ P (j + 1) := by
  constructor
  · rintro ⟨i, hi, hp⟩
    cases i with
    | zero =>
      left
      simp only [List.getElem?_cons_zero, Option.some.injEq] at hi
      exact ⟨hi, hp⟩
    | succ j =>
      right
      exact ⟨j, by simpa using hi, hp⟩
  · rintro (⟨rfl, hp⟩ | ⟨j, hj, hp⟩)
    · exact ⟨0, by simp, hp⟩
    · exact ⟨j + 1, by simpa using hj, hp⟩

theorem bracketScan_iff (brace : Char) (hd : brace ≠ dquote) (hs : brace ≠ squote) :
    ∀ (s : Str) (hasBracket escaped : Bool),
      bracketScan brace s hasBracket escaped = true ↔
        (hasBracket = true ∨
          ∃ i, s[i]? = some brace ∧ (quotesBefore s i + escaped.toNat) % 2 = 0) ∧
        (quotesBefore s s.length + escaped.toNat) % 2 = 0 := by
  intro s
  induction s with
  | nil =>
    intro hasBracket escaped
    cases hasBracket <;> cases escaped <;> simp [bracketScan, quotesBefore]
  | cons r rs ih =>
    intro hasBracket escaped
    unfold bracketScan
    by_cases hq : r = dquote ∨ r = squote
    · have hrb : r ≠ brace := by
        rintro rfl
        rcases hq with h | h
        · exact hd h
        · exact hs h
      have key : ∀ n, (n + (!escaped).toNat) % 2 = 0 ↔ (n + 1 + escaped.toNat) % 2 = 0 := by
        intro n
        cases escaped
        · simp
        · simp only [Bool.not_true, Bool.toNat_false, Bool.toNat_true, Nat.add_zero]
          omega
      rw [if_pos hq, ih, exists_index_cons]
      simp only [quotesBefore_succ, if_pos hq, List.length_cons, hrb, false_and, false_or, key]
    · rw [if_neg hq]
      by_cases hb : r = brace
      · subst hb
        rw [if_pos rfl, ih, exists_index_cons]
        simp only [quotesBefore_succ, if_neg hq, List.length_cons, quotesBefore_zero,
          true_and, Nat.add_zero, Nat.zero_add]
        cases escaped <;> cases hasBracket <;> simp
      · rw [if_neg hb, ih, exists_index_cons]
        simp only [quotesBefore_succ, if_neg hq, List.length_cons, hb, false_and, false_or,
          Nat.add_zero]

/-- C21, as the source has it: `isBlockStart` returns `hasBracket && !escaped`.
A line is a block start exactly when it contains a `{` at a position where
the quote flag is off (an even number of quote characters before it) and the
flag is off again at the end of the line (the line holds an even number of
quote characters). -/
theorem block_start_iff (text : Str) :
    isBlockStart text = true ↔
      (∃ i, text[i]? = some (Char.ofNat 123) ∧ quotesBefore text i % 2 = 0) ∧
      quotesBefore text text.length % 2 = 0 := by
  unfold isBlockStart
  rw [bracketScan_iff _ (by decide) (by decide)]
  simp

/-- Witness of C21: `location ~ "^/a" ` followed by the brace is a block
start, the brace at position 17 standing after two quote characters. -/
theorem block_start_iff_witness :
    isBlockStart "location ~ \x22^/a\x22 \x7b".toList = true :=
  (block_start_iff "location ~ \x22^/a\x22 \x7b".toList).2
    ⟨⟨17, by decide, by decide⟩, by decide⟩

/-- C21 as stated fails: in `map $a $b ` followed by the brace and
`default 'x` the brace stands where the flag is off, and the line is not a
block start, the quote after the brace leaving the flag on at the end of the
line. -/
theorem block_start_counterexample :
    ¬ (∀ text : Str,
        (∃ i, text[i]? = some (Char.ofNat 123) ∧ quotesBefore text i % 2 = 0) →
        isBlockStart text = true) :=
  fun h => absurd (h "map $a $b \x7b default 'x".toList ⟨10, by decide, by decide⟩) (by decide)

/-! ### The split of a statement at its first space -/

theorem indexFrom_space_none (s : Str) (h : ' ' ∉ s) :
    ∀ i : Nat, indexFrom [' '] s i = -1 := by
  induction s with
  | nil => intro i; simp [indexFrom]
  | cons c cs ih =>
    intro i
    have hc : c ≠ ' ' := fun hc => h (by simp [hc])
    have hcs : ' ' ∉ cs := fun hm => h (List.mem_cons_of_mem _ hm)
    rw [indexFrom]
    have hp : List.isPrefixOf [' '] (c :: cs) = false := by
      simp [List.isPrefixOf, Ne.symm hc]
    rw [hp]
    simp only [Bool.false_eq_true, if_false]
    exact ih hcs _

theorem indexFrom_space_first (n v : Str) (hn : ' ' ∉ n) :
    ∀ i : Nat, indexFrom [' '] (n ++ ' ' :: v) i = (i : Int) + n.length := by
  induction n with
  | nil =>
    intro i
    simp [indexFrom, List.isPrefixOf]
  | cons c cs ih =>
    intro i
    have hc : c ≠ ' ' := fun hc => hn (by simp [hc])
    have hcs : ' ' ∉ cs := fun hm => hn (List.mem_cons_of_mem _ hm)
    rw [List.cons_append, indexFrom]
    have hp : List.isPrefixOf [' '] (c :: (cs ++ ' ' :: v)) = false := by
      simp [List.isPrefixOf, Ne.symm hc]
    rw [hp]
    simp only [Bool.false_eq_true, if_false]
    rw [ih hcs]
    simp only [List.length_cons]
    push_cast
    omega

theorem split_at_first_space (c : Str) (h : ' ' ∈ c) :
    ∃ n v, c = n ++ ' ' :: v ∧ ' ' ∉ n := by
  induction c with
  | nil => cases h
  | cons a cs ih =>
    by_cases ha : a = ' '
    · exact ⟨[], cs, by simp [ha], by simp⟩
    · have hcs : ' ' ∈ cs := by
        rcases List.mem_cons.mp h with h1 | h1
        · exact absurd h1.symm ha
        · exact h1
      obtain ⟨n, v, hc, hn⟩ := ih hcs
      refine ⟨a :: n, v, by simp [hc], ?_⟩
      intro hm
      rcases List.mem_cons.mp hm with h1 | h1
      · exact ha h1.symm
      · exact hn h1

theorem parseProperty_of_clean (l c : Str) (h : cleanData l = .ok c) :
    (' ' ∉ c → parseProperty l = .ok (c, [])) ∧
    (∀ n v, c = n ++ ' ' :: v → ' ' ∉ n → parseProperty l = .ok (n, v)) := by
  constructor
  · intro hno
    unfold parseProperty
    simp only [h, Res.ok_bind]
    unfold stringsIndex
    rw [indexFrom_space_none c hno]
    simp
  · intro n v hc hn
    unfold parseProperty
    simp only [h, Res.ok_bind]
    unfold stringsIndex
    subst hc
    rw [indexFrom_space_first n v hn]
    have hcond : ¬ ((((0 : Nat) : Int) + (n.length : Int) = -1) ∨
        (((n ++ ' ' :: v).length : Int) < ((0 : Nat) : Int) + (n.length : Int) + 1)) := by
      simp only [List.length_append, List.length_cons]
      push_cast
      omega
    rw [if_neg hcond]
    have hlen : ((n ++ ' ' :: v).length : Int) = (n.length : Int) + 1 + (v.length : Int) := by
      simp only [List.length_append, List.length_cons]
      push_cast
      omega
    have h1 : goSlice (n ++ ' ' :: v) 0 (((0 : Nat) : Int) + (n.length : Int)) = .ok n := by
      unfold goSlice
      split
      · simp
      · rename_i hc
        exact absurd ⟨le_refl _, by push_cast; omega, by push_cast; omega⟩ hc
    have h2 : goSlice (n ++ ' ' :: v) (((0 : Nat) : Int) + (n.length : Int) + 1)
        ((n ++ ' ' :: v).length : Int) = .ok v := by
      have he : (((0 : Nat) : Int) + (n.length : Int) + 1).toNat = n.length + 1 := by
        push_cast
        omega
      unfold goSlice
      split
      · rw [he, Int.toNat_ofNat, List.take_length]
        simp
      · rename_i hc
        exact absurd ⟨by push_cast; omega, by push_cast; omega, le_refl _⟩ hc
    rw [h1, h2]
    rfl

/-- C22: `parseProperty` splits the cleaned statement at its first space.
With `c = cleanData(l)`: when `c` holds no space, `parseProperty(l)` is
`(c, "")`; otherwise it is `(n, v)` with `n ++ " " ++ v = c` and no space in
`n`, so `n` is the text before the first space and `v` the text after it. -/
theorem parseProperty_splits_at_first_space (l c : Str) (h : cleanData l = .ok c) :
    (' ' ∉ c → parseProperty l = .ok (c, [])) ∧
    (' ' ∈ c → ∃ n v, parseProperty l = .ok (n, v) ∧ n ++ ' ' :: v = c ∧ ' ' ∉ n) := by
  refine ⟨(parseProperty_of_clean l c h).1, fun hin => ?_⟩
  obtain ⟨n, v, hc, hn⟩ := split_at_first_space c hin
  exact ⟨n, v, (parseProperty_of_clean l c h).2 n v hc hn, hc.symm, hn⟩

/-- Witness of C22: `  proxy_set_header   Host  $host; # note` is cleaned to
`proxy_set_header Host $host`, which holds a space, and `daemon;` is cleaned
to `daemon`, which holds none. -/
theorem parseProperty_splits_at_first_space_witness :
    (∃ n v, parseProperty "  proxy_set_header   Host  $host; # note".toList = .ok (n, v) ∧
      n ++ ' ' :: v = "proxy_set_header Host $host".toList ∧ ' ' ∉ n) ∧
    parseProperty "daemon;".toList = .ok ("daemon".toList, []) :=
  ⟨(parseProperty_splits_at_first_space "  proxy_set_header   Host  $host; # note".toList
      "proxy_set_header Host $host".toList (by decide)).2 (by decide),
   (parseProperty_splits_at_first_space "daemon;".toList "daemon".toList (by decide)).1
      (by decide)⟩

/-! ### The normalisation of a terminated statement -/

theorem indexFrom_nonneg_shift (sub : Str) (s : Str) :
    ∀ i j : Nat, 0 ≤ indexFrom sub s i ↔ 0 ≤ indexFrom sub s j := by
  induction s with
  | nil =>
    intro i j
    simp only [indexFrom]
    split
    · constructor <;> intro _ <;> omega
    · exact Iff.rfl
  | cons c cs ih =>
    intro i j
    simp only [indexFrom]
    split
    · constructor <;> intro _ <;> omega
    · exact ih _ _

theorem stringsContains_double_nil : stringsContains [] [' ', ' '] = false := by decide

theorem stringsContains_double_single (a : Char) : stringsContains [a] [' ', ' '] = false := by
  simp [stringsContains, stringsIndex, indexFrom, List.isPrefixOf]

theorem stringsContains_double_cons (a b : Char) (rest : Str) :
    stringsContains (a :: b :: rest) [' ', ' '] =
      (decide (a = ' ' ∧ b = ' ') || stringsContains (b :: rest) [' ', ' ']) := by
  unfold stringsContains stringsIndex
  rw [indexFrom]
  by_cases h : a = ' ' ∧ b = ' '
  · have hp : List.isPrefixOf [' ', ' '] (a :: b :: rest) = true := by
      simp [List.isPrefixOf, h.1, h.2]
    simp [hp, h]
  · have hp : List.isPrefixOf [' ', ' '] (a :: b :: rest) = false := by
      simp only [List.isPrefixOf, Bool.and_true, Bool.and_eq_false_imp, beq_iff_eq]
      intro ha
      simpa using fun hb : ' ' = b => h ⟨ha.symm, hb.symm⟩
    rw [hp]
    simp only [Bool.false_eq_true, if_false, h, decide_False, Bool.false_or]
    exact decide_eq_decide.mpr (indexFrom_nonneg_shift _ _ _ _)

theorem head?_collapseSpaces (s : Str) : (collapseSpaces s).head? = s.head? := by
  induction s with
  | nil => rfl
  | cons c cs ih =>
    rw [collapseSpaces]
    split
    · rename_i h
      rw [ih, h.2, h.1]
      rfl
    · rfl

theorem collapseSpaces_of_no_double (s : Str) (h : stringsContains s [' ', ' '] = false) :
    collapseSpaces s = s := by
  induction s with
  | nil => rfl
  | cons c cs ih =>
    cases cs with
    | nil => simp [collapseSpaces]
    | cons b rest =>
      rw [stringsContains_double_cons, Bool.or_eq_false_iff] at h
      have hc : ¬ (c = ' ' ∧ (b :: rest).head? = some ' ') := by
        simpa using h.1
      rw [collapseSpaces, if_neg hc, ih h.2]

theorem collapseSpaces_no_double (s : Str) :
    stringsContains (collapseSpaces s) [' ', ' '] = false := by
  induction s with
  | nil => exact stringsContains_double_nil
  | cons c cs ih =>
    rw [collapseSpaces]
    split
    · exact ih
    · rename_i hc
      have hhead := head?_collapseSpaces cs
      cases hcol : collapseSpaces cs with
      | nil => exact stringsContains_double_single c
      | cons x tl =>
        rw [hcol] at ih hhead
        rw [stringsContains_double_cons, ih, Bool.or_false, decide_eq_false_iff_not]
        rintro ⟨h1, h2⟩
        apply hc
        refine ⟨h1, ?_⟩
        rw [← hhead, h2]
        rfl

theorem collapseSpaces_replaceDouble : ∀ s : Str,
    collapseSpaces (replaceDouble s) = collapseSpaces s
  | [] => rfl
  | [_] => rfl
  | a :: b :: rest => by
    rw [replaceDouble]
    split
    · rename_i h
      have ih := collapseSpaces_replaceDouble rest
      rw [h.1, h.2]
      rw [collapseSpaces, collapseSpaces, collapseSpaces, head?_replaceDouble, ih]
      simp
    · have ih := collapseSpaces_replaceDouble (b :: rest)
      rw [collapseSpaces, head?_replaceDouble, ih]
      conv_rhs => rw [collapseSpaces]

theorem length_replaceDouble_le : ∀ s : Str, (replaceDouble s).length ≤ s.length
  | [] => le_refl _
  | [_] => le_refl _
  | a :: b :: rest => by
    rw [replaceDouble]
    split
    · have ih := length_replaceDouble_le rest
      simp only [List.length_cons]
      omega
    · have ih := length_replaceDouble_le (b :: rest)
      simp only [List.length_cons] at ih ⊢
      omega

theorem length_replaceDouble_lt : ∀ s : Str, stringsContains s [' ', ' '] = true →
    (replaceDouble s).length < s.length
  | [], h => by rw [stringsContains_double_nil] at h; cases h
  | [a], h => by rw [stringsContains_double_single] at h; cases h
  | a :: b :: rest, h => by
    rw [replaceDouble]
    split
    · have ih := length_replaceDouble_le rest
      simp only [List.length_cons]
      omega
    · rename_i hc
      rw [stringsContains_double_cons] at h
      simp only [hc, decide_False, Bool.false_or] at h
      have ih := length_replaceDouble_lt (b :: rest) h
      simp only [List.length_cons] at ih ⊢
      omega

theorem dedupSpaces_eq_collapseSpaces (n : Nat) :
    ∀ s : Str, s.length ≤ n → dedupSpaces n s = collapseSpaces s := by
  induction n with
  | zero =>
    intro s hs
    have : s = [] := List.length_eq_zero.mp (by omega)
    subst this
    rfl
  | succ n ih =>
    intro s hs
    rw [dedupSpaces]
    split
    · rename_i hd
      have hlt := length_replaceDouble_lt s hd
      rw [ih _ (by omega), collapseSpaces_replaceDouble]
    · rename_i hd
      exact (collapseSpaces_of_no_double s (by simpa using hd)).symm

theorem collapseSpaces_append_semicolon (s : Str) :
    collapseSpaces (s ++ [';']) = collapseSpaces s ++ [';'] := by
  induction s with
  | nil => simp [collapseSpaces]
  | cons c cs ih =>
    have hh : (cs ++ [';']).head? = some ' ' ↔ cs.head? = some ' ' := by
      cases cs with
      | nil => simp
      | cons b rest => simp
    rw [List.cons_append, collapseSpaces, collapseSpaces, ih]
    by_cases h : c = ' ' ∧ cs.head? = some ' '
    · rw [if_pos h, if_pos ⟨h.1, hh.mpr h.2⟩]
    · rw [if_neg h, if_neg (fun h2 => h ⟨h2.1, hh.mp h2.2⟩)]
      rfl

theorem mem_of_mem_collapseSpaces (s : Str) (c : Char) (h : c ∈ collapseSpaces s) : c ∈ s := by
  induction s with
  | nil => exact h
  | cons a cs ih =>
    rw [collapseSpaces] at h
    split at h
    · exact List.mem_cons_of_mem _ (ih h)
    · rcases List.mem_cons.mp h with h1 | h1
      · exact h1 ▸ List.mem_cons_self _ _
      · exact List.mem_cons_of_mem _ (ih h1)

theorem dropWhile_append_stop {p : Char → Bool} (t : Str) (x : Char) (hx : p x = false) :
    (t ++ [x]).dropWhile p = t.dropWhile p ++ [x] := by
  induction t with
  | nil => simp [List.dropWhile, hx]
  | cons c cs ih =>
    rw [List.cons_append]
    by_cases hc : p c = true
    · rw [List.dropWhile_cons_of_pos hc, List.dropWhile_cons_of_pos hc, ih]
    · rw [List.dropWhile_cons_of_neg hc, List.dropWhile_cons_of_neg hc]
      rfl

theorem trimSpace_append_semicolon (t : Str) :
    trimSpace (t ++ [';']) = t.dropWhile isSpace ++ [';'] := by
  unfold trimSpace
  rw [dropWhile_append_stop t ';' (by decide), List.reverse_append, List.reverse_singleton,
    List.singleton_append, List.dropWhile_cons_of_neg (by decide), List.reverse_cons,
    List.reverse_reverse]

theorem cleanScan_plain (u : Str)
    (hu : ∀ c ∈ u, c ≠ dquote ∧ c ≠ squote ∧ c ≠ '#' ∧ c ≠ ';') :
    ∀ (i : Nat) (e : Int), cleanScan (u ++ [';']) i e false = (i : Int) + u.length := by
  induction u with
  | nil =>
    intro i e
    simp [cleanScan, dquote, squote]
  | cons r rs ih =>
    intro i e
    obtain ⟨h1, h2, h3, h4⟩ := hu r (List.mem_cons_self _ _)
    rw [List.cons_append, cleanScan, if_neg (by simp [h1, h2]), if_neg h3, if_neg h4,
      ih (fun c hc => hu c (List.mem_cons_of_mem _ hc))]
    simp only [List.length_cons]
    push_cast
    omega

theorem head?_dropWhile_isSpace (t : Str) (c : Char)
    (h : (t.dropWhile isSpace).head? = some c) : isSpace c = false := by
  induction t with
  | nil => cases h
  | cons a cs ih =>
    by_cases ha : isSpace a = true
    · rw [List.dropWhile_cons_of_pos ha] at h
      exact ih h
    · rw [List.dropWhile_cons_of_neg ha] at h
      simp only [List.head?_cons, Option.some.injEq] at h
      rw [← h]
      simpa using ha

theorem getLast?_collapseSpaces (s : Str) : (collapseSpaces s).getLast? = s.getLast? := by
  induction s with
  | nil => rfl
  | cons c cs ih =>
    rw [collapseSpaces]
    split
    · rename_i h
      rw [ih]
      cases cs with
      | nil => simp at h
      | cons b rest => rfl
    · rw [List.getLast?_cons, List.getLast?_cons, ih]

theorem getLast?_dropWhile (p : Char → Bool) (t : Str) (h : t.dropWhile p ≠ []) :
    (t.dropWhile p).getLast? = t.getLast? := by
  induction t with
  | nil => rfl
  | cons c cs ih =>
    by_cases hc : p c = true
    · rw [List.dropWhile_cons_of_pos hc] at h ⊢
      rw [ih h]
      cases cs with
      | nil => exact absurd rfl h
      | cons b rest => rfl
    · rw [List.dropWhile_cons_of_neg hc]

theorem dropWhile_ne_nil_of_mem (p : Char → Bool) (t : Str) (h : ∃ c ∈ t, p c = false) :
    t.dropWhile p ≠ [] := by
  induction t with
  | nil =>
    obtain ⟨c, hc, -⟩ := h
    cases hc
  | cons a cs ih =>
    by_cases ha : p a = true
    · rw [List.dropWhile_cons_of_pos ha]
      obtain ⟨c, hc, hp⟩ := h
      rcases List.mem_cons.mp hc with h1 | h1
      · rw [h1, ha] at hp
        cases hp
      · exact ih ⟨c, h1, hp⟩
    · rw [List.dropWhile_cons_of_neg ha]
      exact List.cons_ne_nil _ _

theorem mem_of_mem_dropWhile_char (p : Char → Bool) (t : Str) (c : Char)
    (h : c ∈ t.dropWhile p) : c ∈ t := by
  induction t with
  | nil => exact h
  | cons a cs ih =>
    by_cases ha : p a = true
    · rw [List.dropWhile_cons_of_pos ha] at h
      exact List.mem_cons_of_mem _ (ih h)
    · rw [List.dropWhile_cons_of_neg ha] at h
      exact h

theorem trimSpace_of_last (t : Str) (hne : t.dropWhile isSpace ≠ [])
    (hlast : ∀ c, t.getLast? = some c → isSpace c = false) :
    trimSpace t = t.dropWhile isSpace := by
  unfold trimSpace
  have hl := getLast?_dropWhile isSpace t hne
  have hh := List.head?_reverse (t.dropWhile isSpace)
  cases hr : (t.dropWhile isSpace).reverse with
  | nil =>
    rw [List.reverse_eq_nil_iff] at hr
    exact absurd hr hne
  | cons x xs =>
    rw [hr, hl] at hh
    have hx : isSpace x = false := hlast x (by simpa using hh.symm)
    rw [List.dropWhile_cons_of_neg (by simp [hx]), ← hr, List.reverse_reverse]

/-- C24, as the source has it: `cleanData` trims the text before it cuts the
terminator off.  For a non-blank directive text `t` without quote character,
`#` or `;`, `cleanData(t ++ ";")` is `t` without its leading white space and
with every run of spaces collapsed to one space: the terminator is dropped,
the result begins with no white space, holds no two spaces in a row, and ends
with the last character of `t`; white space before the terminator is kept
(one space of it when it is a run of spaces).  When `t` does not end in white
space the result is `t` trimmed on both sides, runs of spaces collapsed. -/
theorem cleanData_terminated (t : Str) (hblank : ∃ c ∈ t, isSpace c = false)
    (hplain : ∀ c ∈ t, c ≠ dquote ∧ c ≠ squote ∧ c ≠ '#' ∧ c ≠ ';') :
    cleanData (t ++ [';']) = .ok (collapseSpaces (t.dropWhile isSpace)) ∧
    (∀ c, (collapseSpaces (t.dropWhile isSpace)).head? = some c → isSpace c = false) ∧
    stringsContains (collapseSpaces (t.dropWhile isSpace)) [' ', ' '] = false ∧
    (collapseSpaces (t.dropWhile isSpace)).getLast? = t.getLast? ∧
    ((∀ c, t.getLast? = some c → isSpace c = false) →
      cleanData (t ++ [';']) = .ok (collapseSpaces (trimSpace t))) := by
  have hne : t.dropWhile isSpace ≠ [] := dropWhile_ne_nil_of_mem _ _ hblank
  have hune : collapseSpaces (t.dropWhile isSpace) ≠ [] := by
    intro h0
    have hh := head?_collapseSpaces (t.dropWhile isSpace)
    rw [h0] at hh
    cases hd : t.dropWhile isSpace with
    | nil => exact hne hd
    | cons a as => rw [hd] at hh; cases hh
  have hu : ∀ c ∈ collapseSpaces (t.dropWhile isSpace),
      c ≠ dquote ∧ c ≠ squote ∧ c ≠ '#' ∧ c ≠ ';' := fun c hc =>
    hplain c (mem_of_mem_dropWhile_char _ _ _ (mem_of_mem_collapseSpaces _ _ hc))
  have hclean : cleanData (t ++ [';']) = .ok (collapseSpaces (t.dropWhile isSpace)) := by
    unfold cleanData
    simp only
    rw [trimSpace_append_semicolon, dedupSpaces_eq_collapseSpaces _ _ (le_refl _),
      collapseSpaces_append_semicolon, cleanScan_plain _ hu]
    have hlen : 0 < (collapseSpaces (t.dropWhile isSpace)).length :=
      List.length_pos.mpr hune
    rw [if_pos (by push_cast; omega)]
    unfold goSlice
    rw [if_pos ⟨le_refl _, by push_cast; omega, by simp⟩]
    simp
  refine ⟨hclean, ?_, collapseSpaces_no_double _, ?_, ?_⟩
  · intro c hc
    rw [head?_collapseSpaces] at hc
    exact head?_dropWhile_isSpace t c hc
  · rw [getLast?_collapseSpaces, getLast?_dropWhile _ _ hne]
  · intro hlast
    rw [hclean, trimSpace_of_last t hne hlast]

/-- Witness of C24: the statement of the test suite, `resolver_timeout`
followed by eleven spaces and `10s`, is cleaned to `resolver_timeout 10s`. -/
theorem cleanData_terminated_witness :
    cleanData ("resolver_timeout           10s".toList ++ [';']) =
      .ok (collapseSpaces (trimSpace "resolver_timeout           10s".toList)) ∧
    collapseSpaces (trimSpace "resolver_timeout           10s".toList) =
      "resolver_timeout 10s".toList :=
  ⟨(cleanData_terminated "resolver_timeout           10s".toList ⟨'r', by decide, by decide⟩
      (by decide)).2.2.2.2 (by decide), by decide⟩

/-- C24 as stated fails: for `t` the text `listen 80 `, ending in a space,
`cleanData(t ++ ";")` is `listen 80 ` with the trailing space, not the
trimmed `listen 80`. -/
theorem cleanData_trailing_space_counterexample :
    ¬ (∀ t : Str, (∃ c ∈ t, isSpace c = false) →
        (∀ c ∈ t, c ≠ dquote ∧ c ≠ squote ∧ c ≠ '#' ∧ c ≠ ';') →
        cleanData (t ++ [';']) = .ok (collapseSpaces (trimSpace t))) := by
  intro h
  have h1 := h "listen 80 ".toList ⟨'l', by decide, by decide⟩ (by decide)
  revert h1
  decide

/-! ### The property store of a server or location block -/

theorem storeAll_cons {V : Type} (m : List (Str × List V)) (e : Str × V)
    (rest : List (Str × V)) :
    storeAll m (e :: rest) = storeAll (assocAppend m e.1 e.2) rest := rfl

theorem assocGet_storeAll {V : Type} (name : Str) (entries : List (Str × V)) :
    ∀ m : List (Str × List V),
      assocGet (storeAll m entries) name =
        if (entriesNamed name entries).isEmpty = true then assocGet m name
        else some ((assocGet m name).getD [] ++ entriesNamed name entries) := by
  induction entries with
  | nil => intro m; rfl
  | cons e rest ih =>
    intro m
    obtain ⟨n, v⟩ := e
    rw [storeAll_cons, ih, assocGet_assocAppend]
    by_cases hn : n = name
    · subst hn
      have hv : entriesNamed n ((n, v) :: rest) = v :: entriesNamed n rest := by
        simp [entriesNamed, List.filter_cons]
      rw [hv, if_pos rfl]
      cases hr : entriesNamed n rest with
      | nil => simp
      | cons a l => simp
    · have hv : entriesNamed name ((n, v) :: rest) = entriesNamed name rest := by
        simp [entriesNamed, List.filter_cons, hn]
      rw [hv, if_neg hn]

theorem storeAll_append {V : Type} (m : List (Str × List V)) (a b : List (Str × V)) :
    storeAll m (a ++ b) = storeAll (storeAll m a) b := by
  unfold storeAll
  rw [List.foldl_append]

theorem parseIfLoop_store (lines : List Str) :
    ∀ (cursor k : Nat) (props : ConditionalProperties) (c : Nat) (res : ConditionalProperties)
      (m : List (Str × List ConditionalProperty)),
      parseIfLoop lines cursor k props = .ok (c, res) → props.Data = some m →
      c = cursor + (ifBodyLines lines).length + 1 ∧
      res = { Conditions := props.Conditions,
              Data := some (storeAll m (tagWith k ((ifBodyLines lines).map directiveOf))) } := by
  induction lines with
  | nil => intro cursor k props c res m h; cases h
  | cons text rest ih =>
    intro cursor k props c res m h hm
    unfold parseIfLoop at h
    cases hend : isBlockEnd text with
    | true =>
      simp only [hend, if_true, Res.ok.injEq, Prod.mk.injEq] at h
      obtain ⟨rfl, rfl⟩ := h
      have hb : ifBodyLines (text :: rest) = [] := by simp [ifBodyLines, hend]
      rw [hb]
      refine ⟨by simp, ?_⟩
      obtain ⟨conds, d⟩ := props
      simp only at hm
      subst hm
      rfl
    | false =>
      simp only [hend, Bool.false_eq_true, if_false] at h
      have hb : ifBodyLines (text :: rest) = text :: ifBodyLines rest := by
        simp [ifBodyLines, hend]
      cases hp : parseProperty text with
      | ok q =>
        have hq : directiveOf text = q := by simp [directiveOf, hp]
        simp only [hp, Res.ok_bind, hm, mapAppend_some] at h
        have h2 := ih _ _ _ _ _ (assocAppend m q.1 ⟨(k : Int), q.2⟩) h rfl
        rw [hb, List.map_cons, hq]
        refine ⟨?_, ?_⟩
        · rw [h2.1]
          simp only [List.length_cons]
          omega
        · rw [h2.2]
          rfl
      | error e => simp [hp] at h
      | panic e => simp [hp] at h
      | diverge => simp [hp] at h

theorem parseIfBlock_store (data : List Str) (cursor c : Nat)
    (props res : ConditionalProperties) (m : List (Str × List ConditionalProperty))
    (text : Str) (h : parseIfBlock data (cursor + 1) props = .ok (c, res))
    (hl : data[cursor]? = some text) (hm : props.Data = some m) :
    ∃ condition, getCondition text = .ok condition ∧
      c = cursor + 1 + (ifBodyLines (data.drop (cursor + 1))).length + 1 ∧
      res = { Conditions := props.Conditions ++ [condition],
              Data := some (storeAll m (tagWith props.Conditions.length
                ((ifBodyLines (data.drop (cursor + 1))).map directiveOf))) } := by
  unfold parseIfBlock at h
  simp only [Nat.add_one_ne_zero, if_false, Nat.add_sub_cancel, hl] at h
  cases hc : getCondition text with
  | ok condition =>
    simp only [hc, Res.ok_bind] at h
    have h2 := parseIfLoop_store _ _ _ _ _ _ m h hm
    exact ⟨condition, rfl, h2.1, h2.2⟩
  | error e => simp [hc] at h
  | panic e => simp [hc] at h
  | diverge => simp [hc] at h

theorem parseLocationLoop_store (fuel : Nat) :
    ∀ (data : List Str) (cursor : Nat) (props : ConditionalProperties) (c : Nat)
      (loc : Location) (m : List (Str × List ConditionalProperty)),
      parseLocationLoop fuel data cursor props = .ok (c, loc) → props.Data = some m →
      loc.Properties = some
        { Conditions := props.Conditions ++ conditionsOf (blockItems false fuel data cursor),
          Data := some (storeAll m
            (taggedEntries (blockItems false fuel data cursor) props.Conditions.length)) } := by
  induction fuel with
  | zero => intro data cursor props c loc m h; cases h
  | succ fuel ih =>
    intro data cursor props c loc m h hm
    unfold parseLocationLoop at h
    unfold blockItems
    cases hl : data[cursor]? with
    | none => simp [hl] at h
    | some text =>
      simp only [hl] at h ⊢
      cases hend : isBlockEnd text with
      | true =>
        simp only [hend, if_true, Res.ok.injEq, Prod.mk.injEq] at h
        obtain ⟨-, rfl⟩ := h
        obtain ⟨conds, d⟩ := props
        simp only at hm
        subst hm
        simp [conditionsOf, taggedEntries, storeAll]
      | false =>
        simp only [hend, Bool.false_eq_true, if_false] at h ⊢
        cases hstart : isBlockStart text with
        | true =>
          simp only [hstart, if_true] at h ⊢
          cases hn : getBlockName text with
          | ok r =>
            obtain ⟨name, args⟩ := r
            simp only [hn, Res.ok_bind] at h ⊢
            by_cases h1 : name = "if".toList
            · simp only [h1, if_true] at h ⊢
              cases hi : parseIfBlock data (cursor + 1) props with
              | ok r =>
                obtain ⟨c1, p1⟩ := r
                simp only [hi, Res.ok_bind] at h
                obtain ⟨condition, hc, hc1, hp1⟩ := parseIfBlock_store _ _ _ _ _ m text hi hl hm
                have h2 := ih _ _ _ _ _ _ h (by rw [hp1])
                rw [h2, hc]
                simp only [conditionsOf, taggedEntries]
                rw [hp1, hc1, storeAll_append]
                simp only [List.append_assoc, List.singleton_append, List.length_append,
                  List.length_singleton]
              | error e => simp [hi] at h
              | panic e => simp [hi] at h
              | diverge => simp [hi] at h
            · simp only [h1, if_false] at h
              cases h
          | error e => simp [hn] at h
          | panic e => simp [hn] at h
          | diverge => simp [hn] at h
        | false =>
          simp only [hstart, Bool.false_eq_true, if_false] at h ⊢
          cases hp : parseProperty text with
          | ok q =>
            have hq : directiveOf text = q := by simp [directiveOf, hp]
            simp only [hp, Res.ok_bind, hm, mapAppend_some] at h
            have h2 := ih _ _ _ _ _ (assocAppend m q.1 ⟨-1, q.2⟩) h rfl
            rw [h2, hq]
            simp only [conditionsOf, taggedEntries, storeAll_cons]
          | error e => simp [hp] at h
          | panic e => simp [hp] at h
          | diverge => simp [hp] at h

theorem parseServerLoop_store (fuel : Nat) :
    ∀ (data : List Str) (cursor : Nat) (props : ConditionalProperties) (locs : List Location)
      (c : Nat) (server : Server) (m : List (Str × List ConditionalProperty)),
      parseServerLoop fuel data cursor props locs = .ok (c, server) → props.Data = some m →
      server.Properties = some
        { Conditions := props.Conditions ++ conditionsOf (blockItems true fuel data cursor),
          Data := some (storeAll m
            (taggedEntries (blockItems true fuel data cursor) props.Conditions.length)) } := by
  induction fuel with
  | zero => intro data cursor props locs c server m h; cases h
  | succ fuel ih =>
    intro data cursor props locs c server m h hm
    unfold parseServerLoop at h
    unfold blockItems
    cases hl : data[cursor]? with
    | none => simp [hl] at h
    | some text =>
      simp only [hl] at h ⊢
      cases hend : isBlockEnd text with
      | true =>
        simp only [hend, if_true, Res.ok.injEq, Prod.mk.injEq] at h
        obtain ⟨-, rfl⟩ := h
        obtain ⟨conds, d⟩ := props
        simp only at hm
        subst hm
        simp [conditionsOf, taggedEntries, storeAll]
      | false =>
        simp only [hend, Bool.false_eq_true, if_false] at h ⊢
        cases hstart : isBlockStart text with
        | true =>
          simp only [hstart, if_true] at h ⊢
          cases hn : getBlockName text with
          | ok r =>
            obtain ⟨name, args⟩ := r
            simp only [hn, Res.ok_bind] at h ⊢
            by_cases h1 : name = "if".toList
            · simp only [h1, if_true] at h ⊢
              cases hi : parseIfBlock data (cursor + 1) props with
              | ok r =>
                obtain ⟨c1, p1⟩ := r
                simp only [hi, Res.ok_bind] at h
                obtain ⟨condition, hc, hc1, hp1⟩ := parseIfBlock_store _ _ _ _ _ m text hi hl hm
                have h2 := ih _ _ _ _ _ _ _ h (by rw [hp1])
                rw [h2, hc]
                simp only [conditionsOf, taggedEntries]
                rw [hp1, hc1, storeAll_append]
                simp only [List.append_assoc, List.singleton_append, List.length_append,
                  List.length_singleton]
              | error e => simp [hi] at h
              | panic e => simp [hi] at h
              | diverge => simp [hi] at h
            · simp only [h1, if_false] at h ⊢
              by_cases h2 : name = "location".toList
              · simp only [h2, if_true, true_and] at h ⊢
                cases hlb : parseLocationBlock data (cursor + 1) with
                | ok r =>
                  obtain ⟨c1, l1⟩ := r
                  simp only [hlb, Res.ok_bind] at h
                  cases ha : parseLocationArgs args with
                  | ok q =>
                    simp only [ha, Res.ok_bind] at h
                    have h3 := ih _ _ _ _ _ _ _ h hm
                    rw [h3]
                    simp only [conditionsOf, taggedEntries]
                  | error e => simp [ha] at h
                  | panic e => simp [ha] at h
                  | diverge => simp [ha] at h
                | error e => simp [hlb] at h
                | panic e => simp [hlb] at h
                | diverge => simp [hlb] at h
              · simp only [h2, if_false] at h
                cases h
          | error e => simp [hn] at h
          | panic e => simp [hn] at h
          | diverge => simp [hn] at h
        | false =>
          simp only [hstart, Bool.false_eq_true, if_false] at h ⊢
          cases hp : parseProperty text with
          | ok q =>
            have hq : directiveOf text = q := by simp [directiveOf, hp]
            simp only [hp, Res.ok_bind, hm, mapAppend_some] at h
            have h2 := ih _ _ _ _ _ _ (assocAppend m q.1 ⟨-1, q.2⟩) h rfl
            rw [h2, hq]
            simp only [conditionsOf, taggedEntries, storeAll_cons]
          | error e => simp [hp] at h
          | panic e => simp [hp] at h
          | diverge => simp [hp] at h

theorem taggedEntries_bound (items : List BlockItem) :
    ∀ (k0 : Nat) (e : Str × ConditionalProperty), e ∈ taggedEntries items k0 →
      e.2.ConditionID = -1 ∨
      ((k0 : Int) ≤ e.2.ConditionID ∧
        e.2.ConditionID < (k0 : Int) + ((conditionsOf items).length : Int)) := by
  induction items with
  | nil => intro k0 e h; cases h
  | cons item rest ih =>
    intro k0 e h
    cases item with
    | directive name value =>
      simp only [taggedEntries, List.mem_cons] at h
      rcases h with h | h
      · left
        rw [h]
      · exact ih k0 e h
    | ifBlock condition body =>
      simp only [taggedEntries, List.mem_append] at h
      simp only [conditionsOf, List.length_cons]
      rcases h with h | h
      · right
        simp only [tagWith, List.mem_map] at h
        obtain ⟨b, -, rfl⟩ := h
        simp only
        push_cast
        omega
      · rcases ih (k0 + 1) e h with h2 | h2
        · exact Or.inl h2
        · right
          push_cast at h2 ⊢
          omega
    | location =>
      simp only [taggedEntries] at h
      exact ih k0 e h

theorem holdsItems_of_store (p : Option ConditionalProperties) (items : List BlockItem)
    (h : p = some { Conditions := conditionsOf items,
                    Data := some (storeAll [] (taggedEntries items 0)) }) :
    holdsItems p items := by
  refine ⟨_, h, ?_, ?_⟩
  · intro name
    rw [assocGet_storeAll]
    split
    · rename_i hnil
      rw [List.isEmpty_iff.mp hnil]
      rfl
    · rfl
  · intro name vs e hvs he
    rw [assocGet_storeAll] at hvs
    split at hvs
    · cases hvs
    · simp only [assocGet, Option.getD_none, List.nil_append, Option.some.injEq] at hvs
      subst hvs
      simp only [entriesNamed, List.mem_map, List.mem_filter] at he
      obtain ⟨x, ⟨hx, -⟩, rfl⟩ := he
      have hb := taggedEntries_bound items 0 x hx
      push_cast at hb
      omega

/-- C23: after a successful `parseServerBlock` or `parseLocationBlock` the
property store of the node holds the items declared directly in the block:
`Conditions` has one entry per `if` block, in order of appearance; a
directive declared directly in the block is stored with `ConditionID` `-1`
and a directive of the `if` block number `k` with `ConditionID` `k`; under
each name the stored list keeps line order; and every stored `ConditionID`
`c` satisfies `-1 <= c < len(Conditions)`. -/
theorem conditional_properties_store (data : List Str) (cursor c : Nat) :
    (∀ server, parseServerBlock data cursor = .ok (c, server) →
      holdsItems server.Properties (blockItems true (data.length + 1) data cursor)) ∧
    (∀ loc, parseLocationBlock data cursor = .ok (c, loc) →
      holdsItems loc.Properties (blockItems false (data.length + 1) data cursor)) := by
  constructor
  · intro server h
    have h2 := parseServerLoop_store _ _ _ _ _ _ _ [] h rfl
    exact holdsItems_of_store _ _ (by simpa using h2)
  · intro loc h
    have h2 := parseLocationLoop_store _ _ _ _ _ _ [] h rfl
    exact holdsItems_of_store _ _ (by simpa using h2)

/-- Witness of C23: the server block `listen 80;`, `if ($a)` with the body
`return 1;`, `root /x;`, a location block holding `root /y;`, `listen 443 ssl;`.
The store holds one condition (recorded as `$`), `return` with index `0`, and
`listen` with the two values of the block in line order, both with index
`-1`; `root /y` belongs to the location. -/
theorem conditional_properties_store_witness :
    holdsItems
      (some { Conditions := ["$".toList], Data := some [
        ("listen".toList, [⟨-1, "80".toList⟩, ⟨-1, "443 ssl".toList⟩]),
        ("return".toList, [⟨0, "1".toList⟩]),
        ("root".toList, [⟨-1, "/x".toList⟩])] })
      (blockItems true
        (["listen 80;".toList, "if ($a) \x7b".toList, "return 1;".toList, "\x7d".toList,
          "root /x;".toList, "location / \x7b".toList, "root /y;".toList, "\x7d".toList,
          "listen 443 ssl;".toList, "\x7d".toList].length + 1)
        ["listen 80;".toList, "if ($a) \x7b".toList, "return 1;".toList, "\x7d".toList,
          "root /x;".toList, "location / \x7b".toList, "root /y;".toList, "\x7d".toList,
          "listen 443 ssl;".toList, "\x7d".toList] 0) ∧
    blockItems true 11
        ["listen 80;".toList, "if ($a) \x7b".toList, "return 1;".toList, "\x7d".toList,
          "root /x;".toList, "location / \x7b".toList, "root /y;".toList, "\x7d".toList,
          "listen 443 ssl;".toList, "\x7d".toList] 0 =
      [.directive "listen".toList "80".toList,
       .ifBlock "$".toList [("return".toList, "1".toList)],
       .directive "root".toList "/x".toList,
       .location,
       .directive "listen".toList "443 ssl".toList] :=
  ⟨(conditional_properties_store
      ["listen 80;".toList, "if ($a) \x7b".toList, "return 1;".toList, "\x7d".toList,
        "root /x;".toList, "location / \x7b".toList, "root /y;".toList, "\x7d".toList,
        "listen 443 ssl;".toList, "\x7d".toList] 0 10).1
      { Properties := some { Conditions := ["$".toList], Data := some [
          ("listen".toList, [⟨-1, "80".toList⟩, ⟨-1, "443 ssl".toList⟩]),
          ("return".toList, [⟨0, "1".toList⟩]),
          ("root".toList, [⟨-1, "/x".toList⟩])] },
        Locations := [
          { Modifier := [], URI := "/".toList,
            Properties := some { Conditions := [], Data := some [
              ("root".toList, [⟨-1, "/y".toList⟩])] } }] }
      (by decide),
   by decide⟩

/-! ### The logical lines of a file without include directives -/

theorem runsOf_buffer (buf : List Str) (text : Str) (tl : List Str)
    (hbuf : ∀ l ∈ buf, endsStatement l = false) (hend : endsStatement text = true) :
    runsOf (buf ++ text :: tl) = (buf ++ [text]) :: runsOf tl := by
  induction buf with
  | nil => simp [runsOf, hend]
  | cons b rest ih =>
    have hb : endsStatement b = false := hbuf b (List.mem_cons_self _ _)
    rw [List.cons_append, runsOf, ih (fun l hl => hbuf l (List.mem_cons_of_mem _ hl))]
    simp [hb]

theorem runsOf_no_end (ls : List Str) (h : ∀ l ∈ ls, endsStatement l = false) :
    runsOf ls = if ls = [] then [] else [ls] := by
  induction ls with
  | nil => rfl
  | cons l rest ih =>
    have hl : endsStatement l = false := h l (List.mem_cons_self _ _)
    rw [runsOf, ih (fun x hx => h x (List.mem_cons_of_mem _ hx))]
    cases rest with
    | nil => simp [hl]
    | cons b t => simp [hl]

theorem completeRun_concat (init : List Str) (last : Str) :
    completeRun (init ++ [last]) = endsStatement last := by
  simp [completeRun]

theorem logicalLines_no_end (ls : List Str) (h : ∀ l ∈ ls, endsStatement l = false) :
    logicalLines ls = [] := by
  unfold logicalLines
  rw [runsOf_no_end ls h]
  split
  · rfl
  · have hc : completeRun ls = false := by
      unfold completeRun
      cases hg : ls.getLast? with
      | none => rfl
      | some x => exact h x (List.mem_of_getLast?_eq_some hg)
    simp [hc]

theorem logicalLines_buffer (buf : List Str) (text : Str) (tl : List Str)
    (hbuf : ∀ l ∈ buf, endsStatement l = false) (hend : endsStatement text = true) :
    logicalLines (buf ++ text :: tl) =
      stringsJoin (buf ++ [text]) [' '] :: logicalLines tl := by
  unfold logicalLines
  rw [runsOf_buffer buf text tl hbuf hend, List.filter_cons_of_pos, List.map_cons]
  rw [completeRun_concat, hend]

theorem significantLines_cons (raw : Str) (rest : List Str) :
    significantLines (raw :: rest) =
      if trimSpace raw = [] ∨ "#".toList.isPrefixOf (trimSpace raw) = true
      then significantLines rest else trimSpace raw :: significantLines rest := by
  have hiff : ((decide (trimSpace raw ≠ []) && !"#".toList.isPrefixOf (trimSpace raw)) = true) ↔
      ¬ (trimSpace raw = [] ∨ "#".toList.isPrefixOf (trimSpace raw) = true) := by
    rw [Bool.and_eq_true, decide_eq_true_eq, Bool.not_eq_true', not_or]
    simp only [ne_eq, Bool.not_eq_true]
  unfold significantLines
  rw [List.map_cons, List.filter_cons]
  by_cases hc : trimSpace raw = [] ∨ "#".toList.isPrefixOf (trimSpace raw) = true
  · rw [if_pos hc, if_neg (fun h => hiff.mp h hc)]
  · rw [if_neg hc, if_pos (hiff.mpr hc)]

theorem readFileLoop_no_include (glob : Str → Option (List Str))
    (readInclude : Str → Res (List Str)) (root : Str) (lines : List Str) :
    ∀ (data buf : List Str),
      (∀ l ∈ lines, "include".toList.isPrefixOf (trimSpace l) = false) →
      (∀ l ∈ buf, endsStatement l = false) →
      readFileLoop glob readInclude root lines data buf =
        .ok (data ++ logicalLines (buf ++ significantLines lines)) := by
  induction lines with
  | nil =>
    intro data buf _ hbuf
    have hs : significantLines [] = [] := rfl
    rw [readFileLoop, hs, List.append_nil, logicalLines_no_end buf hbuf, List.append_nil]
  | cons raw rest ih =>
    intro data buf hinc hbuf
    have hinc1 := hinc raw (List.mem_cons_self _ _)
    have hincr : ∀ l ∈ rest, "include".toList.isPrefixOf (trimSpace l) = false :=
      fun l hl => hinc l (List.mem_cons_of_mem _ hl)
    rw [readFileLoop, significantLines_cons]
    by_cases h1 : trimSpace raw = []
    · rw [if_pos h1, if_pos (Or.inl h1)]
      exact ih data buf hincr hbuf
    · rw [if_neg h1]
      by_cases h2 : "#".toList.isPrefixOf (trimSpace raw) = true
      · rw [if_pos h2, if_pos (Or.inr h2)]
        exact ih data buf hincr hbuf
      · have h3 : ¬ ("include".toList.isPrefixOf (trimSpace raw) = true) := by
          rw [hinc1]
          exact Bool.false_ne_true
        have h4 : ¬ (trimSpace raw = [] ∨ "#".toList.isPrefixOf (trimSpace raw) = true) :=
          fun h => h.elim h1 h2
        rw [if_neg h2, if_neg h3, if_neg h4]
        cases hend : endsStatement (trimSpace raw) with
        | false =>
          have hcond : (!isFullLine (trimSpace raw) && !isBlockPart (trimSpace raw)) = true := by
            simpa [endsStatement] using hend
          rw [if_pos hcond, ih data (buf ++ [trimSpace raw]) hincr]
          · rw [List.append_assoc, List.singleton_append]
          · intro l hl
            rcases List.mem_append.mp hl with h | h
            · exact hbuf l h
            · rw [List.mem_singleton.mp h]
              exact hend
        | true =>
          have hcond : ¬ ((!isFullLine (trimSpace raw) && !isBlockPart (trimSpace raw)) = true) := by
            intro hc
            have : endsStatement (trimSpace raw) = false := by
              simpa [endsStatement] using hc
            rw [hend] at this
            cases this
          rw [if_neg hcond, logicalLines_buffer buf _ _ hbuf hend]
          by_cases hlen : buf.length ≠ 0
          · rw [if_pos hlen, ih _ [] hincr (fun l hl => by cases hl)]
            simp
          · rw [if_neg hlen]
            have hnil : buf = [] := List.length_eq_zero.mp (by omega)
            subst hnil
            rw [ih _ [] hincr (fun l hl => by cases hl)]
            simp [stringsJoin]

theorem flatten_runsOf (ls : List Str) : (runsOf ls).flatten = ls := by
  induction ls with
  | nil => rfl
  | cons l rest ih =>
    rw [runsOf]
    split
    · rw [List.flatten_cons, ih]
      rfl
    · cases hr : runsOf rest with
      | nil =>
        rw [hr] at ih
        simp only [List.flatten_nil] at ih
        simp [← ih]
      | cons r rs =>
        rw [hr] at ih
        simp only [List.flatten_cons] at ih ⊢
        rw [List.cons_append, ih]

theorem runsOf_shape (ls : List Str) :
    ∀ r ∈ runsOf ls, ∃ init last, r = init ++ [last] ∧ ∀ l ∈ init, endsStatement l = false := by
  induction ls with
  | nil => intro r hr; cases hr
  | cons l rest ih =>
    intro r hr
    rw [runsOf] at hr
    split at hr
    · rcases List.mem_cons.mp hr with h | h
      · exact ⟨[], l, by simp [h], fun x hx => by cases hx⟩
      · exact ih r h
    · rename_i hl
      cases hR : runsOf rest with
      | nil =>
        rw [hR] at hr
        simp only [List.mem_singleton] at hr
        exact ⟨[], l, by simp [hr], fun x hx => by cases hx⟩
      | cons r0 rs =>
        rw [hR] at hr ih
        simp only at hr
        rcases List.mem_cons.mp hr with h | h
        · obtain ⟨init, last, hr0, hinit⟩ := ih r0 (List.mem_cons_self _ _)
          refine ⟨l :: init, last, by simp [h, hr0], ?_⟩
          intro x hx
          rcases List.mem_cons.mp hx with h1 | h1
          · rw [h1]
            simpa using hl
          · exact hinit x h1
        · exact ih r (List.mem_cons_of_mem _ h)

theorem runsOf_complete (ls : List Str) :
    ∀ r ∈ (runsOf ls).dropLast, completeRun r = true := by
  induction ls with
  | nil => intro r hr; cases hr
  | cons l rest ih =>
    intro r hr
    rw [runsOf] at hr
    split at hr
    · rename_i hl
      cases hR : runsOf rest with
      | nil =>
        rw [hR] at hr
        cases hr
      | cons r0 rs =>
        rw [hR] at hr ih
        rw [List.dropLast_cons₂] at hr
        rcases List.mem_cons.mp hr with h | h
        · rw [h]
          simpa [completeRun] using hl
        · exact ih r h
    · cases hR : runsOf rest with
      | nil =>
        rw [hR] at hr
        cases hr
      | cons r0 rs =>
        have hshape := runsOf_shape rest r0 (by rw [hR]; exact List.mem_cons_self _ _)
        rw [hR] at hr ih
        simp only at hr
        cases rs with
        | nil => cases hr
        | cons r1 rs1 =>
          rw [List.dropLast_cons₂] at hr ih
          rcases List.mem_cons.mp hr with h | h
          · obtain ⟨init, last, hr0, -⟩ := hshape
            have h0 := ih r0 (List.mem_cons_self _ _)
            rw [h, hr0, ← List.cons_append, completeRun_concat]
            rw [hr0, completeRun_concat] at h0
            exact h0
          · exact ih r (List.mem_cons_of_mem _ h)

theorem indexFrom_char_nonneg (c : Char) (s : Str) :
    ∀ i : Nat, 0 ≤ indexFrom [c] s i ↔ c ∈ s := by
  induction s with
  | nil => intro i; simp [indexFrom]
  | cons a rest ih =>
    intro i
    rw [indexFrom]
    by_cases h : c = a
    · subst h
      simp [List.isPrefixOf]
    · have hp : List.isPrefixOf [c] (a :: rest) = false := by
        simp [List.isPrefixOf, h]
      rw [hp]
      simp only [Bool.false_eq_true, if_false, ih, List.mem_cons, h, false_or]

theorem mem_stringsJoin_last (c : Char) (sep last : Str) (h : c ∈ last) :
    ∀ init : List Str, c ∈ stringsJoin (init ++ [last]) sep := by
  intro init
  induction init with
  | nil => exact h
  | cons a rest ih =>
    cases rest with
    | nil =>
      simp only [List.cons_append, List.nil_append, stringsJoin, List.mem_append]
      exact Or.inr h
    | cons b t =>
      simp only [List.cons_append, stringsJoin, List.mem_append] at ih ⊢
      exact Or.inr ih

theorem isFullLine_join (init : List Str) (last : Str) (h : isFullLine last = true) :
    isFullLine (stringsJoin (init ++ [last]) [' ']) = true := by
  unfold isFullLine stringsContains stringsIndex at h ⊢
  rw [decide_eq_true_eq, indexFrom_char_nonneg] at h ⊢
  exact mem_stringsJoin_last _ _ _ h _

/-- C25, as the source has it: for a file without a line that begins with
`include`, `readFile` returns the logical lines of the file in input order.
The trimmed lines that are neither empty nor comments are cut into runs, each
run ending at the first line that contains `;` or is a block start or a block
end; `readFile` emits every complete run, its lines joined with single spaces
(a run of one line is emitted unchanged), and does not emit the lines left
after the last complete run.  Every emitted line is the join of a run whose
last line contains `;` or is a block part and whose earlier lines do neither;
it contains `;` when that last line does. -/
theorem readFile_logical_lines (fs glob : Str → Option (List Str)) (fuel : Nat)
    (root file : Str) (lines : List Str)
    (hfs : fs (if !pathIsAbs file then root ++ '/' :: file else file) = some lines)
    (hinc : ∀ l ∈ lines, "include".toList.isPrefixOf (trimSpace l) = false) :
    readFile fs glob (fuel + 1) root file = .ok (logicalLines (significantLines lines)) ∧
    (runsOf (significantLines lines)).flatten = significantLines lines ∧
    (∀ r ∈ runsOf (significantLines lines),
      ∃ init last, r = init ++ [last] ∧ ∀ l ∈ init, endsStatement l = false) ∧
    (∀ r ∈ (runsOf (significantLines lines)).dropLast, completeRun r = true) ∧
    (∀ e ∈ logicalLines (significantLines lines),
      ∃ init last, e = stringsJoin (init ++ [last]) [' '] ∧ endsStatement last = true ∧
        (∀ l ∈ init, endsStatement l = false) ∧
        (isFullLine last = true → isFullLine e = true)) := by
  refine ⟨?_, flatten_runsOf _, runsOf_shape _, runsOf_complete _, ?_⟩
  · rw [readFile]
    simp only [hfs]
    rw [readFileLoop_no_include glob _ root lines [] [] hinc (fun l hl => by cases hl)]
    rfl
  · intro e he
    unfold logicalLines at he
    rw [List.mem_map] at he
    obtain ⟨r, hr, rfl⟩ := he
    rw [List.mem_filter] at hr
    obtain ⟨init, last, hshape, hinit⟩ := runsOf_shape _ r hr.1
    subst hshape
    refine ⟨init, last, rfl, ?_, hinit, isFullLine_join init last⟩
    rw [← completeRun_concat init last]
    exact hr.2

/-- Witness of C25: a file of eight lines, with a comment, an empty line, a
statement written on two lines and an unterminated last line, is read as four
logical lines; the spaces inside a line are kept as they are. -/
theorem readFile_logical_lines_witness :
    readFile
        (fun p => if p = "/etc/nginx/nginx.conf".toList then
          some ["# main".toList, "".toList, "worker_processes  4;".toList,
            "events \x7b".toList, "  worker_connections".toList, "    1024;".toList,
            "\x7d".toList, "log_format main".toList]
          else none)
        (fun _ => none) (0 + 1) "/etc/nginx".toList "nginx.conf".toList =
      .ok (logicalLines (significantLines
        ["# main".toList, "".toList, "worker_processes  4;".toList,
          "events \x7b".toList, "  worker_connections".toList, "    1024;".toList,
          "\x7d".toList, "log_format main".toList])) ∧
    logicalLines (significantLines
        ["# main".toList, "".toList, "worker_processes  4;".toList,
          "events \x7b".toList, "  worker_connections".toList, "    1024;".toList,
          "\x7d".toList, "log_format main".toList]) =
      ["worker_processes  4;".toList, "events \x7b".toList,
        "worker_connections 1024;".toList, "\x7d".toList] :=
  ⟨(readFile_logical_lines
      (fun p => if p = "/etc/nginx/nginx.conf".toList then
        some ["# main".toList, "".toList, "worker_processes  4;".toList,
          "events \x7b".toList, "  worker_connections".toList, "    1024;".toList,
          "\x7d".toList, "log_format main".toList]
        else none)
      (fun _ => none) 0 "/etc/nginx".toList "nginx.conf".toList
      ["# main".toList, "".toList, "worker_processes  4;".toList,
        "events \x7b".toList, "  worker_connections".toList, "    1024;".toList,
        "\x7d".toList, "log_format main".toList]
      (by decide) (by decide)).1, by decide⟩

/-- C25 as stated fails: the file of the two lines `set $x 'abc` and the
closing brace is read as the one line `set $x 'abc ` followed by the brace,
which contains no `;` and is no block part, the brace standing after an
unclosed quote. -/
theorem readFile_emitted_line_counterexample :
    ¬ (∀ (fs glob : Str → Option (List Str)) (root file : Str) (lines out : List Str),
        fs (if !pathIsAbs file then root ++ '/' :: file else file) = some lines →
        (∀ l ∈ lines, "include".toList.isPrefixOf (trimSpace l) = false) →
        readFile fs glob 1 root file = .ok out →
        ∀ e ∈ out, isFullLine e = true ∨ isBlockPart e = true) := by
  intro h
  have h1 := h (fun _ => some ["set $x 'abc".toList, "\x7d".toList]) (fun _ => none)
    [] "/f".toList ["set $x 'abc".toList, "\x7d".toList] ["set $x 'abc \x7d".toList]
    rfl (by decide) (by decide) "set $x 'abc \x7d".toList (List.mem_singleton_self _)
  revert h1
  decide

end Nginx
